import Mathlib

/-! # go-seckill: admission and inventory control

A shallow embedding of the flash-sale core of `go-seckill`:

* package `cache`      : the fast store (Redis) and the operations the service calls on it;
* package `utils`      : the sale-window test and the distributed lock;
* package `middleware` : the token-bucket rate gate;
* package `service`    : `GenerateToken`, `Seckill`, `CheckUserOrder`;
* package `controller` : the purchase handler.

Conventions of the embedding.

* Stateful code is written in state-passing style: an operation takes the state it reads
  and returns the state it leaves together with its Go results.
* Every reading of the clock (`time.Now()`), every generated identifier
  (`utils.GenerateOrderNo()`) and the outcome of the durable insert are explicit inputs.
* A `Time` is an instant in integer nanoseconds, the resolution of Go's `time.Time` and
  `time.Duration`.
* Redis counters are modelled by unbounded integers.  The depletion script decrements a
  counter only when it is positive and `Seckill` increments it only to undo such a
  decrement, so no operation on a counter modelled here leaves the 64-bit range when it
  starts inside it.
* A value of Go's `int` or `int64` is an integer of the 64-bit range.  Where an operation
  of the program can leave that range it is modelled as the machine performs it: the sum
  `tokens + tokensToAdd` of the rate gate wraps around (`wrapInt`), `Time.Sub` stops at
  the bounds of `time.Duration`, and `fmt.Sscanf` refuses a number that does not fit.
* The `float64` arithmetic of the rate gate is IEEE 754 binary64 with rounding to nearest,
  ties to even (`F64`): every operation returns the exact result rounded once.  The
  conversion of a `float64` outside the 64-bit range to `int` is the one of amd64.
* Calls into the fast store do not fail for transport reasons, and no key expires while
  a call runs; expiry of a key is the separate step `cache.Expire`.
-/

namespace GoSeckill

deriving instance DecidableEq for Except

/-! ## Machine arithmetic: 64-bit integers and binary64 floating point -/

/-- The least value of Go's `int64` (and of `int` on a 64-bit platform). -/
def minInt64 : Int := -9223372036854775808

/-- The greatest value of Go's `int64` (and of `int` on a 64-bit platform). -/
def maxInt64 : Int := 9223372036854775807

/-- The result of an `int` operation whose exact result is `x`: the value in the 64-bit
range that differs from `x` by a multiple of 2^64 (two's-complement wrap-around). -/
def wrapInt (x : Int) : Int :=
  (x + 9223372036854775808) % 18446744073709551616 - 9223372036854775808

/-- The number of binary digits of `n`, found with at most `fuel` halvings. -/
def bitLengthAux : Nat → Nat → Nat
  | 0, _ => 0
  | fuel + 1, n => if n = 0 then 0 else bitLengthAux fuel (n / 2) + 1

/-- The number of binary digits of `n` (0 for 0). -/
def bitLength (n : Nat) : Nat :=
  bitLengthAux n n

/-- The integer nearest to `p / q`, and the even one when two are equally near. -/
def roundHalfEven (p q : Nat) : Nat :=
  if 2 * (p % q) < q then p / q
  else if q < 2 * (p % q) then p / q + 1
  else if (p / q) % 2 = 0 then p / q
  else p / q + 1

/-- A finite value of Go's `float64` (IEEE 754 binary64), written `man * 2 ^ exp`.  The
values that arise in this program lie far inside the exponent range of the format, which
is not modelled: no operation here overflows to an infinity or reaches the subnormal
numbers. -/
structure F64 where
  man : Int
  exp : Int
deriving DecidableEq, Repr

/-- The `float64` nearest to the rational `num / den`, the one with an even significand
when two are equally near (the rounding of every `float64` operation): the significand is
`num / den` scaled into `[2^52, 2^53)` and rounded to an integer. -/
def F64.round (num : Int) (den : Nat) : F64 :=
  if num = 0 then ⟨0, 0⟩
  else
    let p := num.natAbs
    let k0 : Int := (bitLength p : Int) - (bitLength den : Int)
    let k : Int := if den * 2 ^ k0.toNat ≤ p * 2 ^ (-k0).toNat then k0 else k0 - 1
    let e : Int := k - 52
    ⟨num.sign * (roundHalfEven (p * 2 ^ (-e).toNat) (den * 2 ^ e.toNat) : Int), e⟩

/-- The `float64` nearest to `(num / den) * 2 ^ e`. -/
def F64.scale (num : Int) (den : Nat) (e : Int) : F64 :=
  F64.round (num * 2 ^ e.toNat) (den * 2 ^ (-e).toNat)

/-- The conversion `float64(n)` of an integer. -/
def F64.ofInt (n : Int) : F64 :=
  F64.round n 1

/-- The product of two `float64` values: the exact product, rounded. -/
def F64.mul (x y : F64) : F64 :=
  F64.scale (x.man * y.man) 1 (x.exp + y.exp)

/-- The sum of two `float64` values: the exact sum, rounded. -/
def F64.add (x y : F64) : F64 :=
  F64.scale (x.man * 2 ^ (x.exp - min x.exp y.exp).toNat +
    y.man * 2 ^ (y.exp - min x.exp y.exp).toNat) 1 (min x.exp y.exp)

/-- The quotient of two `float64` values, the second not zero: the exact quotient,
rounded. -/
def F64.div (x y : F64) : F64 :=
  F64.scale (x.man * y.man.sign) y.man.natAbs (x.exp - y.exp)

/-- The conversion `int(x)` of a `float64`: the fraction is dropped (truncation towards
zero).  When the result does not fit the 64-bit range Go leaves the value to the
implementation; the value here is the one of the amd64 conversion instruction. -/
def F64.toInt (x : F64) : Int :=
  let t := if 0 ≤ x.exp then x.man * 2 ^ x.exp.toNat else Int.tdiv x.man (2 ^ (-x.exp).toNat)
  if minInt64 ≤ t ∧ t ≤ maxInt64 then t else minInt64

/-- The rational number a `float64` value stands for. -/
def F64.val (x : F64) : ℚ :=
  (x.man : ℚ) * (2 : ℚ) ^ x.exp

/-- That a `float64` value `r` is a rounding of the rational `x ≥ 0`: it is within the
relative error `2^-53` of `x`, it is not below a power of two that `x` is not below, and
it exceeds an `x` below a power of two `2^K` by at most `2^(K-54)`. -/
def F64.Near (x : ℚ) (r : F64) : Prop :=
  0 ≤ r.val ∧ x * (1 - (2 : ℚ) ^ (-53 : Int)) ≤ r.val ∧ r.val ≤ x * (1 + (2 : ℚ) ^ (-53 : Int)) ∧
    ∀ K : Int, ((2 : ℚ) ^ K ≤ x → (2 : ℚ) ^ K ≤ r.val) ∧
      (x < (2 : ℚ) ^ K → r.val ≤ x + (2 : ℚ) ^ (K - 54))

/-! ## Package `fmt`: reading a decimal integer -/

/-- The function `isSpace` of `fmt`: the runes the scanner skips as blanks. -/
def fmt.isSpace (c : Char) : Bool :=
  (0x09 ≤ c.toNat && c.toNat ≤ 0x0d) || c.toNat == 0x20 || c.toNat == 0x85 ||
    c.toNat == 0xa0 || c.toNat == 0x1680 || (0x2000 ≤ c.toNat && c.toNat ≤ 0x200a) ||
    c.toNat == 0x2028 || c.toNat == 0x2029 || c.toNat == 0x202f || c.toNat == 0x205f ||
    c.toNat == 0x3000

/-- The method `SkipSpace` of the scanner as `Sscanf` runs it: blanks are passed over, and
a line feed met on the way is the error "unexpected newline" (`none`). -/
def fmt.SkipSpace : List Char → Option (List Char)
  | [] => some []
  | c :: rest =>
    if c = '\n' then none
    else if fmt.isSpace c then fmt.SkipSpace rest
    else some (c :: rest)

/-- The runes `scanNumber` accepts for the verb `%d`: the decimal digits and the
underscore. -/
def fmt.isDigit (c : Char) : Bool :=
  ('0' ≤ c && c ≤ '9') || c == '_'

/-- The value of a run of decimal digits, the most significant first. -/
def strconv.digitsValue (cs : List Char) : Nat :=
  cs.foldl (fun acc c => 10 * acc + (c.toNat - '0'.toNat)) 0

/-- The value `stock` holds after `var stock int64; fmt.Sscanf(str, "%d", &stock)`, whose
error the caller drops.  The scanner skips leading blanks, takes an optional sign and the
longest run of digits and underscores that follows, and hands them to
`strconv.ParseInt(tok, 10, 64)`; what comes after the run is left unread.  `stock` stays 0
when the scan fails: a line feed among the leading blanks, no digit, an underscore in the
run (a syntax error of `ParseInt`), or a value outside the 64-bit range. -/
def fmt.Sscanf (str : String) : Int :=
  match fmt.SkipSpace str.data with
  | none => 0
  | some cs =>
    let negative := cs.head? == some '-'
    let body := if cs.head? == some '-' || cs.head? == some '+' then cs.tail else cs
    let tok := body.takeWhile fmt.isDigit
    if tok.isEmpty || tok.contains '_' then 0
    else
      let v : Int := if negative then -(strconv.digitsValue tok : Int) else strconv.digitsValue tok
      if minInt64 ≤ v ∧ v ≤ maxInt64 then v else 0

/-! ## Package `cache`: the fast store -/

/-- A value held by the fast store.  Redis stores byte strings and reads a string that is
the decimal form of an integer as that integer (`INCR`, `DECR`, Lua `tonumber`);
`Val.int n` is the decimal string of `n`, and `Val.str s` is a string `s` with no numeric
reading.  The service stores integers under stock keys (`PreheatStock`, `DECR`, `INCR`),
the string "1" under token keys, a decimal timestamp under lock keys and an order number
(which starts with the letters ORD) under order-marker keys. -/
inductive Val where
  | int (n : Int)
  | str (s : String)
deriving DecidableEq, Repr

/-- The key space of the fast store (`cache.RDB`): the live keys with their values. -/
structure Store where
  entries : List (String × Val)
deriving DecidableEq, Repr

/-- The function `cache.Get`: `none` stands for the error returned for a missing key. -/
def cache.Get (rdb : Store) (key : String) : Option Val :=
  rdb.entries.lookup key

/-- The function `cache.Del`. -/
def cache.Del (rdb : Store) (key : String) : Store :=
  ⟨rdb.entries.filter (fun e => e.1 != key)⟩

/-- The function `cache.Set` (the expiration is not part of the state, see `cache.Expire`). -/
def cache.Set (rdb : Store) (key : String) (value : Val) : Store :=
  ⟨(key, value) :: (cache.Del rdb key).entries⟩

/-- Expiry of a key whose time-to-live has run out: the key disappears. -/
def cache.Expire (rdb : Store) (key : String) : Store :=
  cache.Del rdb key

/-- The function `cache.Incr` (Redis `INCR`): a missing key counts as 0; on a value that
is not an integer Redis reports an error and changes nothing.  Returns the new store and
the new value (`none` for the error). -/
def cache.Incr (rdb : Store) (key : String) : Store × Option Int :=
  match cache.Get rdb key with
  | none => (cache.Set rdb key (Val.int 1), some 1)
  | some (Val.int n) => (cache.Set rdb key (Val.int (n + 1)), some (n + 1))
  | some (Val.str _) => (rdb, none)

/-- The function `cache.Decr` (Redis `DECR`), as `cache.Incr`. -/
def cache.Decr (rdb : Store) (key : String) : Store × Option Int :=
  match cache.Get rdb key with
  | none => (cache.Set rdb key (Val.int (-1)), some (-1))
  | some (Val.int n) => (cache.Set rdb key (Val.int (n - 1)), some (n - 1))
  | some (Val.str _) => (rdb, none)

/-- The function `cache.SetNX`: sets the key only when it is absent and reports whether
it did. -/
def cache.SetNX (rdb : Store) (key : String) (value : Val) : Store × Bool :=
  match cache.Get rdb key with
  | none => (cache.Set rdb key value, true)
  | some _ => (rdb, false)

/-- One element of the array a Lua script returns to Go through `cache.Eval`. -/
inductive Reply where
  | int (n : Int)
  | str (s : String)
deriving DecidableEq, Repr

/-- Lua `tonumber(redis.call('get', key) or 0)`: a missing key reads as 0, an integer as
itself, and a string with no numeric reading as `nil` (here `none`). -/
def tonumber : Option Val → Option Int
  | none => some 0
  | some (Val.int n) => some n
  | some (Val.str _) => none

/-- The depletion script `luaScript` of `Seckill`, run by `cache.Eval` as one indivisible
step with `KEYS = [stockKey, orderKey]` and `ARGV = [orderNo]`:

    local stock = tonumber(redis.call('get', stockKey) or 0)
    if stock <= 0 then return {0, 'out of stock'} end
    redis.call('decr', stockKey)
    redis.call('setex', orderKey, 3600, orderNo)
    return {1, orderNo}

Comparing `nil` with 0 aborts the script; `cache.Eval` then returns an error and the
store is unchanged. -/
def luaScript (rdb : Store) (stockKey orderKey orderNo : String) :
    Store × Except String (List Reply) :=
  match tonumber (cache.Get rdb stockKey) with
  | none => (rdb, Except.error "attempt to compare nil with number")
  | some stock =>
    if stock ≤ 0 then
      (rdb, Except.ok [Reply.int 0, Reply.str "out of stock"])
    else
      let rdb1 := (cache.Decr rdb stockKey).1
      let rdb2 := cache.Set rdb1 orderKey (Val.str orderNo)
      (rdb2, Except.ok [Reply.int 1, Reply.str orderNo])

/-! ## Package `config`: the key prefixes set by `config.Load` -/

/-- The field `Seckill.TokenPrefix` of the loaded configuration. -/
def TokenPrefix : String := "seckill:token:"

/-- The field `Seckill.StockPrefix` of the loaded configuration. -/
def StockPrefix : String := "seckill:stock:"

/-- The field `Seckill.OrderPrefix` of the loaded configuration. -/
def OrderPrefix : String := "seckill:order:"

/-- The field `Seckill.LockPrefix` of the loaded configuration. -/
def LockPrefix : String := "seckill:lock:"

/-- The token key `fmt.Sprintf("%s%s", TokenPrefix, token)`. -/
def tokenKey (token : String) : String :=
  TokenPrefix ++ token

/-- The stock key `fmt.Sprintf("%s%d", StockPrefix, productID)`. -/
def stockKey (productID : Nat) : String :=
  StockPrefix ++ toString productID

/-- The order-marker key `fmt.Sprintf("%s%s:%d", OrderPrefix, userID, productID)`. -/
def orderKey (userID : String) (productID : Nat) : String :=
  OrderPrefix ++ userID ++ ":" ++ toString productID

/-- The lock key `fmt.Sprintf("%sorder:%s", LockPrefix, orderNo)`. -/
def lockKey (orderNo : String) : String :=
  LockPrefix ++ "order:" ++ orderNo

/-! ## Package `utils` -/

/-- An instant, in nanoseconds. -/
abbrev Time := Int

/-- The function `utils.IsSeckillTime`, with the reading `now` of the clock as an input:
`now.After(startTime) && now.Before(endTime)`. -/
def IsSeckillTime (now startTime endTime : Time) : Bool :=
  decide (startTime < now) && decide (now < endTime)

/-- The function `utils.BeforeSeckillTime`: `time.Now().Before(startTime)`. -/
def BeforeSeckillTime (now startTime : Time) : Bool :=
  decide (now < startTime)

/-- The function `utils.AfterSeckillTime`: `time.Now().After(endTime)`. -/
def AfterSeckillTime (now endTime : Time) : Bool :=
  decide (endTime < now)

/-- The struct `utils.DistributedLock` (its expiration is not part of the state). -/
structure DistributedLock where
  key : String
  value : Val
deriving DecidableEq, Repr

/-- The function `utils.NewDistributedLock`: the owner value is the decimal form of the
clock reading `nanos` taken by `time.Now().UnixNano()`. -/
def NewDistributedLock (key : String) (nanos : Int) : DistributedLock :=
  ⟨key, Val.int nanos⟩

/-- The method `DistributedLock.Lock`: `cache.SetNX(dl.key, dl.value, dl.expiration)`. -/
def DistributedLock.Lock (dl : DistributedLock) (rdb : Store) : Store × Bool :=
  cache.SetNX rdb dl.key dl.value

/-- The method `DistributedLock.Unlock`, whose script runs as one indivisible step:

    if redis.call("get", KEYS[1]) == ARGV[1] then return redis.call("del", KEYS[1])
    else return 0 end -/
def DistributedLock.Unlock (dl : DistributedLock) (rdb : Store) : Store :=
  if cache.Get rdb dl.key = some dl.value then cache.Del rdb dl.key else rdb

/-- The method `DistributedLock.TryLockWithRetry`: the loop
`for i := 0; i < maxRetries; i++`, with `remaining = maxRetries - i` iterations left.
Each iteration calls `Lock`, returns `true` when it succeeded and otherwise sleeps and
goes on; after the last one the result is `false`. -/
def DistributedLock.tryLockLoop (dl : DistributedLock) : Nat → Store → Store × Bool
  | 0, rdb => (rdb, false)
  | remaining + 1, rdb =>
    match dl.Lock rdb with
    | (rdb1, true) => (rdb1, true)
    | (rdb1, false) => dl.tryLockLoop remaining rdb1

/-- The method `DistributedLock.TryLockWithRetry(maxRetries, retryDelay)`. -/
def DistributedLock.TryLockWithRetry (dl : DistributedLock) (rdb : Store) (maxRetries : Int) :
    Store × Bool :=
  dl.tryLockLoop maxRetries.toNat rdb

/-! ## Package `models` and the durable store -/

/-- The model `models.Product` (the columns the service reads). -/
structure Product where
  ID : Nat
  Name : String
  Price : ℚ
  Stock : Int
  StartTime : Time
  EndTime : Time
  SeckillStock : Int
deriving DecidableEq

/-- The model `models.Order` (without the columns the database fills in). -/
structure Order where
  OrderNo : String
  UserID : String
  ProductID : Nat
  ProductName : String
  Price : ℚ
  Status : String
deriving DecidableEq

/-- The constant `models.OrderStatusPending`. -/
def OrderStatusPending : String := "pending"

/-- The constant `models.OrderStatusCancelled`. -/
def OrderStatusCancelled : String := "cancelled"

/-- The state the service works on: the fast store `cache.RDB` and the two tables behind
`database.DB`. -/
structure World where
  rdb : Store
  products : List Product
  orders : List Order
deriving DecidableEq

/-- The query `database.DB.First(&product, productID)`: the row with that primary key,
`none` standing for the error of a missing row. -/
def World.findProduct (w : World) (productID : Nat) : Option Product :=
  w.products.find? (fun p => p.ID == productID)

/-- The query of `CheckUserOrder`:
`Where("user_id = ? AND product_id = ? AND status != ?", userID, productID, cancelled).Count`. -/
def World.countOrders (w : World) (userID : String) (productID : Nat) : Nat :=
  (w.orders.filter (fun o =>
    o.UserID == userID && o.ProductID == productID && o.Status != OrderStatusCancelled)).length

/-! ## Package `service` -/

/-- The method `SeckillService.PreheatStock`. -/
def PreheatStock (w : World) (productID : Nat) (stock : Int) : World :=
  { w with rdb := cache.Set w.rdb (stockKey productID) (Val.int stock) }

/-- The method `SeckillService.GetStockFromRedis`: `none` is the error of `cache.Get`;
otherwise `fmt.Sscanf(stockStr, "%d", &stock)` fills `stock`, and its error is dropped.
The decimal string of an integer `n` is read back as `n` when `n` fits the 64-bit range
and leaves `stock` at 0 when it does not; any other string is read by `fmt.Sscanf`. -/
def GetStockFromRedis (w : World) (productID : Nat) : Option Int :=
  match cache.Get w.rdb (stockKey productID) with
  | none => none
  | some (Val.int n) => some (if minInt64 ≤ n ∧ n ≤ maxInt64 then n else 0)
  | some (Val.str str) => some (fmt.Sscanf str)

/-- The token `fmt.Sprintf("%s-%d-%d", userID, productID, time.Now().UnixNano())`. -/
def tokenString (userID : String) (productID : Nat) (nanos : Int) : String :=
  userID ++ "-" ++ toString productID ++ "-" ++ toString nanos

/-- The method `SeckillService.GenerateToken`.  `now` is the clock reading taken inside
`utils.IsSeckillTime` and `nanos` the later one, `time.Now().UnixNano()`, that ends the
token. -/
def GenerateToken (w : World) (now : Time) (nanos : Int) (userID : String) (productID : Nat) :
    World × Except String String :=
  match w.findProduct productID with
  | none => (w, Except.error "product not found")
  | some product =>
    if !IsSeckillTime now product.StartTime product.EndTime then
      (w, Except.error "seckill not started or ended")
    else
      match GetStockFromRedis w productID with
      | none => (w, Except.error "out of stock")
      | some stock =>
        if stock ≤ 0 then
          (w, Except.error "out of stock")
        else
          let token := tokenString userID productID nanos
          ({ w with rdb := cache.Set w.rdb (tokenKey token) (Val.int 1) }, Except.ok token)

/-- What one run of `Seckill` takes from its environment. -/
structure SeckillEnv where
  /-- The result of `utils.GenerateOrderNo()`. -/
  orderNo : String
  /-- The clock reading `time.Now().UnixNano()` inside `utils.NewDistributedLock`. -/
  lockNanos : Int
  /-- Whether `database.DB.Create(order)` returns an error (for any cause: the database
  is unreachable, the unique index on the order number rejects the row). -/
  createFails : Bool
deriving DecidableEq

/-- The method `SeckillService.Seckill`. -/
def Seckill (w : World) (env : SeckillEnv) (userID : String) (productID : Nat)
    (token : String) : World × Except String Order :=
  match cache.Get w.rdb (tokenKey token) with
  | none => (w, Except.error "invalid token")
  | some _ =>
    let orderNo := env.orderNo
    match luaScript w.rdb (stockKey productID) (orderKey userID productID) orderNo with
    | (rdb1, Except.error err) =>
      ({ w with rdb := rdb1 }, Except.error ("seckill failed: " ++ err))
    | (rdb1, Except.ok resultArray) =>
      let w1 : World := { w with rdb := rdb1 }
      match resultArray with
      | Reply.int success :: second :: _ =>
        if success = 0 then
          let errMsg := match second with
            | Reply.str s => s
            | Reply.int _ => ""
          (w1, Except.error (if errMsg = "" then "seckill failed" else errMsg))
        else
          match w1.findProduct productID with
          | none => (w1, Except.error "product not found")
          | some product =>
            let order : Order :=
              { OrderNo := orderNo, UserID := userID, ProductID := productID,
                ProductName := product.Name, Price := product.Price,
                Status := OrderStatusPending }
            let lock := NewDistributedLock (lockKey orderNo) env.lockNanos
            match lock.TryLockWithRetry w1.rdb 3 with
            | (rdb2, false) =>
              ({ w1 with rdb := rdb2 }, Except.error "failed to acquire lock")
            | (rdb2, true) =>
              if env.createFails then
                let rdb3 := (cache.Incr rdb2 (stockKey productID)).1
                ({ w1 with rdb := lock.Unlock rdb3 }, Except.error "failed to create order")
              else
                let rdb3 := cache.Del rdb2 (tokenKey token)
                ({ w1 with rdb := lock.Unlock rdb3, orders := w1.orders ++ [order] },
                  Except.ok order)
      | Reply.str _ :: _ :: _ => (w1, Except.error "invalid lua script result type")
      | _ => (w1, Except.error "invalid lua script result")

/-- The method `SeckillService.CheckUserOrder` (its error result is always `nil`). -/
def CheckUserOrder (w : World) (userID : String) (productID : Nat) : Bool :=
  match cache.Get w.rdb (orderKey userID productID) with
  | some _ => true
  | none => decide (w.countOrders userID productID > 0)

/-! ## Package `controller` -/

/-- The body of a purchase request, as bound by `ctx.ShouldBindJSON`. -/
structure SeckillRequest where
  ProductID : Nat
  UserID : String
  Token : String
deriving DecidableEq

/-- The struct `controller.Response`. -/
structure Response where
  Code : Nat
  Msg : String
  Data : Option Order
deriving DecidableEq

/-- The handler `SeckillController.Seckill`.  The three fields are bound as `required`,
which rejects a zero `product_id` and an empty `user_id` or `token`; the text of that
error, written by the binding library, is abbreviated here. -/
def SeckillController.Seckill (w : World) (env : SeckillEnv) (req : SeckillRequest) :
    World × Response :=
  if req.ProductID = 0 ∨ req.UserID = "" ∨ req.Token = "" then
    (w, ⟨400, "required field missing", none⟩)
  else if CheckUserOrder w req.UserID req.ProductID then
    (w, ⟨400, "user already has an order", none⟩)
  else
    match GoSeckill.Seckill w env req.UserID req.ProductID req.Token with
    | (w1, Except.error err) => (w1, ⟨400, err, none⟩)
    | (w1, Except.ok order) => (w1, ⟨200, "seckill success", some order⟩)

/-- The first half of the handler `SeckillController.Seckill`, up to and including its
test `CheckUserOrder`: the response with which the handler returns early, or `none` when
it goes on to call `Seckill`.  This half reads the state and does not change it. -/
def SeckillController.SeckillGuard (w : World) (req : SeckillRequest) : Option Response :=
  if req.ProductID = 0 ∨ req.UserID = "" ∨ req.Token = "" then
    some ⟨400, "required field missing", none⟩
  else if CheckUserOrder w req.UserID req.ProductID then
    some ⟨400, "user already has an order", none⟩
  else
    none

/-- The second half of the handler `SeckillController.Seckill`: the call of `Seckill` on
the service and the response built from its result. -/
def SeckillController.SeckillCall (w : World) (env : SeckillEnv) (req : SeckillRequest) :
    World × Response :=
  match GoSeckill.Seckill w env req.UserID req.ProductID req.Token with
  | (w1, Except.error err) => (w1, ⟨400, err, none⟩)
  | (w1, Except.ok order) => (w1, ⟨200, "seckill success", some order⟩)

/-! ## Package `middleware`: the rate gate -/

/-- The struct `middleware.TokenBucket` (without its mutex). -/
structure TokenBucket where
  capacity : Int
  tokens : Int
  rate : Int
  lastCheck : Time
deriving DecidableEq, Repr

/-- The function `middleware.NewTokenBucket`, with the clock reading `now` as an input. -/
def NewTokenBucket (capacity rate : Int) (now : Time) : TokenBucket :=
  { capacity := capacity, tokens := capacity, rate := rate, lastCheck := now }

/-- The function `min` of package `middleware`. -/
def middleware.min (a b : Int) : Int :=
  if a < b then a else b

/-- The method `Time.Sub` of package `time`: the nanoseconds from `u` to `t` as a
`time.Duration`, which is an `int64`; a difference outside the 64-bit range is replaced by
the nearest bound. -/
def Time.Sub (t u : Time) : Int :=
  if t - u < minInt64 then minInt64
  else if maxInt64 < t - u then maxInt64
  else t - u

/-- The method `Duration.Seconds` of package `time`, for a duration of `d` nanoseconds:

    sec := d / Second
    nsec := d % Second
    return float64(sec) + float64(nsec)/1e9 -/
def Duration.Seconds (d : Int) : F64 :=
  F64.add (F64.ofInt (Int.tdiv d 1000000000))
    (F64.div (F64.ofInt (Int.tmod d 1000000000)) (F64.ofInt 1000000000))

/-- The number `int(elapsed.Seconds() * float64(tb.rate))` of `Allow`, computed as the
program computes it: the seconds as a `float64`, the rate converted to `float64`, their
`float64` product, and the conversion of the product to `int`. -/
def tokensToAdd (elapsed : Int) (rate : Int) : Int :=
  F64.toInt (F64.mul (Duration.Seconds elapsed) (F64.ofInt rate))

/-- The method `TokenBucket.Allow`, with the clock reading `now` as an input; the bucket
is returned with the answer.  The sum `tb.tokens + tokensToAdd` is an `int` sum and wraps
around; the decrement is made on a positive `int` and cannot. -/
def TokenBucket.Allow (tb : TokenBucket) (now : Time) : TokenBucket × Bool :=
  let elapsed := Time.Sub now tb.lastCheck
  let add := tokensToAdd elapsed tb.rate
  let tb1 : TokenBucket :=
    if add > 0 then
      { tb with tokens := middleware.min tb.capacity (wrapInt (tb.tokens + add)),
                lastCheck := now }
    else tb
  if tb1.tokens > 0 then
    ({ tb1 with tokens := tb1.tokens - 1 }, true)
  else
    (tb1, false)

/-! ## Runs of several steps -/

/-- One step of a sequential run of the system: a call of `GenerateToken`, a call of
`Seckill` on the service, a purchase request served by the handler, or the expiry of a
key of the fast store. -/
inductive Step where
  | issue (now : Time) (nanos : Int) (userID : String) (productID : Nat)
  | seckill (env : SeckillEnv) (userID : String) (productID : Nat) (token : String)
  | purchase (env : SeckillEnv) (req : SeckillRequest)
  | expire (key : String)
deriving DecidableEq

/-- The state a step leaves. -/
def Step.run (w : World) : Step → World
  | Step.issue now nanos userID productID => (GenerateToken w now nanos userID productID).1
  | Step.seckill env userID productID token => (Seckill w env userID productID token).1
  | Step.purchase env req => (SeckillController.Seckill w env req).1
  | Step.expire key => { w with rdb := cache.Expire w.rdb key }

/-- The state a sequence of steps leaves. -/
def runSteps (w : World) : List Step → World
  | [] => w
  | s :: rest => runSteps (s.run w) rest

/-- Whether a step is a call of `GenerateToken` that builds the token `token`. -/
def Step.issues (token : String) : Step → Prop
  | Step.issue _ nanos userID productID => tokenString userID productID nanos = token
  | _ => False

instance Step.decidableIssues (token : String) : (s : Step) → Decidable (s.issues token)
  | Step.issue _ nanos userID productID =>
    inferInstanceAs (Decidable (tokenString userID productID nanos = token))
  | Step.seckill _ _ _ _ => isFalse (fun h => h)
  | Step.purchase _ _ => isFalse (fun h => h)
  | Step.expire _ => isFalse (fun h => h)

/-- Whether a step reaches the service through the handlers of the controller (token
requests and purchase requests) or is an expiry, as opposed to a direct call of
`Seckill`. -/
def Step.isRequest : Step → Prop
  | Step.seckill _ _ _ _ => False
  | _ => True

instance Step.decidableIsRequest : (s : Step) → Decidable s.isRequest
  | Step.issue _ _ _ _ => isTrue trivial
  | Step.seckill _ _ _ _ => isFalse (fun h => h)
  | Step.purchase _ _ => isTrue trivial
  | Step.expire _ => isTrue trivial

/-- The answers of a bucket to calls of `Allow` at the given instants, one after the
other, and the bucket after the last call. -/
def TokenBucket.allows (tb : TokenBucket) : List Time → TokenBucket × List Bool
  | [] => (tb, [])
  | now :: rest =>
    let call := tb.Allow now
    let tail := TokenBucket.allows call.1 rest
    (tail.1, call.2 :: tail.2)

/-- Whether no refill overflows in the calls of `Allow` at the given instants, one after
the other: at every call that has tokens to add, the exact sum `tokens + tokensToAdd` is
at most the greatest `int`. -/
def TokenBucket.fits (tb : TokenBucket) : List Time → Bool
  | [] => true
  | now :: rest =>
    (decide (tokensToAdd (Time.Sub now tb.lastCheck) tb.rate ≤ 0) ||
      decide (tb.tokens + tokensToAdd (Time.Sub now tb.lastCheck) tb.rate ≤ maxInt64)) &&
    TokenBucket.fits (tb.Allow now).1 rest

/-- A state with two items on sale from instant 0 to instant 1000, two units of the first
and one of the second in stock, and no token, marker, lock or order yet. -/
def demoWorld : World :=
  { rdb := ⟨[(stockKey 1, Val.int 2), (stockKey 2, Val.int 1)]⟩,
    products := [⟨1, "phone", 99, 10, 0, 1000, 1⟩, ⟨2, "watch", 49, 10, 0, 1000, 1⟩],
    orders := [] }

/-- One buyer at the depletion step: the identity and the order number generated for
the attempt. -/
structure Attempt where
  userID : String
  orderNo : String
deriving DecidableEq

/-- What the depletion script answers to an attempt it serves. -/
def Attempt.reserved (a : Attempt) : Except String (List Reply) :=
  Except.ok [Reply.int 1, Reply.str a.orderNo]

/-- What the depletion script answers when nothing is left. -/
def outOfStock : Except String (List Reply) :=
  Except.ok [Reply.int 0, Reply.str "out of stock"]

/-- The depletion steps of several attempts on one item, in the order in which the
store runs them; each step is the script with the keys `Seckill` passes to it.  Returns the
store left by the last step and the answers in order. -/
def depletions (productID : Nat) :
    Store → List Attempt → Store × List (Except String (List Reply))
  | rdb, [] => (rdb, [])
  | rdb, a :: rest =>
    let step := luaScript rdb (stockKey productID) (orderKey a.userID productID) a.orderNo
    let tail := depletions productID step.1 rest
    (tail.1, step.2 :: tail.2)

/-! ## The duplicate guard and the lock seen from their callers -/

/-- The method `SeckillService.CheckUserOrder` with everything it returns and leaves: the
state after the call, the boolean and the error (`none` for `nil`).  The method calls
`cache.Get` and the count query and nothing else. -/
def CheckUserOrder.call (w : World) (userID : String) (productID : Nat) :
    World × Bool × Option String :=
  match cache.Get w.rdb (orderKey userID productID) with
  | some _ => (w, true, none)
  | none => (w, decide (w.countOrders userID productID > 0), none)

/-- What one call of `cache.SetNX` returns to `DistributedLock.Lock`: the key was set, the
key was held, or the call failed with an error. -/
inductive SetNXResult where
  | acquired
  | held
  | failed (err : String)
deriving DecidableEq, Repr

/-- The loop of `DistributedLock.TryLockWithRetry` when the `i`-th call of `Lock` (counted
from 0) returns `outcome i`, whatever makes it so (other holders of the key, expiry, a
failing store).  `remaining` iterations are left and `i` calls of `Lock` have been made.
Returns the number of calls of `Lock` made in all and the two results of the method. -/
def tryLockOutcomes (outcome : Nat → SetNXResult) : Nat → Nat → Nat × Bool × Option String
  | 0, i => (i, false, none)
  | remaining + 1, i =>
    match outcome i with
    | SetNXResult.failed err => (i + 1, false, some err)
    | SetNXResult.acquired => (i + 1, true, none)
    | SetNXResult.held => tryLockOutcomes outcome remaining (i + 1)

/-- The method `DistributedLock.TryLockWithRetry(maxRetries, retryDelay)` over the outcomes
of its calls of `Lock`. -/
def TryLockWithRetryOn (maxRetries : Int) (outcome : Nat → SetNXResult) :
    Nat × Bool × Option String :=
  tryLockOutcomes outcome maxRetries.toNat 0

/-- What `cache.SetNX` on a key returns as long as nobody else touches the store. -/
def storeOutcome (rdb : Store) (key : String) : SetNXResult :=
  match cache.Get rdb key with
  | none => SetNXResult.acquired
  | some _ => SetNXResult.held

/-! ## Seckill, one operation on the stores at a time -/

/-- The arguments of a call of `Seckill` and what it takes from its environment. -/
structure Call where
  env : SeckillEnv
  userID : String
  productID : Nat
  token : String
deriving DecidableEq

/-- Where a call of `Seckill` stands between two of its operations on the fast store and
the database. -/
inductive Pc where
  /-- Before `cache.Get(tokenKey)`. -/
  | start
  /-- The token was found; before `cache.Eval(luaScript, ...)`. -/
  | checked
  /-- The script answered 1; before `database.DB.First(&product, productID)`. -/
  | depleted
  /-- Inside `TryLockWithRetry`, before a call of `Lock`, `remaining` iterations left. -/
  | locking (product : Product) (remaining : Nat)
  /-- The lock is held; before `database.DB.Create(order)`. -/
  | locked (product : Product)
  /-- The insert failed; before `cache.Incr(stockKey)`. -/
  | rollback
  /-- The insert succeeded; before `cache.Del(tokenKey)`. -/
  | created (order : Order)
  /-- Before the deferred `lock.Unlock()`; `order` is the order created, if any. -/
  | unlocking (order : Option Order)
  /-- Returned. -/
  | done (result : Except String Order)
deriving DecidableEq

/-- What `Seckill` returns after the deferred unlock. -/
def Pc.unlockResult : Option Order → Except String Order
  | some order => Except.ok order
  | none => Except.error "failed to create order"

/-- The next operation of a call of `Seckill` on the stores, run as one indivisible step,
with the code up to the operation after it. -/
def Call.step (c : Call) (w : World) : Pc → World × Pc
  | Pc.start =>
    match cache.Get w.rdb (tokenKey c.token) with
    | none => (w, Pc.done (Except.error "invalid token"))
    | some _ => (w, Pc.checked)
  | Pc.checked =>
    match luaScript w.rdb (stockKey c.productID) (orderKey c.userID c.productID)
        c.env.orderNo with
    | (rdb1, Except.error err) =>
      ({ w with rdb := rdb1 }, Pc.done (Except.error ("seckill failed: " ++ err)))
    | (rdb1, Except.ok resultArray) =>
      let w1 : World := { w with rdb := rdb1 }
      match resultArray with
      | Reply.int success :: second :: _ =>
        if success = 0 then
          let errMsg := match second with
            | Reply.str s => s
            | Reply.int _ => ""
          (w1, Pc.done (Except.error (if errMsg = "" then "seckill failed" else errMsg)))
        else
          (w1, Pc.depleted)
      | Reply.str _ :: _ :: _ =>
        (w1, Pc.done (Except.error "invalid lua script result type"))
      | _ => (w1, Pc.done (Except.error "invalid lua script result"))
  | Pc.depleted =>
    match w.findProduct c.productID with
    | none => (w, Pc.done (Except.error "product not found"))
    | some product => (w, Pc.locking product 3)
  | Pc.locking _ 0 => (w, Pc.done (Except.error "failed to acquire lock"))
  | Pc.locking product (remaining + 1) =>
    match (NewDistributedLock (lockKey c.env.orderNo) c.env.lockNanos).Lock w.rdb with
    | (rdb1, true) => ({ w with rdb := rdb1 }, Pc.locked product)
    | (rdb1, false) =>
      if remaining = 0 then
        ({ w with rdb := rdb1 }, Pc.done (Except.error "failed to acquire lock"))
      else
        ({ w with rdb := rdb1 }, Pc.locking product remaining)
  | Pc.locked product =>
    if c.env.createFails then
      (w, Pc.rollback)
    else
      let order : Order :=
        { OrderNo := c.env.orderNo, UserID := c.userID, ProductID := c.productID,
          ProductName := product.Name, Price := product.Price,
          Status := OrderStatusPending }
      ({ w with orders := w.orders ++ [order] }, Pc.created order)
  | Pc.rollback =>
    ({ w with rdb := (cache.Incr w.rdb (stockKey c.productID)).1 }, Pc.unlocking none)
  | Pc.created order =>
    ({ w with rdb := cache.Del w.rdb (tokenKey c.token) }, Pc.unlocking (some order))
  | Pc.unlocking order =>
    ({ w with rdb :=
        (NewDistributedLock (lockKey c.env.orderNo) c.env.lockNanos).Unlock w.rdb },
      Pc.done (Pc.unlockResult order))
  | Pc.done result => (w, Pc.done result)

/-- A call of `Seckill` run on its own for `n` steps. -/
def Call.steps (c : Call) : Nat → World × Pc → World × Pc
  | 0, s => s
  | n + 1, s => Call.steps c n (c.step s.1 s.2)

/-- The two calls of an interleaving. -/
inductive Who where
  | A
  | B
deriving DecidableEq, Repr

/-- Two calls of `Seckill` in progress on one state. -/
structure Sys where
  w : World
  a : Pc
  b : Pc
deriving DecidableEq

/-- One step of an interleaving: the named call runs its next operation. -/
def Sys.step (ca cb : Call) (s : Sys) : Who → Sys
  | Who.A => { s with w := (ca.step s.w s.a).1, a := (ca.step s.w s.a).2 }
  | Who.B => { s with w := (cb.step s.w s.b).1, b := (cb.step s.w s.b).2 }

/-- An interleaving of two calls: the schedule says whose operation comes next. -/
def interleave (ca cb : Call) (s : Sys) : List Who → Sys
  | [] => s
  | who :: rest => interleave ca cb (s.step ca cb who) rest

/-- Whether a call has deleted the token after creating its order (it then returns that
order once it has released its lock). -/
def Pc.deletedToken : Pc → Prop
  | Pc.unlocking (some _) => True
  | Pc.done (Except.ok _) => True
  | _ => False

/-- Whether a call has returned the error "invalid token". -/
def Pc.invalidToken (pc : Pc) : Prop :=
  pc = Pc.done (Except.error "invalid token")

/-- The relation between the token key and the progress of two calls that present the
same token, kept by every step of an interleaving: the token is present unless one of the
calls has deleted it, a call has been refused the token only if the other has deleted it,
and once a call has deleted it the token is absent. -/
def Sys.tokenInvariant (token : String) (s : Sys) : Prop :=
  (cache.Get s.w.rdb (tokenKey token) ≠ none ∨ s.a.deletedToken ∨ s.b.deletedToken) ∧
    (s.a.invalidToken → s.b.deletedToken) ∧
    (s.b.invalidToken → s.a.deletedToken) ∧
    (s.a.deletedToken ∨ s.b.deletedToken → cache.Get s.w.rdb (tokenKey token) = none)

/-- A state in which a token is present and the stock counter of item 7 holds 1, while
the product table has no row 7 (the row was never created, or is deleted). -/
def orphanStockWorld : World :=
  { rdb := ⟨[(tokenKey "alice-7-77", Val.int 1), (stockKey 7, Val.int 1)]⟩,
    products := [],
    orders := [] }

/-! # Properties -/

/-! ## The fast store: reading after writing -/

theorem cache.lookup_cons_self (key : String) (value : Val) (es : List (String × Val)) :
    List.lookup key ((key, value) :: es) = some value := by
  simp [List.lookup_cons]

theorem cache.lookup_cons_of_ne (key other : String) (value : Val)
    (es : List (String × Val)) (h : other ≠ key) :
    List.lookup other ((key, value) :: es) = List.lookup other es := by
  have h1 : (other == key) = false := by simp [h]
  simp [List.lookup_cons, h1]

theorem cache.Get_Del_self (rdb : Store) (key : String) :
    cache.Get (cache.Del rdb key) key = none := by
  obtain ⟨es⟩ := rdb
  simp only [cache.Get, cache.Del]
  induction es with
  | nil => rfl
  | cons e es ih =>
    obtain ⟨a, b⟩ := e
    by_cases h : a = key
    · simp [List.filter_cons, h, ih]
    · have h2 : key ≠ a := fun h3 => h h3.symm
      simp only [List.filter_cons, bne_iff_ne, ne_eq, h, not_false_eq_true, decide_True,
        if_true]
      rw [cache.lookup_cons_of_ne a key b _ h2]
      exact ih

theorem cache.Get_Del_of_ne (rdb : Store) (key other : String) (h : other ≠ key) :
    cache.Get (cache.Del rdb key) other = cache.Get rdb other := by
  obtain ⟨es⟩ := rdb
  simp only [cache.Get, cache.Del]
  induction es with
  | nil => rfl
  | cons e es ih =>
    obtain ⟨a, b⟩ := e
    by_cases h1 : a = key
    · have h2 : other ≠ a := fun h3 => h (h3.trans h1)
      rw [cache.lookup_cons_of_ne a other b _ h2]
      simp [List.filter_cons, h1, ih]
    · simp only [List.filter_cons, bne_iff_ne, ne_eq, h1, not_false_eq_true, decide_True,
        if_true]
      by_cases h2 : other = a
      · subst h2
        rw [cache.lookup_cons_self, cache.lookup_cons_self]
      · rw [cache.lookup_cons_of_ne a other b _ h2, cache.lookup_cons_of_ne a other b _ h2]
        exact ih

theorem cache.Get_Set_self (rdb : Store) (key : String) (value : Val) :
    cache.Get (cache.Set rdb key value) key = some value := by
  simp only [cache.Get, cache.Set]
  exact cache.lookup_cons_self key value _

theorem cache.Get_Set_of_ne (rdb : Store) (key other : String) (value : Val)
    (h : other ≠ key) :
    cache.Get (cache.Set rdb key value) other = cache.Get rdb other := by
  have h1 := cache.Get_Del_of_ne rdb key other h
  simp only [cache.Get, cache.Set] at h1 ⊢
  rw [cache.lookup_cons_of_ne key other value _ h]
  exact h1

/-! ## Keys of different kinds never coincide -/

theorem tokenKey_ne_stockKey (token : String) (productID : Nat) :
    tokenKey token ≠ stockKey productID := by
  intro h
  have h2 := congrArg String.data h
  simp [tokenKey, stockKey, TokenPrefix, StockPrefix, String.data_append] at h2

theorem orderKey_ne_stockKey (userID : String) (productID other : Nat) :
    orderKey userID productID ≠ stockKey other := by
  intro h
  have h2 := congrArg String.data h
  simp [orderKey, stockKey, OrderPrefix, StockPrefix, String.data_append] at h2

theorem lockKey_ne_stockKey (orderNo : String) (productID : Nat) :
    lockKey orderNo ≠ stockKey productID := by
  intro h
  have h2 := congrArg String.data h
  simp [lockKey, stockKey, LockPrefix, StockPrefix, String.data_append] at h2

theorem orderKey_ne_tokenKey (userID : String) (productID : Nat) (token : String) :
    orderKey userID productID ≠ tokenKey token := by
  intro h
  have h2 := congrArg String.data h
  simp [orderKey, tokenKey, OrderPrefix, TokenPrefix, String.data_append] at h2

theorem lockKey_ne_tokenKey (orderNo token : String) :
    lockKey orderNo ≠ tokenKey token := by
  intro h
  have h2 := congrArg String.data h
  simp [lockKey, tokenKey, LockPrefix, TokenPrefix, String.data_append] at h2

theorem lockKey_ne_orderKey (orderNo userID : String) (productID : Nat) :
    lockKey orderNo ≠ orderKey userID productID := by
  intro h
  have h2 := congrArg String.data h
  simp [lockKey, orderKey, LockPrefix, OrderPrefix, String.data_append] at h2

theorem tokenKey_injective (t1 t2 : String) (h : tokenKey t1 = tokenKey t2) : t1 = t2 := by
  have h2 := congrArg String.data h
  simp [tokenKey, TokenPrefix, String.data_append] at h2
  exact String.ext h2

/-! ## The depletion script -/

theorem luaScript_of_pos (rdb : Store) (sk ok orderNo : String) (n : Int)
    (hget : cache.Get rdb sk = some (Val.int n)) (hpos : 0 < n) :
    luaScript rdb sk ok orderNo =
      (cache.Set (cache.Set rdb sk (Val.int (n - 1))) ok (Val.str orderNo),
        Except.ok [Reply.int 1, Reply.str orderNo]) := by
  have h : ¬ n ≤ 0 := not_le.mpr hpos
  simp [luaScript, tonumber, hget, h, cache.Decr]

theorem luaScript_of_nonpos (rdb : Store) (sk ok orderNo : String) (n : Int)
    (hget : cache.Get rdb sk = some (Val.int n)) (hn : n ≤ 0) :
    luaScript rdb sk ok orderNo = (rdb, outOfStock) := by
  simp [luaScript, tonumber, hget, hn, outOfStock]

theorem luaScript_of_absent (rdb : Store) (sk ok orderNo : String)
    (hget : cache.Get rdb sk = none) :
    luaScript rdb sk ok orderNo = (rdb, outOfStock) := by
  simp [luaScript, tonumber, hget, outOfStock]


/-! ## No overselling -/

theorem depletions_spec (productID : Nat) (attempts : List Attempt) :
    ∀ (rdb : Store) (S : Nat), cache.Get rdb (stockKey productID) = some (Val.int S) →
      (depletions productID rdb attempts).2 =
          (attempts.take S).map Attempt.reserved ++ (attempts.drop S).map (fun _ => outOfStock) ∧
        cache.Get (depletions productID rdb attempts).1 (stockKey productID) =
          some (Val.int ((S - attempts.length : Nat) : Int)) := by
  induction attempts with
  | nil =>
    intro rdb S h
    simp [depletions, h]
  | cons a rest ih =>
    intro rdb S h
    cases S with
    | zero =>
      have hs := luaScript_of_nonpos rdb (stockKey productID) (orderKey a.userID productID)
        a.orderNo 0 h (le_refl 0)
      have := ih rdb 0 h
      simp only [depletions, hs]
      simpa using this
    | succ s =>
      have hpos : (0 : Int) < ((s + 1 : Nat) : Int) := by exact_mod_cast Nat.succ_pos s
      have hs := luaScript_of_pos rdb (stockKey productID) (orderKey a.userID productID)
        a.orderNo _ h hpos
      have hne : stockKey productID ≠ orderKey a.userID productID :=
        fun e => orderKey_ne_stockKey _ _ _ e.symm
      have hget : cache.Get (cache.Set (cache.Set rdb (stockKey productID)
          (Val.int (((s + 1 : Nat) : Int) - 1))) (orderKey a.userID productID)
          (Val.str a.orderNo)) (stockKey productID) = some (Val.int (s : Nat)) := by
        rw [cache.Get_Set_of_ne _ _ _ _ hne, cache.Get_Set_self]
        simp
      have := ih _ s hget
      simp only [depletions, hs]
      simpa [Attempt.reserved] using this

/-- C1 (no overselling).  When the stock counter of an item holds `S` and `N ≥ S` attempts
run the depletion script against it, in whatever order the store runs them, the first `S`
in that order are each answered `{1, orderNo}`, the other `N - S` are answered
`{0, 'out of stock'}`, the counter ends at 0, and after every step it holds a natural
number no greater than `S`. -/
theorem no_overselling (rdb : Store) (productID : Nat) (S : Nat) (attempts : List Attempt)
    (hstock : cache.Get rdb (stockKey productID) = some (Val.int S))
    (hN : S ≤ attempts.length) :
    (depletions productID rdb attempts).2 =
        (attempts.take S).map Attempt.reserved ++ (attempts.drop S).map (fun _ => outOfStock) ∧
      (attempts.take S).length = S ∧
      (attempts.drop S).length = attempts.length - S ∧
      cache.Get (depletions productID rdb attempts).1 (stockKey productID) = some (Val.int 0) ∧
      ∀ k : Nat, ∃ c : Nat, c ≤ S ∧
        cache.Get (depletions productID rdb (attempts.take k)).1 (stockKey productID) =
          some (Val.int c) := by
  obtain ⟨h1, h2⟩ := depletions_spec productID attempts rdb S hstock
  refine ⟨h1, by simp [hN], by simp, ?_, ?_⟩
  · rw [h2, Nat.sub_eq_zero_of_le hN]; rfl
  · intro k
    exact ⟨S - (attempts.take k).length, Nat.sub_le _ _,
      (depletions_spec productID (attempts.take k) rdb S hstock).2⟩

/-- The scenario of C1 with stock 1 and two buyers: the first in the order is served, the
second is told the item is out of stock, and the counter ends at 0. -/
theorem no_overselling_witness :
    cache.Get ⟨[(stockKey 1, Val.int 1)]⟩ (stockKey 1) = some (Val.int (1 : Nat)) ∧
      (1 : Nat) ≤ [Attempt.mk "A" "ORD1", Attempt.mk "B" "ORD2"].length ∧
      (depletions 1 ⟨[(stockKey 1, Val.int 1)]⟩ [⟨"A", "ORD1"⟩, ⟨"B", "ORD2"⟩]).2 =
        [Except.ok [Reply.int 1, Reply.str "ORD1"],
          Except.ok [Reply.int 0, Reply.str "out of stock"]] ∧
      cache.Get (depletions 1 ⟨[(stockKey 1, Val.int 1)]⟩ [⟨"A", "ORD1"⟩, ⟨"B", "ORD2"⟩]).1
        (stockKey 1) = some (Val.int 0) := by
  have h := no_overselling ⟨[(stockKey 1, Val.int 1)]⟩ 1 1 [⟨"A", "ORD1"⟩, ⟨"B", "ORD2"⟩]
    (by decide) (by decide)
  exact ⟨by decide, by decide, h.1, h.2.2.2.1⟩

/-! ## The lock on a store nobody else touches -/

theorem DistributedLock.TryLockWithRetry_of_absent (dl : DistributedLock) (rdb : Store)
    (h : cache.Get rdb dl.key = none) :
    dl.TryLockWithRetry rdb 3 = (cache.Set rdb dl.key dl.value, true) := by
  simp [DistributedLock.TryLockWithRetry, DistributedLock.tryLockLoop, DistributedLock.Lock,
    cache.SetNX, h]

theorem DistributedLock.tryLockLoop_of_held (dl : DistributedLock) (rdb : Store) (v : Val)
    (h : cache.Get rdb dl.key = some v) (n : Nat) :
    dl.tryLockLoop n rdb = (rdb, false) := by
  induction n with
  | zero => rfl
  | succ n ih => simp [DistributedLock.tryLockLoop, DistributedLock.Lock, cache.SetNX, h, ih]

theorem DistributedLock.Unlock_of_owner (dl : DistributedLock) (rdb : Store)
    (h : cache.Get rdb dl.key = some dl.value) :
    dl.Unlock rdb = cache.Del rdb dl.key := by
  simp [DistributedLock.Unlock, h]

/-! ## Seckill: the failure exits -/

theorem Seckill_of_no_token (w : World) (env : SeckillEnv) (userID : String)
    (productID : Nat) (token : String)
    (htoken : cache.Get w.rdb (tokenKey token) = none) :
    Seckill w env userID productID token = (w, Except.error "invalid token") := by
  simp [Seckill, htoken]

theorem Seckill_of_script_error (w : World) (env : SeckillEnv) (userID : String)
    (productID : Nat) (token : String) (v : Val) (s : String)
    (htoken : cache.Get w.rdb (tokenKey token) = some v)
    (hstock : cache.Get w.rdb (stockKey productID) = some (Val.str s)) :
    Seckill w env userID productID token =
      (w, Except.error "seckill failed: attempt to compare nil with number") := by
  simp [Seckill, htoken, luaScript, tonumber, hstock]

theorem Seckill_of_out_of_stock (w : World) (env : SeckillEnv) (userID : String)
    (productID : Nat) (token : String) (v : Val)
    (htoken : cache.Get w.rdb (tokenKey token) = some v)
    (hstock : cache.Get w.rdb (stockKey productID) = none ∨
      ∃ n : Int, n ≤ 0 ∧ cache.Get w.rdb (stockKey productID) = some (Val.int n)) :
    Seckill w env userID productID token = (w, Except.error "out of stock") := by
  have hs : luaScript w.rdb (stockKey productID) (orderKey userID productID) env.orderNo =
      (w.rdb, outOfStock) := by
    rcases hstock with h | ⟨n, hn, h⟩
    · exact luaScript_of_absent _ _ _ _ h
    · exact luaScript_of_nonpos _ _ _ _ n h hn
  simp [Seckill, htoken, hs, outOfStock]

theorem Seckill_of_no_product (w : World) (env : SeckillEnv) (userID : String)
    (productID : Nat) (token : String) (v : Val) (n : Int)
    (htoken : cache.Get w.rdb (tokenKey token) = some v)
    (hstock : cache.Get w.rdb (stockKey productID) = some (Val.int n)) (hpos : 0 < n)
    (hproduct : w.findProduct productID = none) :
    Seckill w env userID productID token =
      ({ w with rdb := (cache.Set (cache.Set w.rdb (stockKey productID) (Val.int (n - 1)))
          (orderKey userID productID) (Val.str env.orderNo)) },
        Except.error "product not found") := by
  have hs := luaScript_of_pos w.rdb (stockKey productID) (orderKey userID productID)
    env.orderNo n hstock hpos
  have hp : ∀ rdb1 : Store, World.findProduct { w with rdb := rdb1 } productID = none :=
    fun _ => hproduct
  simp only [Seckill, htoken, hs, hp]
  simp

theorem Seckill_of_lock_held (w : World) (env : SeckillEnv) (userID : String)
    (productID : Nat) (token : String) (v held : Val) (n : Int) (product : Product)
    (htoken : cache.Get w.rdb (tokenKey token) = some v)
    (hstock : cache.Get w.rdb (stockKey productID) = some (Val.int n)) (hpos : 0 < n)
    (hproduct : w.findProduct productID = some product)
    (hlock : cache.Get w.rdb (lockKey env.orderNo) = some held) :
    Seckill w env userID productID token =
      ({ w with rdb := (cache.Set (cache.Set w.rdb (stockKey productID) (Val.int (n - 1)))
          (orderKey userID productID) (Val.str env.orderNo)) },
        Except.error "failed to acquire lock") := by
  have hs := luaScript_of_pos w.rdb (stockKey productID) (orderKey userID productID)
    env.orderNo n hstock hpos
  have hl : cache.Get (cache.Set (cache.Set w.rdb (stockKey productID) (Val.int (n - 1)))
      (orderKey userID productID) (Val.str env.orderNo))
      (NewDistributedLock (lockKey env.orderNo) env.lockNanos).key = some held := by
    show cache.Get _ (lockKey env.orderNo) = some held
    rw [cache.Get_Set_of_ne _ _ _ _ (lockKey_ne_orderKey _ _ _),
      cache.Get_Set_of_ne _ _ _ _ (lockKey_ne_stockKey _ _)]
    exact hlock
  have ht : (NewDistributedLock (lockKey env.orderNo) env.lockNanos).TryLockWithRetry
      (cache.Set (cache.Set w.rdb (stockKey productID) (Val.int (n - 1)))
      (orderKey userID productID) (Val.str env.orderNo)) 3 = (_, false) :=
    DistributedLock.tryLockLoop_of_held _ _ held hl _
  have hp : ∀ rdb1 : Store, World.findProduct { w with rdb := rdb1 } productID =
      some product := fun _ => hproduct
  simp only [Seckill, htoken, hs, hp, ht]
  simp

/-- C3 (a failed depletion changes nothing).  When the presented token exists and the
stock counter of the item is absent or holds an integer that is not positive, `Seckill`
returns the error "out of stock" and leaves the whole state as it was: the counter, the
order markers, the token and the order records. -/
theorem seckill_out_of_stock (w : World) (env : SeckillEnv) (userID : String)
    (productID : Nat) (token : String) (v : Val)
    (htoken : cache.Get w.rdb (tokenKey token) = some v)
    (hstock : cache.Get w.rdb (stockKey productID) = none ∨
      ∃ n : Int, n ≤ 0 ∧ cache.Get w.rdb (stockKey productID) = some (Val.int n)) :
    Seckill w env userID productID token = (w, Except.error "out of stock") :=
  Seckill_of_out_of_stock w env userID productID token v htoken hstock

/-- The instance of C3 with a token present and a counter at 0. -/
theorem seckill_out_of_stock_witness :
    cache.Get (World.mk ⟨[(tokenKey "a-1-7", Val.int 1), (stockKey 1, Val.int 0)]⟩ [] []).rdb
        (tokenKey "a-1-7") = some (Val.int 1) ∧
      Seckill ⟨⟨[(tokenKey "a-1-7", Val.int 1), (stockKey 1, Val.int 0)]⟩, [], []⟩
          ⟨"ORD1", 5, false⟩ "a" 1 "a-1-7" =
        (⟨⟨[(tokenKey "a-1-7", Val.int 1), (stockKey 1, Val.int 0)]⟩, [], []⟩,
          Except.error "out of stock") :=
  ⟨by decide,
    seckill_out_of_stock ⟨⟨[(tokenKey "a-1-7", Val.int 1), (stockKey 1, Val.int 0)]⟩, [], []⟩
      ⟨"ORD1", 5, false⟩ "a" 1 "a-1-7" (Val.int 1) (by decide)
      (Or.inr ⟨0, le_refl 0, by decide⟩)⟩


/-! ## Seckill: compensation -/

theorem Seckill_of_lock_free (w : World) (env : SeckillEnv) (userID : String)
    (productID : Nat) (token : String) (v : Val) (n : Int) (product : Product)
    (htoken : cache.Get w.rdb (tokenKey token) = some v)
    (hstock : cache.Get w.rdb (stockKey productID) = some (Val.int n)) (hpos : 0 < n)
    (hproduct : w.findProduct productID = some product)
    (hlock : cache.Get w.rdb (lockKey env.orderNo) = none) :
    Seckill w env userID productID token =
      (let rdb1 := cache.Set (cache.Set w.rdb (stockKey productID) (Val.int (n - 1)))
          (orderKey userID productID) (Val.str env.orderNo)
        let lock := NewDistributedLock (lockKey env.orderNo) env.lockNanos
        let rdb2 := cache.Set rdb1 lock.key lock.value
        let order : Order :=
          { OrderNo := env.orderNo, UserID := userID, ProductID := productID,
            ProductName := product.Name, Price := product.Price,
            Status := OrderStatusPending }
        if env.createFails then
          ({ w with rdb := lock.Unlock (cache.Incr rdb2 (stockKey productID)).1 },
            Except.error "failed to create order")
        else
          ({ w with rdb := lock.Unlock (cache.Del rdb2 (tokenKey token)),
                    orders := w.orders ++ [order] }, Except.ok order)) := by
  have hs := luaScript_of_pos w.rdb (stockKey productID) (orderKey userID productID)
    env.orderNo n hstock hpos
  have hl : cache.Get (cache.Set (cache.Set w.rdb (stockKey productID) (Val.int (n - 1)))
      (orderKey userID productID) (Val.str env.orderNo))
      (NewDistributedLock (lockKey env.orderNo) env.lockNanos).key = none := by
    show cache.Get _ (lockKey env.orderNo) = none
    rw [cache.Get_Set_of_ne _ _ _ _ (lockKey_ne_orderKey _ _ _),
      cache.Get_Set_of_ne _ _ _ _ (lockKey_ne_stockKey _ _)]
    exact hlock
  have ht := DistributedLock.TryLockWithRetry_of_absent _ _ hl
  have hp : ∀ rdb1 : Store, World.findProduct { w with rdb := rdb1 } productID =
      some product := fun _ => hproduct
  simp only [Seckill, htoken, hs, hp, ht]
  simp

/-- C2 (compensation).  In a run of `Seckill` where the token exists, the depletion script
succeeds (the counter holds a positive integer), the product row is found, the lock is
acquired (its key is free) and the durable insert fails, `Seckill` returns the error
"failed to create order", the stock counter reads as before the call and the order
records are those of before the call. -/
theorem seckill_compensation (w : World) (env : SeckillEnv) (userID : String)
    (productID : Nat) (token : String) (v : Val) (n : Int) (product : Product)
    (htoken : cache.Get w.rdb (tokenKey token) = some v)
    (hstock : cache.Get w.rdb (stockKey productID) = some (Val.int n)) (hpos : 0 < n)
    (hproduct : w.findProduct productID = some product)
    (hlock : cache.Get w.rdb (lockKey env.orderNo) = none)
    (hfail : env.createFails = true) :
    (Seckill w env userID productID token).2 = Except.error "failed to create order" ∧
      cache.Get (Seckill w env userID productID token).1.rdb (stockKey productID) =
        cache.Get w.rdb (stockKey productID) ∧
      (Seckill w env userID productID token).1.orders = w.orders := by
  rw [Seckill_of_lock_free w env userID productID token v n product htoken hstock hpos
    hproduct hlock]
  have hsl : stockKey productID ≠ lockKey env.orderNo :=
    fun e => lockKey_ne_stockKey _ _ e.symm
  have hso : stockKey productID ≠ orderKey userID productID :=
    fun e => orderKey_ne_stockKey _ _ _ e.symm
  have hget : cache.Get (cache.Set (cache.Set (cache.Set w.rdb (stockKey productID)
      (Val.int (n - 1))) (orderKey userID productID) (Val.str env.orderNo))
      (lockKey env.orderNo) (Val.int env.lockNanos)) (stockKey productID) =
      some (Val.int (n - 1)) := by
    rw [cache.Get_Set_of_ne _ _ _ _ hsl, cache.Get_Set_of_ne _ _ _ _ hso, cache.Get_Set_self]
  have hown : cache.Get (cache.Set (cache.Set (cache.Set (cache.Set w.rdb (stockKey productID)
      (Val.int (n - 1))) (orderKey userID productID) (Val.str env.orderNo))
      (lockKey env.orderNo) (Val.int env.lockNanos)) (stockKey productID)
      (Val.int (n - 1 + 1))) (lockKey env.orderNo) = some (Val.int env.lockNanos) := by
    rw [cache.Get_Set_of_ne _ _ _ _ (lockKey_ne_stockKey _ _), cache.Get_Set_self]
  simp only [hfail, if_true, NewDistributedLock, cache.Incr, hget,
    DistributedLock.Unlock, hown]
  refine ⟨trivial, ?_, trivial⟩
  rw [cache.Get_Del_of_ne _ _ _ hsl, cache.Get_Set_self, hstock]
  simp

/-- The instance of C2 with stock 1: the insert fails and the counter is 1 again. -/
theorem seckill_compensation_witness :
    (Seckill ⟨⟨[(tokenKey "a-1-7", Val.int 1), (stockKey 1, Val.int 1)]⟩,
          [⟨1, "phone", 99, 10, 0, 1000, 1⟩], []⟩ ⟨"ORD1", 5, true⟩ "a" 1 "a-1-7").2 =
        Except.error "failed to create order" ∧
      cache.Get (Seckill ⟨⟨[(tokenKey "a-1-7", Val.int 1), (stockKey 1, Val.int 1)]⟩,
          [⟨1, "phone", 99, 10, 0, 1000, 1⟩], []⟩ ⟨"ORD1", 5, true⟩ "a" 1 "a-1-7").1.rdb
          (stockKey 1) = some (Val.int 1) ∧
      (Seckill ⟨⟨[(tokenKey "a-1-7", Val.int 1), (stockKey 1, Val.int 1)]⟩,
          [⟨1, "phone", 99, 10, 0, 1000, 1⟩], []⟩ ⟨"ORD1", 5, true⟩ "a" 1 "a-1-7").1.orders =
        [] :=
  seckill_compensation ⟨⟨[(tokenKey "a-1-7", Val.int 1), (stockKey 1, Val.int 1)]⟩,
      [⟨1, "phone", 99, 10, 0, 1000, 1⟩], []⟩ ⟨"ORD1", 5, true⟩ "a" 1 "a-1-7" (Val.int 1) 1
    ⟨1, "phone", 99, 10, 0, 1000, 1⟩ (by decide) (by decide) (by decide) (by decide)
    (by decide) rfl

/-! ## Seckill: every exit -/

/-- Case analysis on a run of `Seckill`: a property holds of the run when it holds of each
of the six ways the run can end. -/
theorem Seckill_exits (w : World) (env : SeckillEnv) (userID : String) (productID : Nat)
    (token : String) (P : World × Except String Order → Prop)
    (hNoToken : cache.Get w.rdb (tokenKey token) = none →
      P (w, Except.error "invalid token"))
    (hScript : ∀ s : String, cache.Get w.rdb (stockKey productID) = some (Val.str s) →
      P (w, Except.error "seckill failed: attempt to compare nil with number"))
    (hOut : P (w, Except.error "out of stock"))
    (hNoProduct : ∀ n : Int, 0 < n →
      cache.Get w.rdb (stockKey productID) = some (Val.int n) →
      P ({ w with rdb := (cache.Set (cache.Set w.rdb (stockKey productID) (Val.int (n - 1)))
          (orderKey userID productID) (Val.str env.orderNo)) },
        Except.error "product not found"))
    (hHeld : ∀ n : Int, 0 < n →
      cache.Get w.rdb (stockKey productID) = some (Val.int n) →
      P ({ w with rdb := (cache.Set (cache.Set w.rdb (stockKey productID) (Val.int (n - 1)))
          (orderKey userID productID) (Val.str env.orderNo)) },
        Except.error "failed to acquire lock"))
    (hFree : ∀ (n : Int) (product : Product), 0 < n →
      cache.Get w.rdb (stockKey productID) = some (Val.int n) →
      w.findProduct productID = some product →
      P (let rdb1 := cache.Set (cache.Set w.rdb (stockKey productID) (Val.int (n - 1)))
          (orderKey userID productID) (Val.str env.orderNo)
        let lock := NewDistributedLock (lockKey env.orderNo) env.lockNanos
        let rdb2 := cache.Set rdb1 lock.key lock.value
        let order : Order :=
          { OrderNo := env.orderNo, UserID := userID, ProductID := productID,
            ProductName := product.Name, Price := product.Price,
            Status := OrderStatusPending }
        if env.createFails then
          ({ w with rdb := lock.Unlock (cache.Incr rdb2 (stockKey productID)).1 },
            Except.error "failed to create order")
        else
          ({ w with rdb := lock.Unlock (cache.Del rdb2 (tokenKey token)),
                    orders := w.orders ++ [order] }, Except.ok order))) :
    P (Seckill w env userID productID token) := by
  cases htoken : cache.Get w.rdb (tokenKey token) with
  | none =>
    rw [Seckill_of_no_token w env userID productID token htoken]
    exact hNoToken htoken
  | some v =>
    cases hstock : cache.Get w.rdb (stockKey productID) with
    | none =>
      rw [Seckill_of_out_of_stock w env userID productID token v htoken (Or.inl hstock)]
      exact hOut
    | some c =>
      cases c with
      | str s =>
        rw [Seckill_of_script_error w env userID productID token v s htoken hstock]
        exact hScript s hstock
      | int n =>
        by_cases hn : n ≤ 0
        · rw [Seckill_of_out_of_stock w env userID productID token v htoken
            (Or.inr ⟨n, hn, hstock⟩)]
          exact hOut
        · have hpos : 0 < n := not_le.mp hn
          cases hproduct : w.findProduct productID with
          | none =>
            rw [Seckill_of_no_product w env userID productID token v n htoken hstock hpos
              hproduct]
            exact hNoProduct n hpos hstock
          | some product =>
            cases hlock : cache.Get w.rdb (lockKey env.orderNo) with
            | some held =>
              rw [Seckill_of_lock_held w env userID productID token v held n product htoken
                hstock hpos hproduct hlock]
              exact hHeld n hpos hstock
            | none =>
              rw [Seckill_of_lock_free w env userID productID token v n product htoken
                hstock hpos hproduct hlock]
              exact hFree n product hpos hstock hproduct

/-! ## Keys that stay absent -/

theorem cache.absent_Set (rdb : Store) (key other : String) (value : Val) (h : other ≠ key)
    (ha : cache.Get rdb other = none) : cache.Get (cache.Set rdb key value) other = none := by
  rw [cache.Get_Set_of_ne rdb key other value h]; exact ha

theorem cache.absent_Del (rdb : Store) (key other : String)
    (ha : cache.Get rdb other = none) : cache.Get (cache.Del rdb key) other = none := by
  by_cases h : other = key
  · subst h; exact cache.Get_Del_self rdb other
  · rw [cache.Get_Del_of_ne rdb key other h]; exact ha

theorem cache.absent_Incr (rdb : Store) (key other : String) (h : other ≠ key)
    (ha : cache.Get rdb other = none) : cache.Get (cache.Incr rdb key).1 other = none := by
  unfold cache.Incr
  split
  · exact cache.absent_Set _ _ _ _ h ha
  · exact cache.absent_Set _ _ _ _ h ha
  · exact ha

theorem DistributedLock.absent_Unlock (dl : DistributedLock) (rdb : Store) (other : String)
    (ha : cache.Get rdb other = none) : cache.Get (dl.Unlock rdb) other = none := by
  unfold DistributedLock.Unlock
  split
  · exact cache.absent_Del _ _ _ ha
  · exact ha

theorem Seckill_absent_token (w : World) (env : SeckillEnv) (userID : String)
    (productID : Nat) (token other : String)
    (ha : cache.Get w.rdb (tokenKey other) = none) :
    cache.Get (Seckill w env userID productID token).1.rdb (tokenKey other) = none := by
  have hts : ∀ p : Nat, tokenKey other ≠ stockKey p := fun p => tokenKey_ne_stockKey _ _
  have hto : ∀ (u : String) (p : Nat), tokenKey other ≠ orderKey u p :=
    fun u p e => orderKey_ne_tokenKey _ _ _ e.symm
  have htl : ∀ o : String, tokenKey other ≠ lockKey o :=
    fun o e => lockKey_ne_tokenKey _ _ e.symm
  have h1 : ∀ n : Int, cache.Get (cache.Set (cache.Set w.rdb (stockKey productID)
      (Val.int (n - 1))) (orderKey userID productID) (Val.str env.orderNo))
      (tokenKey other) = none := fun n =>
    cache.absent_Set _ _ _ _ (hto _ _) (cache.absent_Set _ _ _ _ (hts _) ha)
  apply Seckill_exits w env userID productID token
    (fun r => cache.Get r.1.rdb (tokenKey other) = none)
  · intro _; exact ha
  · intro _ _; exact ha
  · exact ha
  · intro n _ _; exact h1 n
  · intro n _ _; exact h1 n
  · intro n product _ _ _
    have h2 := cache.absent_Set _ (lockKey env.orderNo) _ (Val.int env.lockNanos) (htl _) (h1 n)
    by_cases hc : env.createFails = true
    · simp only [hc, if_true]
      exact DistributedLock.absent_Unlock _ _ _ (cache.absent_Incr _ _ _ (hts _) h2)
    · simp only [hc]
      exact DistributedLock.absent_Unlock _ _ _ (cache.absent_Del _ _ _ h2)

theorem Seckill_ok_deletes_token (w : World) (env : SeckillEnv) (userID : String)
    (productID : Nat) (token : String) (order : Order)
    (hok : (Seckill w env userID productID token).2 = Except.ok order) :
    cache.Get (Seckill w env userID productID token).1.rdb (tokenKey token) = none := by
  revert hok
  apply Seckill_exits w env userID productID token
    (fun r => r.2 = Except.ok order → cache.Get r.1.rdb (tokenKey token) = none)
  · intro _ h; cases h
  · intro _ _ h; cases h
  · intro h; cases h
  · intro _ _ _ h; cases h
  · intro _ _ _ h; cases h
  · intro n product _ _ _
    by_cases hc : env.createFails = true
    · simp only [hc, if_true]
      intro h; cases h
    · simp only [hc]
      intro _
      exact DistributedLock.absent_Unlock _ _ _ (cache.Get_Del_self _ _)


theorem GenerateToken_absent_token (w : World) (now : Time) (nanos : Int) (userID : String)
    (productID : Nat) (other : String) (hne : tokenString userID productID nanos ≠ other)
    (ha : cache.Get w.rdb (tokenKey other) = none) :
    cache.Get (GenerateToken w now nanos userID productID).1.rdb (tokenKey other) = none := by
  have hk : tokenKey other ≠ tokenKey (tokenString userID productID nanos) :=
    fun e => hne (tokenKey_injective _ _ e).symm
  unfold GenerateToken
  split
  · exact ha
  · split
    · exact ha
    · split
      · exact ha
      · split
        · exact ha
        · exact cache.absent_Set _ _ _ _ hk ha

theorem purchase_absent_token (w : World) (env : SeckillEnv)
    (req : SeckillRequest) (other : String)
    (ha : cache.Get w.rdb (tokenKey other) = none) :
    cache.Get (SeckillController.Seckill w env req).1.rdb (tokenKey other) = none := by
  have h := Seckill_absent_token w env req.UserID req.ProductID req.Token other ha
  unfold SeckillController.Seckill
  split
  · exact ha
  · split
    · exact ha
    · split
      · rename_i w1 err heq
        rw [heq] at h; exact h
      · rename_i w1 order heq
        rw [heq] at h; exact h

theorem Step.run_absent_token (w : World) (s : Step) (other : String)
    (hs : ¬ s.issues other) (ha : cache.Get w.rdb (tokenKey other) = none) :
    cache.Get (s.run w).rdb (tokenKey other) = none := by
  cases s with
  | issue now nanos userID productID =>
    exact GenerateToken_absent_token w now nanos userID productID other hs ha
  | seckill env userID productID token =>
    exact Seckill_absent_token w env userID productID token other ha
  | purchase env req =>
    exact purchase_absent_token w env req other ha
  | expire key =>
    exact cache.absent_Del _ _ _ ha

theorem runSteps_absent_token (steps : List Step) (other : String) :
    ∀ w : World, (∀ s ∈ steps, ¬ s.issues other) →
      cache.Get w.rdb (tokenKey other) = none →
      cache.Get (runSteps w steps).rdb (tokenKey other) = none := by
  induction steps with
  | nil => intro w _ ha; exact ha
  | cons s rest ih =>
    intro w hs ha
    exact ih (s.run w) (fun t ht => hs t (List.mem_cons_of_mem _ ht))
      (Step.run_absent_token w s other (hs s (List.mem_cons_self _ _)) ha)

/-! ## Tokens -/

/-- C4 (a token is used once).  When a call of `Seckill` presenting a token returns an
order, then after any further steps none of which is a `GenerateToken` that builds the
same token again, every call of `Seckill` presenting that token returns the error
"invalid token" and leaves the state (the stock counters, the order records and all the
rest) as it found it. -/
theorem token_single_use (w : World) (env : SeckillEnv) (userID : String) (productID : Nat)
    (token : String) (order : Order)
    (hok : (Seckill w env userID productID token).2 = Except.ok order)
    (steps : List Step) (hsteps : ∀ s ∈ steps, ¬ s.issues token)
    (env2 : SeckillEnv) (userID2 : String) (productID2 : Nat) :
    Seckill (runSteps (Seckill w env userID productID token).1 steps) env2 userID2 productID2
        token =
      (runSteps (Seckill w env userID productID token).1 steps,
        Except.error "invalid token") :=
  Seckill_of_no_token _ env2 userID2 productID2 token
    (runSteps_absent_token steps token _ hsteps
      (Seckill_ok_deletes_token w env userID productID token order hok))

/-- The instance of C4 in which alice buys item 1 with her token, a token is then issued
to bob and alice's order marker expires: presenting alice's token again, for either
item, is answered "invalid token". -/
theorem token_single_use_witness :
    (Seckill (GenerateToken demoWorld 5 77 "alice" 1).1 ⟨"ORD1", 9, false⟩ "alice" 1
        "alice-1-77").2 = Except.ok ⟨"ORD1", "alice", 1, "phone", 99, "pending"⟩ ∧
      Seckill (runSteps (Seckill (GenerateToken demoWorld 5 77 "alice" 1).1
          ⟨"ORD1", 9, false⟩ "alice" 1 "alice-1-77").1
          [Step.issue 6 78 "bob" 2, Step.expire (orderKey "alice" 1)])
          ⟨"ORD2", 10, false⟩ "alice" 2 "alice-1-77" =
        (runSteps (Seckill (GenerateToken demoWorld 5 77 "alice" 1).1
          ⟨"ORD1", 9, false⟩ "alice" 1 "alice-1-77").1
          [Step.issue 6 78 "bob" 2, Step.expire (orderKey "alice" 1)],
          Except.error "invalid token") :=
  ⟨by decide,
    token_single_use (GenerateToken demoWorld 5 77 "alice" 1).1 ⟨"ORD1", 9, false⟩ "alice" 1
      "alice-1-77" ⟨"ORD1", "alice", 1, "phone", 99, "pending"⟩ (by decide)
      [Step.issue 6 78 "bob" 2, Step.expire (orderKey "alice" 1)] (by decide)
      ⟨"ORD2", 10, false⟩ "alice" 2⟩

theorem GenerateToken_ok_stores_token (w0 w : World) (now : Time) (nanos : Int)
    (identity : String) (item : Nat) (token : String)
    (h : GenerateToken w0 now nanos identity item = (w, Except.ok token)) :
    cache.Get w.rdb (tokenKey token) = some (Val.int 1) := by
  unfold GenerateToken at h
  split at h
  · cases h
  · split at h
    · cases h
    · split at h
      · cases h
      · split at h
        · cases h
        · simp only [Prod.mk.injEq, Except.ok.injEq] at h
          obtain ⟨hw, ht⟩ := h
          subst hw; subst ht
          exact cache.Get_Set_self _ _ _

/-- C5, refuted as stated: alice is issued a token for item 1; bob presents it for item 2
and `Seckill` accepts it, returns an order for bob and item 2 and takes the last unit of
item 2. -/
theorem token_binding_counterexample :
    (GenerateToken demoWorld 5 77 "alice" 1).2 = Except.ok "alice-1-77" ∧
      "bob" ≠ "alice" ∧ (2 : Nat) ≠ 1 ∧
      (Seckill (GenerateToken demoWorld 5 77 "alice" 1).1 ⟨"ORD1", 9, false⟩ "bob" 2
        "alice-1-77").2 = Except.ok ⟨"ORD1", "bob", 2, "watch", 49, "pending"⟩ ∧
      cache.Get (GenerateToken demoWorld 5 77 "alice" 1).1.rdb (stockKey 2) =
        some (Val.int 1) ∧
      cache.Get (Seckill (GenerateToken demoWorld 5 77 "alice" 1).1 ⟨"ORD1", 9, false⟩ "bob" 2
        "alice-1-77").1.rdb (stockKey 2) = some (Val.int 0) := by
  decide

/-- C5, amended.  `Seckill` tests only that the key of the presented token exists, whatever
identity and item come with it: it returns the error "invalid token" exactly when that key
is absent, and then leaves the state (so the stock) as it found it; a token that
`GenerateToken` has just returned for some identity and item therefore passes the token
test of `Seckill` for every identity and item. -/
theorem token_check_is_existence (w : World) (env : SeckillEnv) (userID : String)
    (productID : Nat) (token : String) :
    ((Seckill w env userID productID token).2 = Except.error "invalid token" ↔
        cache.Get w.rdb (tokenKey token) = none) ∧
      (cache.Get w.rdb (tokenKey token) = none →
        (Seckill w env userID productID token).1 = w) ∧
      (∀ (w0 : World) (now : Time) (nanos : Int) (identity : String) (item : Nat),
        GenerateToken w0 now nanos identity item = (w, Except.ok token) →
        (Seckill w env userID productID token).2 ≠ Except.error "invalid token") := by
  have hiff : (Seckill w env userID productID token).2 = Except.error "invalid token" ↔
      cache.Get w.rdb (tokenKey token) = none := by
    constructor
    · apply Seckill_exits w env userID productID token
        (fun r => r.2 = Except.error "invalid token" → cache.Get w.rdb (tokenKey token) = none)
      · intro h _; exact h
      · intro _ _ h; exact absurd (Except.error.inj h) (by decide)
      · intro h; exact absurd (Except.error.inj h) (by decide)
      · intro _ _ _ h; exact absurd (Except.error.inj h) (by decide)
      · intro _ _ _ h; exact absurd (Except.error.inj h) (by decide)
      · intro n product _ _ _
        by_cases hc : env.createFails = true
        · simp only [hc, if_true]
          intro h; exact absurd (Except.error.inj h) (by decide)
        · simp only [hc]
          intro h; cases h
    · intro h
      rw [Seckill_of_no_token w env userID productID token h]
  refine ⟨hiff, ?_, ?_⟩
  · intro h
    rw [Seckill_of_no_token w env userID productID token h]
  · intro w0 now nanos identity item hgen hbad
    have h1 := GenerateToken_ok_stores_token w0 w now nanos identity item token hgen
    rw [hiff.mp hbad] at h1
    cases h1

/-- How `fmt.Sscanf` with the verb `%d` reads some strings: the digits at the front are
read and the rest is left; a string without digits at the front, an underscore among the
digits, a number outside the 64-bit range and a line feed before the number leave 0. -/
theorem Sscanf_readings :
    fmt.Sscanf "12abc" = 12 ∧ fmt.Sscanf " 42" = 42 ∧ fmt.Sscanf "-7" = -7 ∧
      fmt.Sscanf "abc" = 0 ∧ fmt.Sscanf "1_0" = 0 ∧
      fmt.Sscanf "99999999999999999999" = 0 ∧ fmt.Sscanf "\n5" = 0 := by
  decide

/-- A stock key that holds a string with digits at the front passes the stock test of
`GenerateToken`, which reads the digits, although the depletion script reads no number
from it. -/
theorem GenerateToken_reads_leading_digits :
    GetStockFromRedis (PreheatStock demoWorld 1 2) 1 = some 2 ∧
      GetStockFromRedis
        { demoWorld with rdb := cache.Set demoWorld.rdb (stockKey 1) (Val.str "12abc") } 1 =
        some 12 ∧
      (GenerateToken
        { demoWorld with rdb := cache.Set demoWorld.rdb (stockKey 1) (Val.str "12abc") }
        5 77 "alice" 1).2 = Except.ok "alice-1-77" := by
  decide

/-! ## The sale window -/

/-- C6, refuted as stated: at the instant the window opens (`now = start`) the test
`IsSeckillTime` is false, and `GenerateToken` answers that the sale has not started
although the item exists and is in stock. -/
theorem window_gating_counterexample :
    ((0 : Time) ≤ 0 ∧ (0 : Time) < 1000) ∧ IsSeckillTime 0 0 1000 = false ∧
      demoWorld.findProduct 1 = some ⟨1, "phone", 99, 10, 0, 1000, 1⟩ ∧
      GenerateToken demoWorld 0 77 "alice" 1 =
        (demoWorld, Except.error "seckill not started or ended") := by
  decide

/-- C6, amended.  With the clock as an input, `IsSeckillTime` is true exactly when
`start < now < end`; so for an item that exists `GenerateToken` returns the error
"seckill not started or ended", whatever the stock counter holds, for every `now ≤ start`
and every `now ≥ end`, and it does not return that error for any `now` strictly between
the two. -/
theorem window_gating (w : World) (now : Time) (nanos : Int) (userID : String)
    (productID : Nat) (product : Product) :
    (∀ startTime endTime : Time,
        IsSeckillTime now startTime endTime = true ↔ startTime < now ∧ now < endTime) ∧
      (w.findProduct productID = some product →
        now ≤ product.StartTime ∨ product.EndTime ≤ now →
        GenerateToken w now nanos userID productID =
          (w, Except.error "seckill not started or ended")) ∧
      (w.findProduct productID = some product →
        product.StartTime < now → now < product.EndTime →
        (GenerateToken w now nanos userID productID).2 ≠
          Except.error "seckill not started or ended") := by
  have hiff : ∀ startTime endTime : Time,
      IsSeckillTime now startTime endTime = true ↔ startTime < now ∧ now < endTime := by
    intro startTime endTime
    simp [IsSeckillTime]
  refine ⟨hiff, ?_, ?_⟩
  · intro hp hout
    have hf : IsSeckillTime now product.StartTime product.EndTime = false := by
      cases h : IsSeckillTime now product.StartTime product.EndTime with
      | false => rfl
      | true =>
        obtain ⟨h1, h2⟩ := (hiff _ _).mp h
        rcases hout with h3 | h3
        · exact absurd h1 (not_lt.mpr h3)
        · exact absurd h2 (not_lt.mpr h3)
    simp [GenerateToken, hp, hf]
  · intro hp h1 h2
    have ht : IsSeckillTime now product.StartTime product.EndTime = true :=
      (hiff _ _).mpr ⟨h1, h2⟩
    unfold GenerateToken
    simp only [hp, ht, Bool.not_true, Bool.false_eq_true, if_false]
    split
    · intro h; exact absurd (Except.error.inj h) (by decide)
    · split
      · intro h; exact absurd (Except.error.inj h) (by decide)
      · intro h; cases h

/-! ## Floating-point arithmetic -/

theorem bitLengthAux_spec (fuel : Nat) :
    ∀ n : Nat, n ≤ fuel → n ≠ 0 →
      1 ≤ bitLengthAux fuel n ∧ 2 ^ (bitLengthAux fuel n - 1) ≤ n ∧
        n < 2 ^ bitLengthAux fuel n := by
  induction fuel with
  | zero => intro n h h0; omega
  | succ f ih =>
    intro n h h0
    simp only [bitLengthAux, h0, if_false]
    by_cases hn : n / 2 = 0
    · have h1 : n = 1 := by omega
      subst h1
      cases f with
      | zero => simp [bitLengthAux]
      | succ g => simp [bitLengthAux]
    · obtain ⟨h1, h2, h3⟩ := ih (n / 2) (by omega) hn
      refine ⟨by omega, ?_, ?_⟩
      · have : bitLengthAux f (n / 2) + 1 - 1 = (bitLengthAux f (n / 2) - 1) + 1 := by omega
        rw [this, pow_succ]
        omega
      · rw [pow_succ]
        omega

theorem bitLength_spec (n : Nat) (h0 : n ≠ 0) :
    1 ≤ bitLength n ∧ 2 ^ (bitLength n - 1) ≤ n ∧ n < 2 ^ bitLength n :=
  bitLengthAux_spec n n (le_refl n) h0

theorem roundHalfEven_spec (p q : Nat) (hq : 0 < q) :
    ((roundHalfEven p q : Nat) : ℚ) - 1 / 2 ≤ (p : ℚ) / q ∧
      (p : ℚ) / q ≤ ((roundHalfEven p q : Nat) : ℚ) + 1 / 2 := by
  have hq' : (0 : ℚ) < q := by exact_mod_cast hq
  have hdm : (p : ℚ) = (q : ℚ) * ((p / q : Nat) : ℚ) + ((p % q : Nat) : ℚ) := by
    exact_mod_cast (Nat.div_add_mod p q).symm
  have hr : ((p % q : Nat) : ℚ) < q := by exact_mod_cast Nat.mod_lt p hq
  have hr0 : (0 : ℚ) ≤ ((p % q : Nat) : ℚ) := by positivity
  have hx : (p : ℚ) / q = ((p / q : Nat) : ℚ) + ((p % q : Nat) : ℚ) / q := by
    rw [div_eq_iff hq'.ne', add_mul, div_mul_cancel₀ _ hq'.ne']
    linarith
  rw [hx]
  unfold roundHalfEven
  split
  · rename_i h
    have h' : 2 * ((p % q : Nat) : ℚ) < q := by exact_mod_cast h
    have : ((p % q : Nat) : ℚ) / q < 1 / 2 := by
      rw [div_lt_iff₀ hq']; linarith
    have h0 : (0 : ℚ) ≤ ((p % q : Nat) : ℚ) / q := by positivity
    constructor <;> linarith
  · rename_i h
    have h' : (q : ℚ) ≤ 2 * ((p % q : Nat) : ℚ) := by exact_mod_cast not_lt.mp h
    have hge : (1 : ℚ) / 2 ≤ ((p % q : Nat) : ℚ) / q := by
      rw [le_div_iff₀ hq']; linarith
    have hlt : ((p % q : Nat) : ℚ) / q < 1 := by
      rw [div_lt_iff₀ hq']; linarith
    split
    · push_cast
      constructor <;> linarith
    · rename_i h2
      have h2' : 2 * ((p % q : Nat) : ℚ) ≤ q := by exact_mod_cast not_lt.mp h2
      have heq : ((p % q : Nat) : ℚ) / q = 1 / 2 := by
        apply le_antisymm
        · rw [div_le_iff₀ hq']; linarith
        · exact hge
      split
      · constructor <;> linarith
      · push_cast
        constructor <;> linarith



theorem two_zpow_pos (k : Int) : (0 : ℚ) < (2 : ℚ) ^ k := zpow_pos (by norm_num) k

theorem two_pow_toNat_div (k : Int) :
    (((2 ^ k.toNat : Nat) : ℚ)) / (((2 ^ (-k).toNat : Nat) : ℚ)) = (2 : ℚ) ^ k := by
  rcases le_or_lt 0 k with h | h
  · have h1 : (-k).toNat = 0 := Int.toNat_eq_zero.mpr (by omega)
    have h2 : ((k.toNat : Nat) : Int) = k := Int.toNat_of_nonneg h
    rw [h1]
    simp only [pow_zero, Nat.cast_one, div_one, Nat.cast_pow, Nat.cast_ofNat]
    rw [← zpow_natCast, h2]
  · have h1 : k.toNat = 0 := Int.toNat_eq_zero.mpr (by omega)
    have h2 : (((-k).toNat : Nat) : Int) = -k := Int.toNat_of_nonneg (by omega)
    rw [h1]
    simp only [pow_zero, Nat.cast_one, Nat.cast_pow, Nat.cast_ofNat, one_div]
    rw [← zpow_natCast, h2, zpow_neg, inv_inv]

theorem two_zpow_le_iff (a b : Int) : (2 : ℚ) ^ a ≤ (2 : ℚ) ^ b ↔ a ≤ b :=
  zpow_le_zpow_iff_right₀ (by norm_num)

theorem two_zpow_lt_iff (a b : Int) : (2 : ℚ) ^ a < (2 : ℚ) ^ b ↔ a < b :=
  zpow_lt_zpow_iff_right₀ (by norm_num)

theorem two_zpow_add (a b : Int) : (2 : ℚ) ^ (a + b) = (2 : ℚ) ^ a * (2 : ℚ) ^ b :=
  zpow_add₀ (by norm_num) a b

theorem two_zpow_succ (a : Int) : (2 : ℚ) ^ (a + 1) = (2 : ℚ) ^ a * 2 := by
  rw [two_zpow_add, zpow_one]

/-- The binade of a positive rational, as `F64.round` finds it. -/
theorem F64.round_eq (p den : Nat) (hp : 0 < p) (hden : 0 < den) :
    ∃ k : Int, (2 : ℚ) ^ k ≤ (p : ℚ) / den ∧ (p : ℚ) / den < (2 : ℚ) ^ (k + 1) ∧
      F64.round (p : Int) den =
        ⟨(roundHalfEven (p * 2 ^ (-(k - 52)).toNat) (den * 2 ^ (k - 52).toNat) : Int),
          k - 52⟩ := by
  have hp' : (0 : ℚ) < p := by exact_mod_cast hp
  have hd' : (0 : ℚ) < den := by exact_mod_cast hden
  obtain ⟨bp1, bp2, bp3⟩ := bitLength_spec p (by omega)
  obtain ⟨bd1, bd2, bd3⟩ := bitLength_spec den (by omega)
  have hnum : ((p : Int) = 0) = False := by simp; omega
  have hsign : (p : Int).sign = 1 := Int.sign_eq_one_of_pos (by exact_mod_cast hp)
  -- the estimate of the binary logarithm
  have hup : (p : ℚ) / den < (2 : ℚ) ^ (((bitLength p : Int) - (bitLength den : Int)) + 1) := by
    rw [div_lt_iff₀ hd']
    have h1 : (p : ℚ) < (2 : ℚ) ^ (bitLength p : Int) := by
      rw [zpow_natCast]; exact_mod_cast bp3
    have h2 : (2 : ℚ) ^ ((bitLength den : Int) - 1) ≤ den := by
      have : ((bitLength den : Int) - 1) = ((bitLength den - 1 : Nat) : Int) := by omega
      rw [this, zpow_natCast]; exact_mod_cast bd2
    have h3 : (2 : ℚ) ^ (((bitLength p : Int) - (bitLength den : Int)) + 1) *
        (2 : ℚ) ^ ((bitLength den : Int) - 1) = (2 : ℚ) ^ (bitLength p : Int) := by
      rw [← two_zpow_add]; congr 1; ring
    calc (p : ℚ) < (2 : ℚ) ^ (bitLength p : Int) := h1
      _ = (2 : ℚ) ^ (((bitLength p : Int) - (bitLength den : Int)) + 1) *
          (2 : ℚ) ^ ((bitLength den : Int) - 1) := h3.symm
      _ ≤ (2 : ℚ) ^ (((bitLength p : Int) - (bitLength den : Int)) + 1) * den :=
          mul_le_mul_of_nonneg_left h2 (two_zpow_pos _).le
  have hlo : (2 : ℚ) ^ (((bitLength p : Int) - (bitLength den : Int)) - 1) ≤ (p : ℚ) / den := by
    rw [le_div_iff₀ hd']
    have h1 : (2 : ℚ) ^ ((bitLength p : Int) - 1) ≤ p := by
      have : ((bitLength p : Int) - 1) = ((bitLength p - 1 : Nat) : Int) := by omega
      rw [this, zpow_natCast]; exact_mod_cast bp2
    have h2 : (den : ℚ) ≤ (2 : ℚ) ^ (bitLength den : Int) := by
      rw [zpow_natCast]; exact_mod_cast bd3.le
    have h3 : (2 : ℚ) ^ (((bitLength p : Int) - (bitLength den : Int)) - 1) *
        (2 : ℚ) ^ (bitLength den : Int) = (2 : ℚ) ^ ((bitLength p : Int) - 1) := by
      rw [← two_zpow_add]; congr 1; ring
    calc (2 : ℚ) ^ (((bitLength p : Int) - (bitLength den : Int)) - 1) * den
        ≤ (2 : ℚ) ^ (((bitLength p : Int) - (bitLength den : Int)) - 1) *
          (2 : ℚ) ^ (bitLength den : Int) := mul_le_mul_of_nonneg_left h2 (two_zpow_pos _).le
      _ = (2 : ℚ) ^ ((bitLength p : Int) - 1) := h3
      _ ≤ p := h1
  -- the test of `F64.round` compares `p / den` with `2 ^ k0`
  have htest : ∀ k0 : Int, (den * 2 ^ k0.toNat ≤ p * 2 ^ (-k0).toNat) ↔
      (2 : ℚ) ^ k0 ≤ (p : ℚ) / den := by
    intro k0
    rw [le_div_iff₀ hd', ← two_pow_toNat_div k0]
    have hpos : (0 : ℚ) < ((2 ^ (-k0).toNat : Nat) : ℚ) := by positivity
    rw [div_mul_eq_mul_div, div_le_iff₀ hpos]
    constructor
    · intro h
      have : ((den * 2 ^ k0.toNat : Nat) : ℚ) ≤ ((p * 2 ^ (-k0).toNat : Nat) : ℚ) := by
        exact_mod_cast h
      push_cast at this ⊢
      linarith
    · intro h
      have : ((den * 2 ^ k0.toNat : Nat) : ℚ) ≤ ((p * 2 ^ (-k0).toNat : Nat) : ℚ) := by
        push_cast at h ⊢
        linarith
      exact_mod_cast this
  by_cases ht : den * 2 ^ ((bitLength p : Int) - (bitLength den : Int)).toNat ≤
      p * 2 ^ (-((bitLength p : Int) - (bitLength den : Int))).toNat
  · refine ⟨(bitLength p : Int) - (bitLength den : Int), (htest _).mp ht, hup, ?_⟩
    simp only [F64.round, hnum, if_false, Int.natAbs_ofNat, ht, if_true, hsign, one_mul]
  · refine ⟨(bitLength p : Int) - (bitLength den : Int) - 1, hlo, ?_, ?_⟩
    · have := (htest ((bitLength p : Int) - (bitLength den : Int))).not.mp ht
      rw [sub_add_cancel]
      exact not_le.mp this
    · simp only [F64.round, hnum, if_false, Int.natAbs_ofNat, ht, hsign, one_mul]


theorem F64.near_zero : F64.Near 0 ⟨0, 0⟩ := by
  refine ⟨by simp [F64.val], by simp [F64.val], by simp [F64.val], fun K => ⟨?_, ?_⟩⟩
  · intro h; exact absurd h (not_le.mpr (two_zpow_pos K))
  · intro _
    simp only [F64.val, Int.cast_zero, zero_mul, zero_add]
    exact (two_zpow_pos _).le

/-- Rounding a rational that is not negative gives a value near it. -/
theorem F64.round_near (p den : Nat) (hden : 0 < den) :
    F64.Near ((p : ℚ) / den) (F64.round (p : Int) den) := by
  rcases Nat.eq_zero_or_pos p with hp0 | hp
  · subst hp0
    have : F64.round ((0 : Nat) : Int) den = ⟨0, 0⟩ := by simp [F64.round]
    rw [this]
    simpa using F64.near_zero
  obtain ⟨k, hk1, hk2, hr⟩ := F64.round_eq p den hp hden
  rw [hr]
  have hp' : (0 : ℚ) < p := by exact_mod_cast hp
  have hd' : (0 : ℚ) < den := by exact_mod_cast hden
  have hx : (0 : ℚ) < (p : ℚ) / den := div_pos hp' hd'
  have hQ : 0 < den * 2 ^ (k - 52).toNat := by positivity
  obtain ⟨hm1, hm2⟩ := roundHalfEven_spec (p * 2 ^ (-(k - 52)).toNat)
    (den * 2 ^ (k - 52).toNat) hQ
  -- the scaled value
  have hz : ((p * 2 ^ (-(k - 52)).toNat : Nat) : ℚ) / ((den * 2 ^ (k - 52).toNat : Nat) : ℚ) =
      (p : ℚ) / den * (2 : ℚ) ^ (-(k - 52)) := by
    rw [← two_pow_toNat_div (-(k - 52)), neg_neg]
    push_cast
    have h1 : (0 : ℚ) < (2 : ℚ) ^ (k - 52).toNat := by positivity
    field_simp
  rw [hz] at hm1 hm2
  have he : (2 : ℚ) ^ (-(k - 52)) * (2 : ℚ) ^ (k - 52) = 1 := by
    rw [← two_zpow_add]; simp
  have hepos := two_zpow_pos (k - 52)
  have hval : F64.val ⟨(roundHalfEven (p * 2 ^ (-(k - 52)).toNat)
      (den * 2 ^ (k - 52).toNat) : Int), k - 52⟩ =
      ((roundHalfEven (p * 2 ^ (-(k - 52)).toNat) (den * 2 ^ (k - 52).toNat) : Nat) : ℚ) *
        (2 : ℚ) ^ (k - 52) := by
    simp [F64.val]
  unfold F64.Near
  rw [hval]
  -- the significand is at least 2^52
  have hmnat : (2 : ℚ) ^ (52 : Int) ≤
      ((roundHalfEven (p * 2 ^ (-(k - 52)).toNat) (den * 2 ^ (k - 52).toNat) : Nat) : ℚ) := by
    have h1 : (2 : ℚ) ^ k * (2 : ℚ) ^ (-(k - 52)) ≤ (p : ℚ) / den * (2 : ℚ) ^ (-(k - 52)) :=
      mul_le_mul_of_nonneg_right hk1 (two_zpow_pos _).le
    rw [← two_zpow_add] at h1
    have h2 : k + -(k - 52) = 52 := by ring
    rw [h2] at h1
    have h3 : (2 : ℚ) ^ (52 : Int) = ((2 ^ 52 : Nat) : ℚ) := by norm_num
    rw [h3] at h1 ⊢
    by_contra hc
    have hc2 : roundHalfEven (p * 2 ^ (-(k - 52)).toNat) (den * 2 ^ (k - 52).toNat) + 1 ≤
        2 ^ 52 := by
      have := not_le.mp hc
      exact_mod_cast this
    have hc3 : ((roundHalfEven (p * 2 ^ (-(k - 52)).toNat) (den * 2 ^ (k - 52).toNat) : Nat) : ℚ)
        + 1 ≤ ((2 ^ 52 : Nat) : ℚ) := by exact_mod_cast hc2
    linarith
  generalize ((roundHalfEven (p * 2 ^ (-(k - 52)).toNat) (den * 2 ^ (k - 52).toNat) : Nat) : ℚ)
    = m at hm1 hm2 hmnat
  generalize hxx : (p : ℚ) / den = x at *
  -- error at most half a unit in the last place
  have hhalf : (2 : ℚ) ^ (k - 52) * (1 / 2) = (2 : ℚ) ^ (k - 53) := by
    have : k - 52 = (k - 53) + 1 := by ring
    rw [this, two_zpow_succ]; ring
  have hup : m * (2 : ℚ) ^ (k - 52) ≤ x + (2 : ℚ) ^ (k - 53) := by
    have h1 : (m - 1 / 2) * (2 : ℚ) ^ (k - 52) ≤ x * (2 : ℚ) ^ (-(k - 52)) * (2 : ℚ) ^ (k - 52) :=
      mul_le_mul_of_nonneg_right hm1 hepos.le
    rw [mul_assoc, he, mul_one] at h1
    rw [← hhalf]; linarith
  have hlow : x - (2 : ℚ) ^ (k - 53) ≤ m * (2 : ℚ) ^ (k - 52) := by
    have h1 : x * (2 : ℚ) ^ (-(k - 52)) * (2 : ℚ) ^ (k - 52) ≤ (m + 1 / 2) * (2 : ℚ) ^ (k - 52) :=
      mul_le_mul_of_nonneg_right hm2 hepos.le
    rw [mul_assoc, he, mul_one] at h1
    rw [← hhalf]; linarith
  have hrel : (2 : ℚ) ^ (k - 53) ≤ x * (2 : ℚ) ^ (-53 : Int) := by
    have : k - 53 = k + (-53) := by ring
    rw [this, two_zpow_add]
    exact mul_le_mul_of_nonneg_right hk1 (two_zpow_pos _).le
  refine ⟨?_, ?_, ?_, fun K => ⟨?_, ?_⟩⟩
  · have := two_zpow_pos (k - 53)
    nlinarith [hlow, hrel, two_zpow_pos (-53 : Int), hx]
  · linarith
  · linarith
  · intro hK
    have hlt : (2 : ℚ) ^ K < (2 : ℚ) ^ (k + 1) := lt_of_le_of_lt hK hk2
    have hKk : K < k + 1 := (two_zpow_lt_iff K (k + 1)).mp hlt
    have h1 : (2 : ℚ) ^ K ≤ (2 : ℚ) ^ k := (two_zpow_le_iff _ _).mpr (by omega)
    have h2 : (2 : ℚ) ^ k = (2 : ℚ) ^ (52 : Int) * (2 : ℚ) ^ (k - 52) := by
      rw [← two_zpow_add]; congr 1; ring
    have h3 : (2 : ℚ) ^ (52 : Int) * (2 : ℚ) ^ (k - 52) ≤ m * (2 : ℚ) ^ (k - 52) :=
      mul_le_mul_of_nonneg_right hmnat hepos.le
    linarith
  · intro hK
    have hlt : (2 : ℚ) ^ k < (2 : ℚ) ^ K := lt_of_le_of_lt hk1 hK
    have hkK : k < K := (two_zpow_lt_iff k K).mp hlt
    have : (2 : ℚ) ^ (k - 53) ≤ (2 : ℚ) ^ (K - 54) := (two_zpow_le_iff _ _).mpr (by omega)
    linarith


theorem F64.round_man_nonneg (num : Int) (den : Nat) (h : 0 ≤ num) :
    0 ≤ (F64.round num den).man := by
  unfold F64.round
  split
  · exact le_refl 0
  · exact Int.mul_nonneg (Int.sign_nonneg.mpr h) (Int.ofNat_nonneg _)

theorem F64.round_near_int (num : Int) (den : Nat) (h : 0 ≤ num) (hden : 0 < den) :
    F64.Near ((num : ℚ) / den) (F64.round num den) := by
  obtain ⟨p, rfl⟩ := Int.eq_ofNat_of_zero_le h
  simpa using F64.round_near p den hden

theorem F64.scale_man_nonneg (num : Int) (den : Nat) (e : Int) (h : 0 ≤ num) :
    0 ≤ (F64.scale num den e).man :=
  F64.round_man_nonneg _ _ (Int.mul_nonneg h (by positivity))

theorem F64.scale_near (num : Int) (den : Nat) (e : Int) (h : 0 ≤ num) (hden : 0 < den) :
    F64.Near ((num : ℚ) / den * (2 : ℚ) ^ e) (F64.scale num den e) := by
  have h1 := F64.round_near_int (num * 2 ^ e.toNat) (den * 2 ^ (-e).toNat)
    (Int.mul_nonneg h (by positivity)) (by positivity)
  have h2 : ((num * 2 ^ e.toNat : Int) : ℚ) / ((den * 2 ^ (-e).toNat : Nat) : ℚ) =
      (num : ℚ) / den * (2 : ℚ) ^ e := by
    rw [← two_pow_toNat_div e]
    have hd' : (0 : ℚ) < den := by exact_mod_cast hden
    push_cast
    field_simp
  rw [h2] at h1
  exact h1

theorem F64.val_nonneg_of_man (x : F64) (h : 0 ≤ x.man) : 0 ≤ x.val := by
  unfold F64.val
  exact mul_nonneg (by exact_mod_cast h) (two_zpow_pos _).le

theorem F64.ofInt_near (n : Int) (h : 0 ≤ n) : F64.Near (n : ℚ) (F64.ofInt n) := by
  have := F64.round_near_int n 1 h Nat.one_pos
  simpa [F64.ofInt] using this

theorem F64.mul_near (x y : F64) (hx : 0 ≤ x.man) (hy : 0 ≤ y.man) :
    F64.Near (x.val * y.val) (F64.mul x y) := by
  have h := F64.scale_near (x.man * y.man) 1 (x.exp + y.exp) (Int.mul_nonneg hx hy) Nat.one_pos
  have h2 : ((x.man * y.man : Int) : ℚ) / ((1 : Nat) : ℚ) * (2 : ℚ) ^ (x.exp + y.exp) =
      x.val * y.val := by
    unfold F64.val
    rw [two_zpow_add]
    push_cast
    ring
  rw [h2] at h
  exact h

theorem F64.add_near (x y : F64) (hx : 0 ≤ x.man) (hy : 0 ≤ y.man) :
    F64.Near (x.val + y.val) (F64.add x y) := by
  have hnn : 0 ≤ x.man * 2 ^ (x.exp - min x.exp y.exp).toNat +
      y.man * 2 ^ (y.exp - min x.exp y.exp).toNat :=
    Int.add_nonneg (Int.mul_nonneg hx (by positivity)) (Int.mul_nonneg hy (by positivity))
  have h := F64.scale_near _ 1 (min x.exp y.exp) hnn Nat.one_pos
  have e1 : (((x.exp - min x.exp y.exp).toNat : Nat) : Int) = x.exp - min x.exp y.exp :=
    Int.toNat_of_nonneg (by omega)
  have e2 : (((y.exp - min x.exp y.exp).toNat : Nat) : Int) = y.exp - min x.exp y.exp :=
    Int.toNat_of_nonneg (by omega)
  have p1 : ((2 : ℚ) ^ (x.exp - min x.exp y.exp).toNat) * (2 : ℚ) ^ (min x.exp y.exp) =
      (2 : ℚ) ^ x.exp := by
    rw [← zpow_natCast, e1, ← two_zpow_add]; congr 1; ring
  have p2 : ((2 : ℚ) ^ (y.exp - min x.exp y.exp).toNat) * (2 : ℚ) ^ (min x.exp y.exp) =
      (2 : ℚ) ^ y.exp := by
    rw [← zpow_natCast, e2, ← two_zpow_add]; congr 1; ring
  have h2 : ((x.man * 2 ^ (x.exp - min x.exp y.exp).toNat +
      y.man * 2 ^ (y.exp - min x.exp y.exp).toNat : Int) : ℚ) / ((1 : Nat) : ℚ) *
      (2 : ℚ) ^ (min x.exp y.exp) = x.val + y.val := by
    unfold F64.val
    push_cast
    rw [div_one, add_mul, mul_assoc, mul_assoc, p1, p2]
  rw [h2] at h
  exact h

theorem F64.div_near (x y : F64) (hx : 0 ≤ x.man) (hy : 0 < y.man) :
    F64.Near (x.val / y.val) (F64.div x y) := by
  have hs : y.man.sign = 1 := Int.sign_eq_one_of_pos hy
  have hnat : ((y.man.natAbs : Nat) : Int) = y.man := Int.natAbs_of_nonneg hy.le
  have h := F64.scale_near (x.man * y.man.sign) y.man.natAbs (x.exp - y.exp)
    (by rw [hs, mul_one]; exact hx) (by omega)
  have hyq : (0 : ℚ) < (y.man : ℚ) := by exact_mod_cast hy
  have h2 : ((x.man * y.man.sign : Int) : ℚ) / ((y.man.natAbs : Nat) : ℚ) *
      (2 : ℚ) ^ (x.exp - y.exp) = x.val / y.val := by
    have hc : ((y.man.natAbs : Nat) : ℚ) = (y.man : ℚ) := by
      rw [Nat.cast_natAbs, abs_of_nonneg hy.le]
    unfold F64.val
    rw [hs, hc, sub_eq_add_neg, two_zpow_add, zpow_neg]
    have := two_zpow_pos y.exp
    push_cast
    field_simp
  rw [h2] at h
  exact h

theorem F64.mul_man_nonneg (x y : F64) (hx : 0 ≤ x.man) (hy : 0 ≤ y.man) :
    0 ≤ (F64.mul x y).man :=
  F64.scale_man_nonneg _ _ _ (Int.mul_nonneg hx hy)

theorem F64.add_man_nonneg (x y : F64) (hx : 0 ≤ x.man) (hy : 0 ≤ y.man) :
    0 ≤ (F64.add x y).man :=
  F64.scale_man_nonneg _ _ _
    (Int.add_nonneg (Int.mul_nonneg hx (by positivity)) (Int.mul_nonneg hy (by positivity)))

theorem F64.div_man_nonneg (x y : F64) (hx : 0 ≤ x.man) (hy : 0 < y.man) :
    0 ≤ (F64.div x y).man :=
  F64.scale_man_nonneg _ _ _ (by rw [Int.sign_eq_one_of_pos hy, mul_one]; exact hx)


/-- The conversion to `int` of a value that lies between `n` and `n + 1`. -/
theorem F64.toInt_eq (x : F64) (n : Int) (hman : 0 ≤ x.man) (hn0 : 0 ≤ n)
    (hn1 : n ≤ maxInt64) (h1 : (n : ℚ) ≤ x.val) (h2 : x.val < (n : ℚ) + 1) :
    F64.toInt x = n := by
  have hrange : minInt64 ≤ n ∧ n ≤ maxInt64 := ⟨by unfold minInt64; omega, hn1⟩
  have key : (if 0 ≤ x.exp then x.man * 2 ^ x.exp.toNat
      else Int.tdiv x.man (2 ^ (-x.exp).toNat)) = n := by
    unfold F64.val at h1 h2
    split
    · rename_i he
      have hc : (2 : ℚ) ^ x.exp = (((2 : Int) ^ x.exp.toNat : Int) : ℚ) := by
        have e : ((x.exp.toNat : Nat) : Int) = x.exp := Int.toNat_of_nonneg he
        calc (2 : ℚ) ^ x.exp = (2 : ℚ) ^ ((x.exp.toNat : Nat) : Int) := by rw [e]
          _ = (((2 : Int) ^ x.exp.toNat : Int) : ℚ) := by rw [zpow_natCast]; push_cast; rfl
      rw [hc] at h1 h2
      have h1' : n ≤ x.man * 2 ^ x.exp.toNat := by exact_mod_cast h1
      have h2' : x.man * 2 ^ x.exp.toNat < n + 1 := by exact_mod_cast h2
      omega
    · rename_i he
      have hk : (((-x.exp).toNat : Nat) : Int) = -x.exp := Int.toNat_of_nonneg (by omega)
      have hpos : (0 : Int) < 2 ^ (-x.exp).toNat := by positivity
      have hposq : (0 : ℚ) < (((2 : Int) ^ (-x.exp).toNat : Int) : ℚ) := by exact_mod_cast hpos
      have hc : (2 : ℚ) ^ x.exp = ((((2 : Int) ^ (-x.exp).toNat : Int) : ℚ))⁻¹ := by
        have e : -(((-x.exp).toNat : Nat) : Int) = x.exp := by omega
        calc (2 : ℚ) ^ x.exp = (2 : ℚ) ^ (-(((-x.exp).toNat : Nat) : Int)) := by rw [e]
          _ = ((((2 : Int) ^ (-x.exp).toNat : Int) : ℚ))⁻¹ := by
            rw [zpow_neg, zpow_natCast]; push_cast; rfl
      rw [hc, ← div_eq_mul_inv] at h1 h2
      rw [le_div_iff₀ hposq] at h1
      rw [div_lt_iff₀ hposq] at h2
      have h1' : n * 2 ^ (-x.exp).toNat ≤ x.man := by exact_mod_cast h1
      have h2' : x.man < (n + 1) * 2 ^ (-x.exp).toNat := by exact_mod_cast h2
      rw [Int.tdiv_eq_ediv hman hpos.le]
      apply le_antisymm
      · have := Int.ediv_lt_of_lt_mul hpos h2'
        omega
      · exact Int.le_ediv_of_mul_le hpos h1'
  unfold F64.toInt
  simp only [key, hrange, and_self, if_true]

set_option maxRecDepth 100000 in
theorem F64.ofInt_billion : F64.ofInt 1000000000 = ⟨8388608000000000, -23⟩ := by decide

theorem F64.val_billion : (F64.ofInt 1000000000).val = 1000000000 := by
  rw [F64.ofInt_billion]
  unfold F64.val
  norm_num

/-- The seconds of a duration that is not negative, as `Duration.Seconds` computes them:
within three roundings of the exact quotient. -/
theorem Duration.Seconds_bounds (d : Int) (hd : 0 ≤ d) :
    0 ≤ (Duration.Seconds d).man ∧
      (d : ℚ) / 1000000000 * (1 - (2 : ℚ) ^ (-53 : Int)) ^ 3 ≤ (Duration.Seconds d).val ∧
      (Duration.Seconds d).val ≤ (d : ℚ) / 1000000000 * (1 + (2 : ℚ) ^ (-53 : Int)) ^ 3 := by
  have hq : Int.tdiv d 1000000000 = d / 1000000000 := Int.tdiv_eq_ediv hd (by decide)
  have hr : Int.tmod d 1000000000 = d % 1000000000 := Int.tmod_eq_emod hd (by decide)
  have hq0 : 0 ≤ d / 1000000000 := Int.ediv_nonneg hd (by decide)
  have hr0 : 0 ≤ d % 1000000000 := Int.emod_nonneg d (by decide)
  have hsum : (d : ℚ) = 1000000000 * ((d / 1000000000 : Int) : ℚ) + ((d % 1000000000 : Int) : ℚ) := by
    have := Int.ediv_add_emod d 1000000000
    exact_mod_cast this.symm
  unfold Duration.Seconds
  rw [hq, hr]
  have ha := F64.ofInt_near (d / 1000000000) hq0
  have hn := F64.ofInt_near (d % 1000000000) hr0
  have ham : 0 ≤ (F64.ofInt (d / 1000000000)).man := F64.round_man_nonneg _ _ hq0
  have hnm : 0 ≤ (F64.ofInt (d % 1000000000)).man := F64.round_man_nonneg _ _ hr0
  have hgm : 0 < (F64.ofInt 1000000000).man := by rw [F64.ofInt_billion]; decide
  have hc := F64.div_near _ _ hnm hgm
  have hcm := F64.div_man_nonneg _ _ hnm hgm
  have hs := F64.add_near _ _ ham hcm
  refine ⟨F64.add_man_nonneg _ _ ham hcm, ?_, ?_⟩
  · obtain ⟨_, ha1, _, _⟩ := ha
    obtain ⟨_, hn1, _, _⟩ := hn
    obtain ⟨_, hc1, _, _⟩ := hc
    obtain ⟨_, hs1, _, _⟩ := hs
    rw [F64.val_billion] at hc1
    rw [hsum]
    have hq0' : (0 : ℚ) ≤ ((d / 1000000000 : Int) : ℚ) := by exact_mod_cast hq0
    have hr0' : (0 : ℚ) ≤ ((d % 1000000000 : Int) : ℚ) := by exact_mod_cast hr0
    norm_num at ha1 hn1 hc1 hs1 ⊢
    linarith
  · obtain ⟨_, _, ha1, _⟩ := ha
    obtain ⟨_, _, hn1, _⟩ := hn
    obtain ⟨_, _, hc1, _⟩ := hc
    obtain ⟨_, _, hs1, _⟩ := hs
    rw [F64.val_billion] at hc1
    rw [hsum]
    have hq0' : (0 : ℚ) ≤ ((d / 1000000000 : Int) : ℚ) := by exact_mod_cast hq0
    have hr0' : (0 : ℚ) ≤ ((d % 1000000000 : Int) : ℚ) := by exact_mod_cast hr0
    norm_num at ha1 hn1 hc1 hs1 ⊢
    linarith

/-- The product `elapsed.Seconds() * float64(rate)` of `Allow`, for an elapsed time and a
rate that are not negative: within the relative error `2^-50` of the exact product. -/
theorem tokensToAdd_product_bounds (e R : Int) (he : 0 ≤ e) (hR : 0 ≤ R) :
    0 ≤ (F64.mul (Duration.Seconds e) (F64.ofInt R)).man ∧
      (e : ℚ) * (R : ℚ) / 1000000000 * (1 - (2 : ℚ) ^ (-50 : Int)) ≤
        (F64.mul (Duration.Seconds e) (F64.ofInt R)).val ∧
      (F64.mul (Duration.Seconds e) (F64.ofInt R)).val ≤
        (e : ℚ) * (R : ℚ) / 1000000000 * (1 + (2 : ℚ) ^ (-50 : Int)) := by
  obtain ⟨hsm, hs1, hs2⟩ := Duration.Seconds_bounds e he
  have hr := F64.ofInt_near R hR
  have hrm : 0 ≤ (F64.ofInt R).man := F64.round_man_nonneg _ _ hR
  have hp := F64.mul_near _ _ hsm hrm
  have he' : (0 : ℚ) ≤ (e : ℚ) := by exact_mod_cast he
  have hR' : (0 : ℚ) ≤ (R : ℚ) := by exact_mod_cast hR
  have hER : (0 : ℚ) ≤ (e : ℚ) * (R : ℚ) := mul_nonneg he' hR'
  have hsv : 0 ≤ (Duration.Seconds e).val := F64.val_nonneg_of_man _ hsm
  have hrv : 0 ≤ (F64.ofInt R).val := F64.val_nonneg_of_man _ hrm
  obtain ⟨_, hr1, hr2, _⟩ := hr
  obtain ⟨_, hp1, hp2, _⟩ := hp
  refine ⟨F64.mul_man_nonneg _ _ hsm hrm, ?_, ?_⟩
  · have hlow : (e : ℚ) / 1000000000 * (1 - (2 : ℚ) ^ (-53 : Int)) ^ 3 *
        ((R : ℚ) * (1 - (2 : ℚ) ^ (-53 : Int))) ≤
        (Duration.Seconds e).val * (F64.ofInt R).val :=
      mul_le_mul hs1 hr1 (mul_nonneg hR' (by norm_num))
        hsv
    norm_num at hlow hp1 ⊢
    linarith
  · have hup : (Duration.Seconds e).val * (F64.ofInt R).val ≤
        (e : ℚ) / 1000000000 * (1 + (2 : ℚ) ^ (-53 : Int)) ^ 3 *
          ((R : ℚ) * (1 + (2 : ℚ) ^ (-53 : Int))) :=
      mul_le_mul hs2 hr2 hrv
        (mul_nonneg (div_nonneg he' (by norm_num)) (by norm_num))
    norm_num at hup hp2 ⊢
    linarith

/-- While less than one token has accrued, `Allow` has no token to add. -/
theorem tokensToAdd_eq_zero (e R : Int) (he : 0 ≤ e) (hR : 0 ≤ R)
    (h : e * R < 1000000000) : tokensToAdd e R = 0 := by
  obtain ⟨hm, _, h2⟩ := tokensToAdd_product_bounds e R he hR
  have hER : (e : ℚ) * (R : ℚ) ≤ 999999999 := by
    have : e * R ≤ 999999999 := by omega
    exact_mod_cast this
  unfold tokensToAdd
  apply F64.toInt_eq _ 0 hm (le_refl 0) (by decide)
  · exact_mod_cast F64.val_nonneg_of_man _ hm
  · norm_num at h2 ⊢
    linarith

/-- Strictly between `n` and `n + 1` accrued tokens, for `n` up to a million, `Allow` adds
`n` tokens: the floor of the exact product. -/
theorem tokensToAdd_eq_floor (e R n : Int) (he : 0 ≤ e) (hR : 0 ≤ R) (hn0 : 0 ≤ n)
    (hn1 : n ≤ 1000000) (h1 : 1000000000 * n < e * R)
    (h2 : e * R < 1000000000 * (n + 1)) : tokensToAdd e R = n := by
  obtain ⟨hm, hlo, hup⟩ := tokensToAdd_product_bounds e R he hR
  have hER1 : 1000000000 * (n : ℚ) + 1 ≤ (e : ℚ) * (R : ℚ) := by
    have : 1000000000 * n + 1 ≤ e * R := by omega
    exact_mod_cast this
  have hER2 : (e : ℚ) * (R : ℚ) ≤ 1000000000 * ((n : ℚ) + 1) - 1 := by
    have : e * R ≤ 1000000000 * (n + 1) - 1 := by omega
    exact_mod_cast this
  have hn0' : (0 : ℚ) ≤ (n : ℚ) := by exact_mod_cast hn0
  have hn1' : (n : ℚ) ≤ 1000000 := by exact_mod_cast hn1
  unfold tokensToAdd
  apply F64.toInt_eq _ n hm hn0 (by unfold maxInt64; omega)
  · norm_num at hlo ⊢
    linarith
  · norm_num at hup ⊢
    linarith

set_option maxRecDepth 1000000 in
set_option maxHeartbeats 4000000 in
theorem tokensToAdd_divisors :
    ∀ a : Fin 10, ∀ b : Fin 10,
      tokensToAdd (Int.ofNat (2 ^ (9 - a.val) * 5 ^ (9 - b.val)))
        (Int.ofNat (2 ^ a.val * 5 ^ b.val)) = 1 := by
  decide

/-- When the rate divides the nanoseconds of a second, exactly one refill period after the
last refill `Allow` adds one token. -/
theorem tokensToAdd_period (d R : Int) (hR : 1 ≤ R) (hd : d * R = 1000000000) :
    tokensToAdd d R = 1 := by
  have hRn : ((R.toNat : Nat) : Int) = R := Int.toNat_of_nonneg (by omega)
  have hdvd : R.toNat ∣ 2 ^ 9 * 5 ^ 9 := by
    have h1 : R ∣ 1000000000 := ⟨d, by rw [← hd]; ring⟩
    have h2 : ((R.toNat : Nat) : Int) ∣ ((1000000000 : Nat) : Int) := by rw [hRn]; exact h1
    have h3 : R.toNat ∣ 1000000000 := Int.natCast_dvd_natCast.mp h2
    exact h3
  obtain ⟨k1, k2, hk1, hk2, hk⟩ := (Nat.dvd_mul).1 hdvd
  obtain ⟨a, ha, rfl⟩ := (Nat.dvd_prime_pow Nat.prime_two).1 hk1
  obtain ⟨b, hb, rfl⟩ := (Nat.dvd_prime_pow Nat.prime_five).1 hk2
  have hR2 : R = Int.ofNat (2 ^ a * 5 ^ b) := by
    rw [← hRn, ← hk]; rfl
  have hD : Int.ofNat (2 ^ (9 - a) * 5 ^ (9 - b)) * R = 1000000000 := by
    rw [hR2]
    have h2 : 2 ^ (9 - a) * 2 ^ a = 2 ^ 9 := by rw [← pow_add, Nat.sub_add_cancel ha]
    have h5 : 5 ^ (9 - b) * 5 ^ b = 5 ^ 9 := by rw [← pow_add, Nat.sub_add_cancel hb]
    have : (2 ^ (9 - a) * 5 ^ (9 - b)) * (2 ^ a * 5 ^ b) = 1000000000 := by
      calc (2 ^ (9 - a) * 5 ^ (9 - b)) * (2 ^ a * 5 ^ b)
          = (2 ^ (9 - a) * 2 ^ a) * (5 ^ (9 - b) * 5 ^ b) := by ring
        _ = 1000000000 := by rw [h2, h5]; norm_num
    show ((2 ^ (9 - a) * 5 ^ (9 - b) : Nat) : Int) * ((2 ^ a * 5 ^ b : Nat) : Int) = 1000000000
    exact_mod_cast this
  have hdD : d = Int.ofNat (2 ^ (9 - a) * 5 ^ (9 - b)) := by
    have hne : R ≠ 0 := by omega
    exact mul_right_cancel₀ hne (hd.trans hD.symm)
  rw [hdD, hR2]
  exact tokensToAdd_divisors ⟨a, by omega⟩ ⟨b, by omega⟩

/-- When the rate divides the nanoseconds of a second, `Allow` adds one token from one
refill period after the last refill until the second period is over. -/
theorem tokensToAdd_eq_one (e R d : Int) (hR : 1 ≤ R) (hd : d * R = 1000000000)
    (h1 : 1000000000 ≤ e * R) (h2 : e * R < 2000000000) : tokensToAdd e R = 1 := by
  by_cases hb : e * R = 1000000000
  · have hne : R ≠ 0 := by omega
    have he : e = d := mul_right_cancel₀ hne (hb.trans hd.symm)
    rw [he]
    exact tokensToAdd_period d R hR hd
  · have he : 0 ≤ e := by
      by_contra hneg
      have : e * R ≤ 0 := Int.mul_nonpos_of_nonpos_of_nonneg (by omega) (by omega)
      omega
    exact tokensToAdd_eq_floor e R 1 he (by omega) (by decide) (by decide) (by omega) (by omega)

/-! ## The rate gate -/

theorem wrapInt_eq (x : Int) (h1 : minInt64 ≤ x) (h2 : x ≤ maxInt64) : wrapInt x = x := by
  unfold wrapInt
  unfold minInt64 at h1
  unfold maxInt64 at h2
  omega

theorem timeSub_eq (t u : Int) (h1 : minInt64 ≤ t - u) (h2 : t - u ≤ maxInt64) :
    Time.Sub t u = t - u := by
  unfold Time.Sub
  rw [if_neg (not_lt.mpr h1), if_neg (not_lt.mpr h2)]

theorem timeSub_eq_of_product (t u R b : Int) (hR : 1 ≤ R) (h0 : u ≤ t)
    (h1 : (t - u) * R < b) (hb : b ≤ maxInt64) : Time.Sub t u = t - u := by
  have he : 0 ≤ t - u := by omega
  have h2 : t - u ≤ (t - u) * R := le_mul_of_one_le_right he hR
  apply timeSub_eq
  · unfold minInt64; omega
  · omega

theorem middleware_min_eq (a b : Int) : middleware.min a b = min a b := by
  unfold middleware.min
  split
  · rw [min_eq_left]; omega
  · rw [min_eq_right]; omega

theorem TokenBucket.Allow_of_no_refill (tb : TokenBucket) (now : Time)
    (h : tokensToAdd (Time.Sub now tb.lastCheck) tb.rate ≤ 0) :
    tb.Allow now =
      if tb.tokens > 0 then ({ tb with tokens := tb.tokens - 1 }, true) else (tb, false) := by
  have h1 : ¬ tokensToAdd (Time.Sub now tb.lastCheck) tb.rate > 0 := not_lt.mpr h
  simp only [TokenBucket.Allow, h1, if_false]

theorem TokenBucket.Allow_of_refill (tb : TokenBucket) (now : Time)
    (h : 0 < tokensToAdd (Time.Sub now tb.lastCheck) tb.rate) :
    tb.Allow now =
      if middleware.min tb.capacity
          (wrapInt (tb.tokens + tokensToAdd (Time.Sub now tb.lastCheck) tb.rate)) > 0 then
        (⟨tb.capacity, middleware.min tb.capacity
          (wrapInt (tb.tokens + tokensToAdd (Time.Sub now tb.lastCheck) tb.rate)) - 1,
          tb.rate, now⟩, true)
      else
        (⟨tb.capacity, middleware.min tb.capacity
          (wrapInt (tb.tokens + tokensToAdd (Time.Sub now tb.lastCheck) tb.rate)),
          tb.rate, now⟩, false) := by
  have h1 : tokensToAdd (Time.Sub now tb.lastCheck) tb.rate > 0 := h
  simp only [TokenBucket.Allow, h1, if_true]

/-- A call of `Allow` less than one refill period after the last refill finds no token to
add. -/
theorem tokensToAdd_within_period (t u R : Int) (hR : 1 ≤ R) (h0 : u ≤ t)
    (h1 : (t - u) * R < 1000000000) : tokensToAdd (Time.Sub t u) R = 0 := by
  rw [timeSub_eq_of_product t u R 1000000000 hR h0 h1 (by decide)]
  exact tokensToAdd_eq_zero _ _ (by omega) (by omega) h1

theorem TokenBucket.allows_append (tb : TokenBucket) (xs : List Time) (y : Time) :
    tb.allows (xs ++ [y]) =
      (((tb.allows xs).1.Allow y).1, (tb.allows xs).2 ++ [((tb.allows xs).1.Allow y).2]) := by
  induction xs generalizing tb with
  | nil => simp [TokenBucket.allows]
  | cons x xs ih => simp [TokenBucket.allows, ih]

theorem TokenBucket.allows_burst (capacity rate : Int) (t0 : Time) (ts : List Time) :
    ∀ tokens : Nat, ts.length ≤ tokens →
      (∀ t ∈ ts, t0 ≤ t ∧ (t - t0) * rate < 1000000000) → 1 ≤ rate →
      TokenBucket.allows ⟨capacity, tokens, rate, t0⟩ ts =
        (⟨capacity, ((tokens - ts.length : Nat) : Int), rate, t0⟩,
          List.replicate ts.length true) := by
  induction ts with
  | nil => intro tokens _ _ _; simp [TokenBucket.allows]
  | cons t rest ih =>
    intro tokens hlen hts hr
    obtain ⟨ht0, ht1⟩ := hts t (List.mem_cons_self _ _)
    cases tokens with
    | zero => simp at hlen
    | succ k =>
      have hadd : tokensToAdd (Time.Sub t t0) rate = 0 :=
        tokensToAdd_within_period t t0 rate hr ht0 ht1
      have hstep : TokenBucket.Allow ⟨capacity, ((k + 1 : Nat) : Int), rate, t0⟩ t =
          (⟨capacity, (k : Int), rate, t0⟩, true) := by
        rw [TokenBucket.Allow_of_no_refill ⟨capacity, ((k + 1 : Nat) : Int), rate, t0⟩ t
          (le_of_eq hadd)]
        have hpos : ((k + 1 : Nat) : Int) > 0 := by omega
        have hk : ((k + 1 : Nat) : Int) - 1 = (k : Int) := by omega
        show (if ((k + 1 : Nat) : Int) > 0 then
            ((⟨capacity, ((k + 1 : Nat) : Int) - 1, rate, t0⟩ : TokenBucket), true)
          else ((⟨capacity, ((k + 1 : Nat) : Int), rate, t0⟩ : TokenBucket), false)) = _
        rw [if_pos hpos, hk]
      have hrest := ih k (by simpa using hlen)
        (fun u hu => hts u (List.mem_cons_of_mem _ hu)) hr
      simp only [TokenBucket.allows, hstep, hrest]
      simp [List.replicate_succ]

set_option maxRecDepth 100000 in
/-- C7, refuted as stated, at capacity 2 and rate 3 per second.  No whole number of
nanoseconds is a third of a second.  After the burst at instant 0 (answers true, true,
false) a call 333333333 ns after the denial is denied.  And when the denial of the burst
falls at 333333333 ns, still inside the first third of a second, a call 333333334 ns
after it is allowed and so is the call that follows it at once: two tokens had
accrued. -/
theorem rate_gate_burst_counterexample :
    (∀ d : Int, d * 3 ≠ 1000000000) ∧
      ((NewTokenBucket 2 3 0).allows [0, 0, 0]).2 = [true, true, false] ∧
      (((NewTokenBucket 2 3 0).allows [0, 0, 0]).1.Allow (0 + 333333333)).2 = false ∧
      ((NewTokenBucket 2 3 0).allows [0, 0, 333333333]).2 = [true, true, false] ∧
      (((NewTokenBucket 2 3 0).allows [0, 0, 333333333]).1.Allow
        (333333333 + 333333334)).2 = true ∧
      ((((NewTokenBucket 2 3 0).allows [0, 0, 333333333]).1.Allow
        (333333333 + 333333334)).1.Allow (333333333 + 333333334)).2 = true := by
  refine ⟨fun d h => by omega, ?_, ?_, ?_, ?_, ?_⟩ <;> decide

/-- C7, amended.  Take a bucket made by `NewTokenBucket(C, R)` at `t0` with `C ≥ 1` and
`R ≥ 1`, and `C + 1` calls of `Allow` at instants of `[t0, t0 + 1/R)` (the instants `ts`
and then `td`).  The answers are `C` times true and then one false.  When moreover the
rate divides the nanoseconds of a second, so that a refill period is a whole number `d`
of nanoseconds, a further call `d` nanoseconds after the denial is allowed, and a call
that follows it less than one period later is denied. -/
theorem rate_gate_burst (C R : Int) (hC : 1 ≤ C) (hR : 1 ≤ R) (t0 : Time) (ts : List Time)
    (td : Time) (hlen : (ts.length : Int) = C)
    (hts : ∀ t ∈ ts ++ [td], t0 ≤ t ∧ (t - t0) * R < 1000000000) :
    ((NewTokenBucket C R t0).allows (ts ++ [td])).2 =
        List.replicate ts.length true ++ [false] ∧
      ∀ d t2 : Time, d * R = 1000000000 →
        td + d ≤ t2 → (t2 - (td + d)) * R < 1000000000 →
        (((NewTokenBucket C R t0).allows (ts ++ [td])).1.Allow (td + d)).2 = true ∧
          ((((NewTokenBucket C R t0).allows (ts ++ [td])).1.Allow (td + d)).1.Allow t2).2 =
            false := by
  have hC0 : ((C.toNat : Nat) : Int) = C := Int.toNat_of_nonneg (by omega)
  have hlen2 : ts.length = C.toNat := by omega
  have hburst := TokenBucket.allows_burst C R t0 ts C.toNat (le_of_eq hlen2)
    (fun t ht => hts t (List.mem_append_left _ ht)) hR
  have hnew : NewTokenBucket C R t0 = ⟨C, ((C.toNat : Nat) : Int), R, t0⟩ := by
    rw [hC0]; rfl
  obtain ⟨htd0, htd1⟩ := hts td (List.mem_append_right _ (List.mem_singleton_self _))
  have hzero : ((C.toNat - ts.length : Nat) : Int) = 0 := by omega
  -- the denial
  have hdeny : TokenBucket.Allow ⟨C, 0, R, t0⟩ td = (⟨C, 0, R, t0⟩, false) := by
    have hadd : tokensToAdd (Time.Sub td t0) R = 0 :=
      tokensToAdd_within_period td t0 R hR htd0 htd1
    rw [TokenBucket.Allow_of_no_refill ⟨C, 0, R, t0⟩ td (le_of_eq hadd)]
    exact if_neg (lt_irrefl (0 : Int))
  rw [TokenBucket.allows_append, hnew, hburst, hzero]
  simp only [hdeny]
  refine ⟨trivial, ?_⟩
  intro d t2 hd ht2a ht2b
  -- the call one refill period later
  have hmul : (td + d - t0) * R = (td - t0) * R + d * R := by ring
  have hge : (0 : Int) ≤ (td - t0) * R :=
    Int.mul_nonneg (Int.sub_nonneg_of_le htd0) (by omega)
  have hd0 : 0 ≤ d := by
    by_contra hneg
    have hR0 : (0 : Int) ≤ R := le_trans (by decide) hR
    have : d * R ≤ 0 := Int.mul_nonpos_of_nonpos_of_nonneg (le_of_lt (not_le.mp hneg)) hR0
    linarith
  have hone : tokensToAdd (Time.Sub (td + d) t0) R = 1 := by
    rw [timeSub_eq_of_product (td + d) t0 R 2000000000 hR (by linarith)
      (by rw [hmul, hd]; linarith) (by decide)]
    exact tokensToAdd_eq_one _ R d hR hd (by rw [hmul, hd]; linarith)
      (by rw [hmul, hd]; linarith)
  have hallow : TokenBucket.Allow ⟨C, 0, R, t0⟩ (td + d) = (⟨C, 0, R, td + d⟩, true) := by
    have hwrap : wrapInt (0 + 1) = 1 := by decide
    have hmin : middleware.min C 1 = 1 := by
      unfold middleware.min
      split
      · omega
      · rfl
    have hpos : (0 : Int) < tokensToAdd (Time.Sub (td + d) t0) R := by rw [hone]; decide
    rw [TokenBucket.Allow_of_refill ⟨C, 0, R, t0⟩ (td + d) hpos]
    show (if middleware.min C (wrapInt (0 + tokensToAdd (Time.Sub (td + d) t0) R)) > 0 then
        ((⟨C, middleware.min C (wrapInt (0 + tokensToAdd (Time.Sub (td + d) t0) R)) - 1,
          R, td + d⟩ : TokenBucket), true)
      else ((⟨C, middleware.min C (wrapInt (0 + tokensToAdd (Time.Sub (td + d) t0) R)),
          R, td + d⟩ : TokenBucket), false)) = _
    rw [hone, hwrap, hmin]
    rfl
  -- the call right after
  have hagain : TokenBucket.Allow ⟨C, 0, R, td + d⟩ t2 = (⟨C, 0, R, td + d⟩, false) := by
    have hadd : tokensToAdd (Time.Sub t2 (td + d)) R = 0 :=
      tokensToAdd_within_period t2 (td + d) R hR ht2a ht2b
    rw [TokenBucket.Allow_of_no_refill ⟨C, 0, R, td + d⟩ t2 (le_of_eq hadd)]
    exact if_neg (lt_irrefl (0 : Int))
  simp only [hallow, hagain]
  exact ⟨trivial, trivial⟩

set_option maxRecDepth 100000 in
/-- The instance of C7 with capacity 2 and rate 1000 per second: three calls within the
first millisecond are answered true, true, false; one millisecond after the denial a call
is allowed and the next one at that instant is denied. -/
theorem rate_gate_burst_witness :
    (1 : Int) ≤ 2 ∧ (1 : Int) ≤ 1000 ∧
      ((NewTokenBucket 2 1000 0).allows ([0, 500000] ++ [999999])).2 = [true, true, false] ∧
      (((NewTokenBucket 2 1000 0).allows ([0, 500000] ++ [999999])).1.Allow
        (999999 + 1000000)).2 = true ∧
      ((((NewTokenBucket 2 1000 0).allows ([0, 500000] ++ [999999])).1.Allow
        (999999 + 1000000)).1.Allow (999999 + 1000000)).2 = false :=
  ⟨by decide, by decide,
    (rate_gate_burst 2 1000 (by decide) (by decide) 0 [0, 500000] 999999 (by decide)
      (by decide)).1,
    (rate_gate_burst 2 1000 (by decide) (by decide) 0 [0, 500000] 999999 (by decide)
      (by decide)).2 1000000 (999999 + 1000000) (by decide) (by decide) (by decide)⟩

/-! ### Signs -/

theorem F64.round_man_nonpos (num : Int) (den : Nat) (h : num ≤ 0) :
    (F64.round num den).man ≤ 0 := by
  unfold F64.round
  split
  · exact le_refl 0
  · rename_i h0
    have hneg : num < 0 := lt_of_le_of_ne h h0
    dsimp only
    rw [Int.sign_eq_neg_one_of_neg hneg]
    exact Int.mul_nonpos_of_nonpos_of_nonneg (by decide) (Int.ofNat_nonneg _)

theorem F64.scale_man_nonpos (num : Int) (den : Nat) (e : Int) (h : num ≤ 0) :
    (F64.scale num den e).man ≤ 0 :=
  F64.round_man_nonpos _ _ (Int.mul_nonpos_of_nonpos_of_nonneg h (by positivity))

theorem F64.toInt_nonpos (x : F64) (h : x.man ≤ 0) : F64.toInt x ≤ 0 := by
  obtain ⟨t, ht⟩ : ∃ t : Int, t = (if 0 ≤ x.exp then x.man * 2 ^ x.exp.toNat
      else Int.tdiv x.man (2 ^ (-x.exp).toNat)) := ⟨_, rfl⟩
  have key : t ≤ 0 := by
    rw [ht]
    split
    · exact Int.mul_nonpos_of_nonpos_of_nonneg h (by positivity)
    · have h2 : Int.tdiv x.man (2 ^ (-x.exp).toNat) =
          -(Int.tdiv (-x.man) (2 ^ (-x.exp).toNat)) := by
        rw [Int.neg_tdiv, Int.neg_neg]
      have h3 : 0 ≤ Int.tdiv (-x.man) (2 ^ (-x.exp).toNat) :=
        Int.tdiv_nonneg (by omega) (by positivity)
      omega
  have hdef : F64.toInt x = if minInt64 ≤ t ∧ t ≤ maxInt64 then t else minInt64 := by
    rw [ht]; rfl
  rw [hdef]
  split
  · exact key
  · decide

theorem Duration.Seconds_man_nonpos (d : Int) (hd : d ≤ 0) :
    (Duration.Seconds d).man ≤ 0 := by
  have h2 : Int.tdiv d 1000000000 = -(Int.tdiv (-d) 1000000000) := by
    rw [Int.neg_tdiv, Int.neg_neg]
  have h3 : Int.tdiv (-d) 1000000000 = (-d) / 1000000000 :=
    Int.tdiv_eq_ediv (by omega) (by decide)
  have hq : Int.tdiv d 1000000000 ≤ 0 := by omega
  have hr : Int.tmod d 1000000000 ≤ 0 := by
    have h1 : Int.tmod d 1000000000 = d - 1000000000 * Int.tdiv d 1000000000 := by
      have := Int.tmod_add_tdiv d 1000000000
      omega
    omega
  have hgm : 0 < (F64.ofInt 1000000000).man := by rw [F64.ofInt_billion]; decide
  have ha : (F64.ofInt (Int.tdiv d 1000000000)).man ≤ 0 := F64.round_man_nonpos _ _ hq
  have hn : (F64.ofInt (Int.tmod d 1000000000)).man ≤ 0 := F64.round_man_nonpos _ _ hr
  have hc : (F64.div (F64.ofInt (Int.tmod d 1000000000)) (F64.ofInt 1000000000)).man ≤ 0 := by
    apply F64.scale_man_nonpos
    rw [Int.sign_eq_one_of_pos hgm, mul_one]
    exact hn
  unfold Duration.Seconds
  apply F64.scale_man_nonpos
  exact Int.add_nonpos (Int.mul_nonpos_of_nonpos_of_nonneg ha (by positivity))
    (Int.mul_nonpos_of_nonpos_of_nonneg hc (by positivity))

/-- With a rate that is not negative, a clock reading that is not after the last refill
gives `Allow` no token to add. -/
theorem tokensToAdd_of_elapsed_nonpos (e R : Int) (he : e ≤ 0) (hR : 0 ≤ R) :
    tokensToAdd e R ≤ 0 := by
  unfold tokensToAdd
  apply F64.toInt_nonpos
  apply F64.scale_man_nonpos
  exact Int.mul_nonpos_of_nonpos_of_nonneg (Duration.Seconds_man_nonpos e he)
    (F64.round_man_nonneg _ _ hR)

/-- With a rate that is not positive, a clock reading that is not before the last refill
gives `Allow` no token to add. -/
theorem tokensToAdd_of_rate_nonpos (e R : Int) (he : 0 ≤ e) (hR : R ≤ 0) :
    tokensToAdd e R ≤ 0 := by
  unfold tokensToAdd
  apply F64.toInt_nonpos
  apply F64.scale_man_nonpos
  exact Int.mul_nonpos_of_nonneg_of_nonpos (Duration.Seconds_bounds e he).1
    (F64.round_man_nonpos _ _ hR)

/-- The conversion to `int` of a value that is not negative does not exceed the value. -/
theorem F64.toInt_le (x : F64) (hman : 0 ≤ x.man) : ((F64.toInt x : Int) : ℚ) ≤ x.val := by
  obtain ⟨t, ht⟩ : ∃ t : Int, t = (if 0 ≤ x.exp then x.man * 2 ^ x.exp.toNat
      else Int.tdiv x.man (2 ^ (-x.exp).toNat)) := ⟨_, rfl⟩
  have hv : 0 ≤ x.val := F64.val_nonneg_of_man x hman
  have key : (t : ℚ) ≤ x.val := by
    rw [ht]
    unfold F64.val
    split
    · rename_i he
      have e : ((x.exp.toNat : Nat) : Int) = x.exp := Int.toNat_of_nonneg he
      have hc : (2 : ℚ) ^ x.exp = (((2 : Int) ^ x.exp.toNat : Int) : ℚ) := by
        calc (2 : ℚ) ^ x.exp = (2 : ℚ) ^ ((x.exp.toNat : Nat) : Int) := by rw [e]
          _ = (((2 : Int) ^ x.exp.toNat : Int) : ℚ) := by rw [zpow_natCast]; push_cast; rfl
      rw [hc]
      push_cast
      exact le_refl _
    · rename_i he
      have hpos : (0 : Int) < 2 ^ (-x.exp).toNat := by positivity
      have hposq : (0 : ℚ) < (((2 : Int) ^ (-x.exp).toNat : Int) : ℚ) := by exact_mod_cast hpos
      have e : -(((-x.exp).toNat : Nat) : Int) = x.exp := by omega
      have hc : (2 : ℚ) ^ x.exp = ((((2 : Int) ^ (-x.exp).toNat : Int) : ℚ))⁻¹ := by
        calc (2 : ℚ) ^ x.exp = (2 : ℚ) ^ (-(((-x.exp).toNat : Nat) : Int)) := by rw [e]
          _ = ((((2 : Int) ^ (-x.exp).toNat : Int) : ℚ))⁻¹ := by
            rw [zpow_neg, zpow_natCast]; push_cast; rfl
      rw [hc, ← div_eq_mul_inv, le_div_iff₀ hposq, Int.tdiv_eq_ediv hman hpos.le]
      have := Int.ediv_mul_le x.man (ne_of_gt hpos)
      exact_mod_cast this
  have hdef : F64.toInt x = if minInt64 ≤ t ∧ t ≤ maxInt64 then t else minInt64 := by
    rw [ht]; rfl
  rw [hdef]
  split
  · exact key
  · have : ((minInt64 : Int) : ℚ) ≤ 0 := by unfold minInt64; norm_num
    exact le_trans this hv

/-- What `Allow` adds in one call is at most the rate times 2^34: an elapsed time is at
most the greatest `int64` of nanoseconds, less than 2^34 seconds. -/
theorem tokensToAdd_le (e R : Int) (he : e ≤ maxInt64) (hR : 0 ≤ R) :
    tokensToAdd e R ≤ 17179869184 * R := by
  by_cases h0 : 0 ≤ e
  · obtain ⟨hm, _, hup⟩ := tokensToAdd_product_bounds e R h0 hR
    have h1 := F64.toInt_le _ hm
    have he' : (e : ℚ) ≤ 9223372036854775807 := by
      have : e ≤ 9223372036854775807 := he
      exact_mod_cast this
    have hR' : (0 : ℚ) ≤ (R : ℚ) := by exact_mod_cast hR
    have hER : (e : ℚ) * (R : ℚ) ≤ 9223372036854775807 * (R : ℚ) :=
      mul_le_mul_of_nonneg_right he' hR'
    have hq : ((tokensToAdd e R : Int) : ℚ) ≤ 17179869184 * (R : ℚ) := by
      unfold tokensToAdd
      norm_num at hup ⊢
      linarith
    exact_mod_cast hq
  · have := tokensToAdd_of_elapsed_nonpos e R (by omega) hR
    omega

theorem timeSub_le (t u : Int) : Time.Sub t u ≤ maxInt64 := by
  unfold Time.Sub
  split
  · decide
  · split
    · exact le_refl _
    · omega

theorem TokenBucket.Allow_cases (tb : TokenBucket) (now : Time) (add : Int)
    (hA : tokensToAdd (Time.Sub now tb.lastCheck) tb.rate = add) :
    (add ≤ 0 ∧ tb.Allow now =
      if tb.tokens > 0 then ({ tb with tokens := tb.tokens - 1 }, true) else (tb, false)) ∨
    (0 < add ∧ tb.Allow now =
      if middleware.min tb.capacity (wrapInt (tb.tokens + add)) > 0 then
        (⟨tb.capacity, middleware.min tb.capacity (wrapInt (tb.tokens + add)) - 1,
          tb.rate, now⟩, true)
      else
        (⟨tb.capacity, middleware.min tb.capacity (wrapInt (tb.tokens + add)),
          tb.rate, now⟩, false)) := by
  by_cases h : add ≤ 0
  · left
    refine ⟨h, ?_⟩
    exact TokenBucket.Allow_of_no_refill tb now (by rw [hA]; exact h)
  · right
    have hpos : 0 < add := not_le.mp h
    refine ⟨hpos, ?_⟩
    rw [TokenBucket.Allow_of_refill tb now (by rw [hA]; exact hpos), hA]

theorem TokenBucket.Allow_keeps_bounds (tb : TokenBucket) (now : Time)
    (hcap : 1 ≤ tb.capacity) (htok : 0 ≤ tb.tokens) (hle : tb.tokens ≤ tb.capacity)
    (hfit : tokensToAdd (Time.Sub now tb.lastCheck) tb.rate ≤ 0 ∨
      tb.tokens + tokensToAdd (Time.Sub now tb.lastCheck) tb.rate ≤ maxInt64) :
    (tb.Allow now).1.capacity = tb.capacity ∧ (tb.Allow now).1.rate = tb.rate ∧
      0 ≤ (tb.Allow now).1.tokens ∧ (tb.Allow now).1.tokens ≤ tb.capacity := by
  obtain ⟨add, hA⟩ : ∃ add, tokensToAdd (Time.Sub now tb.lastCheck) tb.rate = add := ⟨_, rfl⟩
  rw [hA] at hfit
  rcases TokenBucket.Allow_cases tb now add hA with ⟨_, h⟩ | ⟨hpos, h⟩
  · rw [h]
    split
    · refine ⟨rfl, rfl, ?_, ?_⟩
      · show 0 ≤ tb.tokens - 1
        omega
      · show tb.tokens - 1 ≤ tb.capacity
        omega
    · exact ⟨rfl, rfl, htok, hle⟩
  · have hsum : tb.tokens + add ≤ maxInt64 := by
      rcases hfit with h1 | h1
      · omega
      · exact h1
    have hw : wrapInt (tb.tokens + add) = tb.tokens + add :=
      wrapInt_eq _ (by unfold minInt64; omega) hsum
    rw [h, hw, middleware_min_eq]
    have hm1 : 1 ≤ min tb.capacity (tb.tokens + add) := le_min hcap (by omega)
    have hm2 : min tb.capacity (tb.tokens + add) ≤ tb.capacity := min_le_left _ _
    split
    · refine ⟨rfl, rfl, ?_, ?_⟩
      · show 0 ≤ min tb.capacity (tb.tokens + add) - 1
        omega
      · show min tb.capacity (tb.tokens + add) - 1 ≤ tb.capacity
        omega
    · refine ⟨rfl, rfl, ?_, ?_⟩
      · show 0 ≤ min tb.capacity (tb.tokens + add)
        omega
      · exact hm2

theorem TokenBucket.Allow_denied (tb : TokenBucket) (now : Time)
    (hcap : 1 ≤ tb.capacity) (htok : 0 ≤ tb.tokens)
    (hfit : tokensToAdd (Time.Sub now tb.lastCheck) tb.rate ≤ 0 ∨
      tb.tokens + tokensToAdd (Time.Sub now tb.lastCheck) tb.rate ≤ maxInt64)
    (hdeny : (tb.Allow now).2 = false) :
    (tb.Allow now).1 = tb := by
  obtain ⟨add, hA⟩ : ∃ add, tokensToAdd (Time.Sub now tb.lastCheck) tb.rate = add := ⟨_, rfl⟩
  rw [hA] at hfit
  rcases TokenBucket.Allow_cases tb now add hA with ⟨_, h⟩ | ⟨hpos, h⟩
  · rw [h] at hdeny ⊢
    split at hdeny
    · cases hdeny
    · rename_i hnot
      rw [if_neg hnot]
  · exfalso
    have hsum : tb.tokens + add ≤ maxInt64 := by
      rcases hfit with h1 | h1
      · omega
      · exact h1
    have hw : wrapInt (tb.tokens + add) = tb.tokens + add :=
      wrapInt_eq _ (by unfold minInt64; omega) hsum
    have hm1 : middleware.min tb.capacity (wrapInt (tb.tokens + add)) > 0 := by
      rw [hw, middleware_min_eq]
      exact lt_of_lt_of_le (by decide) (le_min hcap (show (1 : Int) ≤ tb.tokens + add by omega))
    rw [h, if_pos hm1] at hdeny
    cases hdeny

theorem TokenBucket.fits_cons (tb : TokenBucket) (now : Time) (rest : List Time)
    (h : tb.fits (now :: rest) = true) :
    (tokensToAdd (Time.Sub now tb.lastCheck) tb.rate ≤ 0 ∨
      tb.tokens + tokensToAdd (Time.Sub now tb.lastCheck) tb.rate ≤ maxInt64) ∧
      (tb.Allow now).1.fits rest = true := by
  unfold TokenBucket.fits at h
  rw [Bool.and_eq_true, Bool.or_eq_true, decide_eq_true_eq, decide_eq_true_eq] at h
  exact h

theorem TokenBucket.denied_of_fits (ts : List Time) (now : Time) :
    ∀ tb : TokenBucket, 1 ≤ tb.capacity → 0 ≤ tb.tokens → tb.tokens ≤ tb.capacity →
      tb.fits (ts ++ [now]) = true → ((tb.allows ts).1.Allow now).2 = false →
      ((tb.allows ts).1.Allow now).1 = (tb.allows ts).1 := by
  induction ts with
  | nil =>
    intro tb hcap htok _ hfit hdeny
    exact TokenBucket.Allow_denied tb now hcap htok
      (TokenBucket.fits_cons tb now [] hfit).1 hdeny
  | cons t rest ih =>
    intro tb hcap htok hle hfit hdeny
    obtain ⟨hf1, hf2⟩ := TokenBucket.fits_cons tb t (rest ++ [now]) hfit
    obtain ⟨h1, _, h3, h4⟩ := TokenBucket.Allow_keeps_bounds tb t hcap htok hle hf1
    exact ih (tb.Allow t).1 (by rw [h1]; exact hcap) h3 (by rw [h1]; exact h4) hf2 hdeny

theorem TokenBucket.fits_of_bounded_rate (ts : List Time) :
    ∀ tb : TokenBucket, 1 ≤ tb.capacity → 0 ≤ tb.tokens → tb.tokens ≤ tb.capacity →
      0 ≤ tb.rate → tb.capacity + 17179869184 * tb.rate ≤ maxInt64 →
      tb.fits ts = true := by
  induction ts with
  | nil => intro tb _ _ _ _ _; rfl
  | cons t rest ih =>
    intro tb hcap htok hle hrate hbound
    have hadd := tokensToAdd_le (Time.Sub t tb.lastCheck) tb.rate (timeSub_le _ _) hrate
    have hf1 : tokensToAdd (Time.Sub t tb.lastCheck) tb.rate ≤ 0 ∨
        tb.tokens + tokensToAdd (Time.Sub t tb.lastCheck) tb.rate ≤ maxInt64 :=
      Or.inr (by omega)
    obtain ⟨h1, h2, h3, h4⟩ := TokenBucket.Allow_keeps_bounds tb t hcap htok hle hf1
    have hrest := ih (tb.Allow t).1 (by rw [h1]; exact hcap) h3 (by rw [h1]; exact h4)
      (by rw [h2]; exact hrate) (by rw [h1, h2]; exact hbound)
    unfold TokenBucket.fits
    rw [Bool.and_eq_true, Bool.or_eq_true, decide_eq_true_eq, decide_eq_true_eq]
    exact ⟨hf1, hrest⟩

set_option maxRecDepth 100000 in
/-- C8, refuted as stated, three times.  Half a second after its creation a bucket of
rate 1 per second has no whole token to add, and `Allow` leaves `lastCheck` at the
instant of creation instead of setting it to `now`.  The number of tokens added is not
always the floor of the elapsed seconds times the rate: 1.001 s after the last refill, at
rate 1000 per second, that floor is 1001, but the `float64` product falls just below 1001
and `Allow` adds 1000, so an empty bucket of capacity 2000 holds 999 tokens after the
call and not 1000.  And at the greatest rate an `int` can hold the product after one
second does not fit an `int`: the conversion yields the least `int`, nothing is added, and
an empty bucket denies the call and keeps its `lastCheck`. -/
theorem allow_algorithm_counterexample :
    ((NewTokenBucket 5 1 0).Allow 500000000).1.lastCheck = 0 ∧
      ((NewTokenBucket 5 1 0).Allow 500000000).1.lastCheck ≠ 500000000 ∧
      ⌊(((1001000000 - 0 : Int) : ℚ) / 1000000000) * ((1000 : Int) : ℚ)⌋ = 1001 ∧
      tokensToAdd (Time.Sub 1001000000 0) 1000 = 1000 ∧
      ((⟨2000, 0, 1000, 0⟩ : TokenBucket).Allow 1001000000).2 = true ∧
      ((⟨2000, 0, 1000, 0⟩ : TokenBucket).Allow 1001000000).1.tokens = 999 ∧
      tokensToAdd (Time.Sub 1000000000 0) 9223372036854775807 = -9223372036854775808 ∧
      ((⟨5, 0, 9223372036854775807, 0⟩ : TokenBucket).Allow 1000000000) =
        (⟨5, 0, 9223372036854775807, 0⟩, false) := by
  refine ⟨by decide, by decide, by norm_num, by decide, by decide, by decide, by decide,
    by decide⟩

/-- C8, amended.  A call of `Allow` at `now` computes `add`, the number
`int(elapsed.Seconds() * float64(rate))` of the `float64` product of the seconds elapsed
since `lastCheck` and the rate.  `add` is the floor of the exact product whenever that
product is not a whole number and is below a million, elapsed time and rate not being
negative; `add` is not positive when the exact product is negative.  When `add > 0` the
call sets `tokens` to the smaller of the capacity and the `int` sum `tokens + add`, which
wraps around, and `lastCheck` to `now`; when `add ≤ 0` it leaves both as they were.  Then
it returns true and takes exactly one token if `tokens > 0`, and returns false with
`tokens` untouched otherwise.  Capacity and rate never change. -/
theorem allow_algorithm (tb : TokenBucket) (now : Time) :
    tokensToAdd (Time.Sub now tb.lastCheck) tb.rate =
        F64.toInt (F64.mul (Duration.Seconds (Time.Sub now tb.lastCheck))
          (F64.ofInt tb.rate)) ∧
      (0 ≤ Time.Sub now tb.lastCheck → 0 ≤ tb.rate →
        Time.Sub now tb.lastCheck * tb.rate < 1000000000 * 1000001 →
        ¬ (1000000000 : Int) ∣ Time.Sub now tb.lastCheck * tb.rate →
        tokensToAdd (Time.Sub now tb.lastCheck) tb.rate =
          ⌊(((Time.Sub now tb.lastCheck : Int) : ℚ) / 1000000000) * ((tb.rate : Int) : ℚ)⌋) ∧
      (Time.Sub now tb.lastCheck * tb.rate < 0 →
        tokensToAdd (Time.Sub now tb.lastCheck) tb.rate ≤ 0) ∧
      (tb.Allow now).1.capacity = tb.capacity ∧ (tb.Allow now).1.rate = tb.rate ∧
      (0 < tokensToAdd (Time.Sub now tb.lastCheck) tb.rate →
        (tb.Allow now).1.lastCheck = now ∧
        (tb.Allow now).2 =
          decide (0 < min tb.capacity
            (wrapInt (tb.tokens + tokensToAdd (Time.Sub now tb.lastCheck) tb.rate))) ∧
        (tb.Allow now).1.tokens =
          (if 0 < min tb.capacity
              (wrapInt (tb.tokens + tokensToAdd (Time.Sub now tb.lastCheck) tb.rate)) then
            min tb.capacity
              (wrapInt (tb.tokens + tokensToAdd (Time.Sub now tb.lastCheck) tb.rate)) - 1
          else min tb.capacity
            (wrapInt (tb.tokens + tokensToAdd (Time.Sub now tb.lastCheck) tb.rate)))) ∧
      (tokensToAdd (Time.Sub now tb.lastCheck) tb.rate ≤ 0 →
        (tb.Allow now).1.lastCheck = tb.lastCheck ∧
        (tb.Allow now).2 = decide (0 < tb.tokens) ∧
        (tb.Allow now).1.tokens = (if 0 < tb.tokens then tb.tokens - 1 else tb.tokens)) := by
  obtain ⟨e, hE⟩ : ∃ e : Int, Time.Sub now tb.lastCheck = e := ⟨_, rfl⟩
  obtain ⟨add, hA⟩ : ∃ add, tokensToAdd (Time.Sub now tb.lastCheck) tb.rate = add := ⟨_, rfl⟩
  have hcases := TokenBucket.Allow_cases tb now add hA
  refine ⟨rfl, ?_, ?_, ?_, ?_, ?_, ?_⟩
  · rw [hE]
    intro he hR hlt hnd
    have hn : tokensToAdd e tb.rate = e * tb.rate / 1000000000 := by
      have hmod : e * tb.rate % 1000000000 ≠ 0 := fun h => hnd (Int.dvd_of_emod_eq_zero h)
      have hprod : 0 ≤ e * tb.rate := Int.mul_nonneg he hR
      exact tokensToAdd_eq_floor e tb.rate (e * tb.rate / 1000000000) he hR
        (by omega) (by omega) (by omega) (by omega)
    rw [hn]
    have h1 : (((e : Int) : ℚ) / 1000000000) * ((tb.rate : Int) : ℚ) =
        (((e * tb.rate : Int)) : ℚ) / ((1000000000 : ℕ) : ℚ) := by
      push_cast; ring
    rw [h1, Rat.floor_intCast_div_natCast]
    rfl
  · rw [hE]
    intro hneg
    by_cases he : 0 ≤ e
    · have hR : tb.rate ≤ 0 := by
        by_contra hpos
        have : 0 ≤ e * tb.rate := Int.mul_nonneg he (by omega)
        omega
      exact tokensToAdd_of_rate_nonpos e tb.rate he hR
    · have hR : 0 ≤ tb.rate := by
        by_contra hlt
        have : 0 ≤ e * tb.rate :=
          Int.mul_nonneg_of_nonpos_of_nonpos (by omega) (by omega)
        omega
      exact tokensToAdd_of_elapsed_nonpos e tb.rate (by omega) hR
  · rcases hcases with ⟨_, h⟩ | ⟨_, h⟩ <;> rw [h] <;> split <;> rfl
  · rcases hcases with ⟨_, h⟩ | ⟨_, h⟩ <;> rw [h] <;> split <;> rfl
  · rw [hA]
    intro hpos
    rcases hcases with ⟨hle, _⟩ | ⟨_, h⟩
    · omega
    · rw [h, middleware_min_eq]
      split
      · rename_i h2
        have h3 : 0 < min tb.capacity (wrapInt (tb.tokens + add)) := h2
        refine ⟨rfl, ?_, ?_⟩
        · rw [decide_eq_true h3]
        · rfl
      · rename_i h2
        have h3 : ¬ 0 < min tb.capacity (wrapInt (tb.tokens + add)) := h2
        refine ⟨rfl, ?_, ?_⟩
        · rw [decide_eq_false h3]
        · rfl
  · rw [hA]
    intro hle
    rcases hcases with ⟨_, h⟩ | ⟨hpos, _⟩
    · rw [h]
      split
      · rename_i h2
        have h3 : 0 < tb.tokens := h2
        refine ⟨rfl, ?_, ?_⟩
        · rw [decide_eq_true h3]
        · rfl
      · rename_i h2
        have h3 : ¬ 0 < tb.tokens := h2
        refine ⟨rfl, ?_, ?_⟩
        · rw [decide_eq_false h3]
        · rfl
    · omega

set_option maxRecDepth 100000 in
/-- C9, refuted as stated, twice.  A bucket of capacity 0 denies a call made one second
after its creation and yet moves `lastCheck` to the instant of that call.  And a bucket
of the greatest capacity an `int` can hold, at rate 1 per second and still full, adds one
token one second after its creation: the sum wraps around to the least `int`, which the
call stores together with the new `lastCheck` before it answers false. -/
theorem denial_counterexample :
    ((NewTokenBucket 0 1 0).Allow 1000000000).2 = false ∧
      ((NewTokenBucket 0 1 0).Allow 1000000000).1 ≠ NewTokenBucket 0 1 0 ∧
      ((NewTokenBucket 0 1 0).Allow 1000000000).1.lastCheck = 1000000000 ∧
      ((NewTokenBucket 9223372036854775807 1 0).Allow 1000000000).2 = false ∧
      ((NewTokenBucket 9223372036854775807 1 0).Allow 1000000000).1.tokens =
        -9223372036854775808 ∧
      ((NewTokenBucket 9223372036854775807 1 0).Allow 1000000000).1.lastCheck =
        1000000000 ∧
      (NewTokenBucket 9223372036854775807 1 0).tokens = 9223372036854775807 ∧
      (NewTokenBucket 9223372036854775807 1 0).lastCheck = 0 := by
  decide

/-- C9, amended.  Take a capacity `C ≥ 1` and any rate `R`.  In every state a bucket made
by `NewTokenBucket(C, R)` reaches through calls of `Allow` (at non-decreasing instants or
any others) in which no refill has overflowed the 64-bit range, a call of `Allow` that
returns false and does not overflow either leaves the bucket, tokens and `lastCheck`
included, exactly as it was.  No refill ever overflows when the rate is not negative and
`C + 2^34 * R` is at most the greatest `int`. -/
theorem denial_no_effect (C R : Int) (t0 : Time) (hC : 1 ≤ C) :
    (∀ (ts : List Time) (now : Time),
        (NewTokenBucket C R t0).fits (ts ++ [now]) = true →
        (((NewTokenBucket C R t0).allows ts).1.Allow now).2 = false →
        (((NewTokenBucket C R t0).allows ts).1.Allow now).1 =
          ((NewTokenBucket C R t0).allows ts).1) ∧
      (0 ≤ R → C + 17179869184 * R ≤ maxInt64 →
        ∀ ts : List Time, (NewTokenBucket C R t0).fits ts = true) := by
  have h0 : (0 : Int) ≤ C := by omega
  refine ⟨fun ts now hfit hdeny => ?_, fun hR hbound ts => ?_⟩
  · exact TokenBucket.denied_of_fits ts now (NewTokenBucket C R t0) hC h0 (le_refl C)
      hfit hdeny
  · exact TokenBucket.fits_of_bounded_rate ts (NewTokenBucket C R t0) hC h0 (le_refl C)
      hR hbound

set_option maxRecDepth 100000 in
/-- The instance of C9 with capacity 1 and rate 1 per second: the first call takes the
only token, and the call half a second later is denied and changes nothing. -/
theorem denial_no_effect_witness :
    (1 : Int) ≤ 1 ∧
      (NewTokenBucket 1 1 0).fits ([0] ++ [500000000]) = true ∧
      (((NewTokenBucket 1 1 0).allows [0]).1.Allow 500000000).2 = false ∧
      (((NewTokenBucket 1 1 0).allows [0]).1.Allow 500000000).1 =
        ((NewTokenBucket 1 1 0).allows [0]).1 :=
  ⟨by decide, by decide, by decide,
    (denial_no_effect 1 1 0 (by decide)).1 [0] 500000000 (by decide) (by decide)⟩

/-! ## Duplicate orders -/

theorem World.countOrders_append (w : World) (order : Order) (userID : String)
    (productID : Nat) :
    World.countOrders { w with orders := w.orders ++ [order] } userID productID =
      w.countOrders userID productID +
        (if order.UserID = userID ∧ order.ProductID = productID ∧
            order.Status ≠ OrderStatusCancelled then 1 else 0) := by
  simp only [World.countOrders, List.filter_append, List.length_append]
  by_cases h : order.UserID = userID ∧ order.ProductID = productID ∧
      order.Status ≠ OrderStatusCancelled
  · obtain ⟨h1, h2, h3⟩ := h
    simp [List.filter_cons, h1, h2, h3]
  · simp only [h, if_false]
    have : (order.UserID == userID && order.ProductID == productID &&
        order.Status != OrderStatusCancelled) = false := by
      by_contra hc
      simp only [Bool.not_eq_false, Bool.and_eq_true, beq_iff_eq, bne_iff_ne] at hc
      exact h ⟨hc.1.1, hc.1.2, hc.2⟩
    simp [List.filter_cons, this]

/-- What a run of `Seckill` does to the order records: nothing, or one more record, of
the buyer and item of the call. -/
theorem Seckill_orders (w : World) (env : SeckillEnv) (userID : String) (productID : Nat)
    (token : String) :
    (Seckill w env userID productID token).1.orders = w.orders ∨
      ∃ order : Order, order.UserID = userID ∧ order.ProductID = productID ∧
        (Seckill w env userID productID token).1.orders = w.orders ++ [order] := by
  apply Seckill_exits w env userID productID token
    (fun r => r.1.orders = w.orders ∨
      ∃ order : Order, order.UserID = userID ∧ order.ProductID = productID ∧
        r.1.orders = w.orders ++ [order])
  · intro _; exact Or.inl rfl
  · intro _ _; exact Or.inl rfl
  · exact Or.inl rfl
  · intro _ _ _; exact Or.inl rfl
  · intro _ _ _; exact Or.inl rfl
  · intro n product _ _ _
    by_cases hc : env.createFails = true
    · dsimp only
      rw [if_pos hc]
      exact Or.inl rfl
    · dsimp only
      rw [if_neg hc]
      exact Or.inr ⟨_, rfl, rfl, rfl⟩

theorem World.countOrders_congr (w1 w2 : World) (h : w1.orders = w2.orders)
    (userID : String) (productID : Nat) :
    w1.countOrders userID productID = w2.countOrders userID productID := by
  simp only [World.countOrders, h]

theorem purchase_countOrders (w : World) (env : SeckillEnv) (req : SeckillRequest)
    (userID : String) (productID : Nat) (h : w.countOrders userID productID ≤ 1) :
    (SeckillController.Seckill w env req).1.countOrders userID productID ≤ 1 := by
  unfold SeckillController.Seckill
  split
  · exact h
  · split
    · exact h
    · rename_i hguard
      have hzero : w.countOrders req.UserID req.ProductID = 0 := by
        unfold CheckUserOrder at hguard
        split at hguard
        · simp at hguard
        · simpa using hguard
      have hrun : (Seckill w env req.UserID req.ProductID req.Token).1.countOrders
          userID productID ≤ 1 := by
        rcases Seckill_orders w env req.UserID req.ProductID req.Token with ho | ⟨o, h1, h2, ho⟩
        · rw [World.countOrders_congr _ w ho]; exact h
        · have hw : (Seckill w env req.UserID req.ProductID req.Token).1.countOrders
              userID productID =
              World.countOrders { w with orders := w.orders ++ [o] } userID productID :=
            World.countOrders_congr _ _ ho _ _
          rw [hw, World.countOrders_append]
          by_cases hsame : req.UserID = userID ∧ req.ProductID = productID
          · obtain ⟨hu, hp⟩ := hsame
            subst hu; subst hp
            rw [hzero]
            split <;> omega
          · have hno : ¬ (o.UserID = userID ∧ o.ProductID = productID ∧
                o.Status ≠ OrderStatusCancelled) := by
              rintro ⟨hu, hp, _⟩
              exact hsame ⟨h1 ▸ hu, h2 ▸ hp⟩
            simp only [hno, if_false]
            omega
      split
      · rename_i w1 err heq
        rw [heq] at hrun; exact hrun
      · rename_i w1 order heq
        rw [heq] at hrun; exact hrun

theorem GenerateToken_orders (w : World) (now : Time) (nanos : Int) (userID : String)
    (productID : Nat) : (GenerateToken w now nanos userID productID).1.orders = w.orders := by
  unfold GenerateToken
  split
  · rfl
  · split
    · rfl
    · split
      · rfl
      · split <;> rfl

theorem Step.run_countOrders (w : World) (s : Step) (hs : s.isRequest) (userID : String)
    (productID : Nat) (h : w.countOrders userID productID ≤ 1) :
    (s.run w).countOrders userID productID ≤ 1 := by
  cases s with
  | issue now nanos u p =>
    have := World.countOrders_congr _ w (GenerateToken_orders w now nanos u p) userID productID
    simp only [Step.run]
    omega
  | seckill env u p token => exact absurd hs (fun h => h)
  | purchase env req => exact purchase_countOrders w env req userID productID h
  | expire key => exact h

theorem runSteps_countOrders (steps : List Step) (userID : String) (productID : Nat) :
    ∀ w : World, (∀ s ∈ steps, s.isRequest) → w.countOrders userID productID ≤ 1 →
      (runSteps w steps).countOrders userID productID ≤ 1 := by
  induction steps with
  | nil => intro w _ h; exact h
  | cons s rest ih =>
    intro w hs h
    exact ih (s.run w) (fun t ht => hs t (List.mem_cons_of_mem _ ht))
      (Step.run_countOrders w s (hs s (List.mem_cons_self _ _)) userID productID h)

/-- The handler is its first half followed, when that half does not return, by its second
half. -/
theorem purchase_eq_guard_then_call (w : World) (env : SeckillEnv) (req : SeckillRequest) :
    SeckillController.Seckill w env req =
      match SeckillController.SeckillGuard w req with
      | some response => (w, response)
      | none => SeckillController.SeckillCall w env req := by
  unfold SeckillController.Seckill SeckillController.SeckillGuard SeckillController.SeckillCall
  split
  · rfl
  · split
    · rfl
    · rfl

/-- C10, refuted as stated.  The guard against a second order is the test the handler
makes before it calls `Seckill`; `Seckill` itself does not look at the orders on record.
Alice obtains two tokens for item 1 and sends two purchase requests, each with its own
token, that are served at the same time: both handlers make their test before either
calls `Seckill`, both tests find no order, both calls of `Seckill` succeed, and two orders
of alice for item 1 that are not cancelled are on record. -/
theorem duplicate_prevention_counterexample :
    (GenerateToken demoWorld 5 77 "alice" 1).2 = Except.ok "alice-1-77" ∧
      (GenerateToken (GenerateToken demoWorld 5 77 "alice" 1).1 6 78 "alice" 1).2 =
        Except.ok "alice-1-78" ∧
      SeckillController.SeckillGuard
        (runSteps demoWorld [Step.issue 5 77 "alice" 1, Step.issue 6 78 "alice" 1])
        ⟨1, "alice", "alice-1-77"⟩ = none ∧
      SeckillController.SeckillGuard
        (runSteps demoWorld [Step.issue 5 77 "alice" 1, Step.issue 6 78 "alice" 1])
        ⟨1, "alice", "alice-1-78"⟩ = none ∧
      (SeckillController.SeckillCall
        (runSteps demoWorld [Step.issue 5 77 "alice" 1, Step.issue 6 78 "alice" 1])
        ⟨"ORD1", 9, false⟩ ⟨1, "alice", "alice-1-77"⟩).2.Code = 200 ∧
      (SeckillController.SeckillCall
        (SeckillController.SeckillCall
          (runSteps demoWorld [Step.issue 5 77 "alice" 1, Step.issue 6 78 "alice" 1])
          ⟨"ORD1", 9, false⟩ ⟨1, "alice", "alice-1-77"⟩).1
        ⟨"ORD2", 10, false⟩ ⟨1, "alice", "alice-1-78"⟩).2.Code = 200 ∧
      (SeckillController.SeckillCall
        (SeckillController.SeckillCall
          (runSteps demoWorld [Step.issue 5 77 "alice" 1, Step.issue 6 78 "alice" 1])
          ⟨"ORD1", 9, false⟩ ⟨1, "alice", "alice-1-77"⟩).1
        ⟨"ORD2", 10, false⟩ ⟨1, "alice", "alice-1-78"⟩).1.orders =
        [⟨"ORD1", "alice", 1, "phone", 99, "pending"⟩,
          ⟨"ORD2", "alice", 1, "phone", 99, "pending"⟩] ∧
      (SeckillController.SeckillCall
        (SeckillController.SeckillCall
          (runSteps demoWorld [Step.issue 5 77 "alice" 1, Step.issue 6 78 "alice" 1])
          ⟨"ORD1", 9, false⟩ ⟨1, "alice", "alice-1-77"⟩).1
        ⟨"ORD2", 10, false⟩ ⟨1, "alice", "alice-1-78"⟩).1.countOrders "alice" 1 = 2 := by
  decide

/-- C10, amended.  Start from a state in which an identity holds at most one order that
is not cancelled for an item.  Then after every prefix of every sequence of requests
served one after the other, each to its end before the next one starts (token requests
and purchase requests of any identities, with any tokens, and expiries of keys in
between), the order records still hold at most one order that is not cancelled for that
identity and item. -/
theorem duplicate_prevention (w : World) (steps : List Step) (userID : String)
    (productID : Nat) (hreq : ∀ s ∈ steps, s.isRequest)
    (h0 : w.countOrders userID productID ≤ 1) :
    ∀ k : Nat, (runSteps w (steps.take k)).countOrders userID productID ≤ 1 := by
  intro k
  exact runSteps_countOrders (steps.take k) userID productID w
    (fun s hs => hreq s (List.mem_of_mem_take hs)) h0

/-- The instance of C10 in which alice obtains two tokens for item 1 and presents both:
the first purchase creates her order, the second is refused with "user already has an
order", and one order of hers is on record at the end. -/
theorem duplicate_prevention_witness :
    (SeckillController.Seckill
        (runSteps demoWorld [Step.issue 5 77 "alice" 1, Step.issue 6 78 "alice" 1,
          Step.purchase ⟨"ORD1", 9, false⟩ ⟨1, "alice", "alice-1-77"⟩])
        ⟨"ORD2", 10, false⟩ ⟨1, "alice", "alice-1-78"⟩).2 =
        ⟨400, "user already has an order", none⟩ ∧
      (runSteps demoWorld [Step.issue 5 77 "alice" 1, Step.issue 6 78 "alice" 1,
          Step.purchase ⟨"ORD1", 9, false⟩ ⟨1, "alice", "alice-1-77"⟩,
          Step.purchase ⟨"ORD2", 10, false⟩ ⟨1, "alice", "alice-1-78"⟩]).orders =
        [⟨"ORD1", "alice", 1, "phone", 99, "pending"⟩] ∧
      (runSteps demoWorld ([Step.issue 5 77 "alice" 1, Step.issue 6 78 "alice" 1,
          Step.purchase ⟨"ORD1", 9, false⟩ ⟨1, "alice", "alice-1-77"⟩,
          Step.purchase ⟨"ORD2", 10, false⟩ ⟨1, "alice", "alice-1-78"⟩].take 4)).countOrders
        "alice" 1 ≤ 1 :=
  ⟨by decide, by decide,
    duplicate_prevention demoWorld [Step.issue 5 77 "alice" 1, Step.issue 6 78 "alice" 1,
      Step.purchase ⟨"ORD1", 9, false⟩ ⟨1, "alice", "alice-1-77"⟩,
      Step.purchase ⟨"ORD2", 10, false⟩ ⟨1, "alice", "alice-1-78"⟩] "alice" 1
      (by decide) (by decide) 4⟩

/-! ## The duplicate guard -/

theorem World.countOrders_pos_iff (w : World) (userID : String) (productID : Nat) :
    w.countOrders userID productID > 0 ↔
      ∃ o ∈ w.orders, o.UserID = userID ∧ o.ProductID = productID ∧
        o.Status ≠ OrderStatusCancelled := by
  unfold World.countOrders
  rw [gt_iff_lt, List.length_pos_iff_exists_mem]
  constructor
  · rintro ⟨o, ho⟩
    rw [List.mem_filter] at ho
    obtain ⟨hmem, hp⟩ := ho
    simp only [Bool.and_eq_true, beq_iff_eq, bne_iff_ne] at hp
    exact ⟨o, hmem, hp.1.1, hp.1.2, hp.2⟩
  · rintro ⟨o, hmem, h1, h2, h3⟩
    refine ⟨o, ?_⟩
    rw [List.mem_filter]
    refine ⟨hmem, ?_⟩
    simp only [Bool.and_eq_true, beq_iff_eq, bne_iff_ne]
    exact ⟨⟨h1, h2⟩, h3⟩

/-- C11 (the duplicate guard).  `CheckUserOrder` returns `(true, nil)` exactly when the
marker of the identity and item exists in the fast store or the order table holds an
order of that identity and item whose status is not "cancelled"; otherwise it returns
`(false, nil)`; and it leaves the fast store and the database as they were. -/
theorem check_user_order (w : World) (userID : String) (productID : Nat) :
    ((CheckUserOrder.call w userID productID).2 = (true, none) ↔
        (cache.Get w.rdb (orderKey userID productID) ≠ none ∨
          ∃ o ∈ w.orders, o.UserID = userID ∧ o.ProductID = productID ∧
            o.Status ≠ OrderStatusCancelled)) ∧
      ((CheckUserOrder.call w userID productID).2 = (true, none) ∨
        (CheckUserOrder.call w userID productID).2 = (false, none)) ∧
      (CheckUserOrder.call w userID productID).1 = w ∧
      (CheckUserOrder.call w userID productID).2.1 = CheckUserOrder w userID productID := by
  have hiff := World.countOrders_pos_iff w userID productID
  cases hm : cache.Get w.rdb (orderKey userID productID) with
  | some v =>
    have hcall : CheckUserOrder.call w userID productID = (w, true, none) := by
      simp [CheckUserOrder.call, hm]
    have hfun : CheckUserOrder w userID productID = true := by
      simp [CheckUserOrder, hm]
    rw [hcall, hfun]
    exact ⟨⟨fun _ => Or.inl (fun h => Option.noConfusion h), fun _ => rfl⟩, Or.inl rfl, rfl,
      rfl⟩
  | none =>
    by_cases hc : w.countOrders userID productID > 0
    · have hcall : CheckUserOrder.call w userID productID = (w, true, none) := by
        simp [CheckUserOrder.call, hm, hc]
      have hfun : CheckUserOrder w userID productID = true := by
        simp [CheckUserOrder, hm, hc]
      rw [hcall, hfun]
      exact ⟨⟨fun _ => Or.inr (hiff.mp hc), fun _ => rfl⟩, Or.inl rfl, rfl, rfl⟩
    · have hcall : CheckUserOrder.call w userID productID = (w, false, none) := by
        simp only [CheckUserOrder.call, hm, hc, decide_False]
      have hfun : CheckUserOrder w userID productID = false := by
        simp only [CheckUserOrder, hm, hc, decide_False]
      rw [hcall, hfun]
      refine ⟨⟨fun h => ?_, fun h => ?_⟩, Or.inr rfl, rfl, rfl⟩
      · cases h
      · rcases h with h | h
        · exact absurd rfl h
        · exact absurd (hiff.mpr h) hc

/-! ## The lock -/

theorem DistributedLock.Unlock_of_not_owner (dl : DistributedLock) (rdb : Store)
    (h : cache.Get rdb dl.key ≠ some dl.value) : dl.Unlock rdb = rdb := by
  simp [DistributedLock.Unlock, h]

theorem DistributedLock.Lock_of_absent (dl : DistributedLock) (rdb : Store)
    (h : cache.Get rdb dl.key = none) :
    dl.Lock rdb = (cache.Set rdb dl.key dl.value, true) := by
  simp [DistributedLock.Lock, cache.SetNX, h]

theorem DistributedLock.Lock_of_held (dl : DistributedLock) (rdb : Store) (v : Val)
    (h : cache.Get rdb dl.key = some v) : dl.Lock rdb = (rdb, false) := by
  simp [DistributedLock.Lock, cache.SetNX, h]

theorem DistributedLock.Lock_true (dl : DistributedLock) (rdb : Store)
    (h : (dl.Lock rdb).2 = true) :
    cache.Get rdb dl.key = none ∧ (dl.Lock rdb).1 = cache.Set rdb dl.key dl.value := by
  cases hg : cache.Get rdb dl.key with
  | none => rw [DistributedLock.Lock_of_absent dl rdb hg]; exact ⟨rfl, rfl⟩
  | some v =>
    rw [DistributedLock.Lock_of_held dl rdb v hg] at h
    cases h

/-- C12 (only the owner releases).  `Unlock` deletes the key of the lock exactly when the
value stored under it is the owner value of the lock object; when the key is absent or
holds another value the store is left as it was.  So once `Lock` of an owner has succeeded
on a key, an `Unlock` by a lock object with another owner value changes nothing, the
first owner's value stays under the key, and `Lock` by any lock object on that key
returns false, before and after that `Unlock`. -/
theorem owner_only_release (rdb : Store) (dl : DistributedLock) :
    (cache.Get rdb dl.key = some dl.value →
        dl.Unlock rdb = cache.Del rdb dl.key ∧ cache.Get (dl.Unlock rdb) dl.key = none) ∧
      (cache.Get rdb dl.key ≠ some dl.value → dl.Unlock rdb = rdb) ∧
      (dl.Unlock rdb ≠ rdb → cache.Get rdb dl.key = some dl.value) ∧
      (∀ other : DistributedLock, other.key = dl.key → (dl.Lock rdb).2 = true →
        cache.Get (dl.Lock rdb).1 dl.key = some dl.value ∧
        other.Lock (dl.Lock rdb).1 = ((dl.Lock rdb).1, false) ∧
        (other.value ≠ dl.value → other.Unlock (dl.Lock rdb).1 = (dl.Lock rdb).1)) := by
  refine ⟨fun h => ?_, DistributedLock.Unlock_of_not_owner dl rdb, fun h => ?_, ?_⟩
  · rw [DistributedLock.Unlock_of_owner dl rdb h]
    exact ⟨rfl, cache.Get_Del_self rdb dl.key⟩
  · by_contra hne
    exact h (DistributedLock.Unlock_of_not_owner dl rdb hne)
  · intro other hkey hlock
    obtain ⟨_, hset⟩ := DistributedLock.Lock_true dl rdb hlock
    have hget : cache.Get (dl.Lock rdb).1 dl.key = some dl.value := by
      rw [hset]; exact cache.Get_Set_self rdb dl.key dl.value
    refine ⟨hget, ?_, ?_⟩
    · exact DistributedLock.Lock_of_held other _ dl.value (by rw [hkey]; exact hget)
    · intro hval
      apply DistributedLock.Unlock_of_not_owner
      rw [hkey, hget]
      intro h
      exact hval (Option.some.inj h).symm

/-- The scenario of C12 on an empty store: owner 1 takes the lock on a key, the `Unlock`
of owner 2 leaves it in place, and the `Lock` of owner 2 returns false. -/
theorem owner_only_release_witness :
    ((DistributedLock.mk "k" (Val.int 1)).Lock ⟨[]⟩).2 = true ∧
      cache.Get ((DistributedLock.mk "k" (Val.int 1)).Lock ⟨[]⟩).1 "k" = some (Val.int 1) ∧
      (DistributedLock.mk "k" (Val.int 2)).Lock ((DistributedLock.mk "k" (Val.int 1)).Lock ⟨[]⟩).1 =
        (((DistributedLock.mk "k" (Val.int 1)).Lock ⟨[]⟩).1, false) ∧
      (DistributedLock.mk "k" (Val.int 2)).Unlock ((DistributedLock.mk "k" (Val.int 1)).Lock ⟨[]⟩).1 =
        ((DistributedLock.mk "k" (Val.int 1)).Lock ⟨[]⟩).1 :=
  have h := (owner_only_release ⟨[]⟩ ⟨"k", Val.int 1⟩).2.2.2 ⟨"k", Val.int 2⟩ rfl (by decide)
  ⟨by decide, h.1, h.2.1, h.2.2 (by decide)⟩

/-! ## The bounded retry of the lock -/

theorem tryLockOutcomes_spec (outcome : Nat → SetNXResult) (remaining : Nat) :
    ∀ i : Nat,
      i ≤ (tryLockOutcomes outcome remaining i).1 ∧
      (tryLockOutcomes outcome remaining i).1 ≤ i + remaining ∧
      (∀ j : Nat, i ≤ j → j + 1 < (tryLockOutcomes outcome remaining i).1 →
        outcome j = SetNXResult.held) ∧
      ((tryLockOutcomes outcome remaining i).1 < i + remaining →
        i < (tryLockOutcomes outcome remaining i).1 ∧
        outcome ((tryLockOutcomes outcome remaining i).1 - 1) ≠ SetNXResult.held) ∧
      ((tryLockOutcomes outcome remaining i).2.1 = true ↔
        i < (tryLockOutcomes outcome remaining i).1 ∧
        outcome ((tryLockOutcomes outcome remaining i).1 - 1) = SetNXResult.acquired) ∧
      (∀ err : String, (tryLockOutcomes outcome remaining i).2.2 = some err ↔
        i < (tryLockOutcomes outcome remaining i).1 ∧
        outcome ((tryLockOutcomes outcome remaining i).1 - 1) = SetNXResult.failed err) ∧
      ((∀ j : Nat, i ≤ j → j < i + remaining → outcome j = SetNXResult.held) →
        tryLockOutcomes outcome remaining i = (i + remaining, false, none)) := by
  induction remaining with
  | zero =>
    intro i
    simp [tryLockOutcomes]
    intro j h1 h2
    omega
  | succ r ih =>
    intro i
    cases ho : outcome i with
    | acquired =>
      simp only [tryLockOutcomes, ho]
      refine ⟨by omega, by omega, ?_, ?_, ?_, ?_, ?_⟩
      · intro j h1 h2; omega
      · intro _; simp [ho]
      · simp [ho]
      · intro err; simp [ho]
      · intro h
        have := h i (le_refl i) (by omega)
        rw [ho] at this
        cases this
    | failed e =>
      simp only [tryLockOutcomes, ho]
      refine ⟨by omega, by omega, ?_, ?_, ?_, ?_, ?_⟩
      · intro j h1 h2; omega
      · intro _; simp [ho]
      · simp [ho]
      · intro err; simp [ho]
      · intro h
        have := h i (le_refl i) (by omega)
        rw [ho] at this
        cases this
    | held =>
      obtain ⟨h1, h2, h3, h4, h5, h6, h7⟩ := ih (i + 1)
      simp only [tryLockOutcomes, ho]
      refine ⟨by omega, by omega, ?_, ?_, ?_, ?_, ?_⟩
      · intro j hj1 hj2
        by_cases hji : j = i
        · rw [hji]; exact ho
        · exact h3 j (by omega) hj2
      · intro hlt
        obtain ⟨h41, h42⟩ := h4 (by omega)
        exact ⟨by omega, h42⟩
      · constructor
        · intro ht
          obtain ⟨a, b⟩ := h5.mp ht
          exact ⟨by omega, b⟩
        · rintro ⟨a, b⟩
          by_cases hlast : i + 1 < (tryLockOutcomes outcome r (i + 1)).1
          · exact h5.mpr ⟨hlast, b⟩
          · have : (tryLockOutcomes outcome r (i + 1)).1 - 1 = i := by omega
            rw [this, ho] at b
            cases b
      · intro err
        constructor
        · intro ht
          obtain ⟨a, b⟩ := (h6 err).mp ht
          exact ⟨by omega, b⟩
        · rintro ⟨a, b⟩
          by_cases hlast : i + 1 < (tryLockOutcomes outcome r (i + 1)).1
          · exact (h6 err).mpr ⟨hlast, b⟩
          · have : (tryLockOutcomes outcome r (i + 1)).1 - 1 = i := by omega
            rw [this, ho] at b
            cases b
      · intro h
        rw [h7 (fun j hj1 hj2 => h j (by omega) (by omega))]
        simp only [Prod.mk.injEq, and_true]
        omega

theorem DistributedLock.tryLockLoop_eq_outcomes (dl : DistributedLock) (rdb : Store)
    (n : Nat) :
    (dl.tryLockLoop n rdb).2 =
      (tryLockOutcomes (fun _ => storeOutcome rdb dl.key) n 0).2.1 := by
  cases hg : cache.Get rdb dl.key with
  | some v =>
    rw [DistributedLock.tryLockLoop_of_held dl rdb v hg n]
    have h := (tryLockOutcomes_spec (fun _ => storeOutcome rdb dl.key) n 0).2.2.2.2.2.2
      (fun j _ _ => by simp [storeOutcome, hg])
    rw [h]
  | none =>
    cases n with
    | zero => rfl
    | succ m =>
      simp [DistributedLock.tryLockLoop, DistributedLock.Lock, cache.SetNX, hg,
        tryLockOutcomes, storeOutcome]


/-- C13 (bounded retry).  Whatever the calls of `Lock` return, `TryLockWithRetry` makes
at most `maxRetries` of them (none when `maxRetries ≤ 0`); every call before the last one
made found the key held, and when fewer than `maxRetries` were made the last one
succeeded or failed; the method returns true exactly when a call it made succeeded, and
`(false, nil)` when all `maxRetries` calls found the key held.  On a store nobody else
touches the outcomes are those the state of the key dictates.  In `Seckill`, when the
method returns false after the script has served the call, `Seckill` returns the error
"failed to acquire lock", the order records are those of before and the stock counter is
one below its value before the call. -/
theorem bounded_lock_retry (maxRetries : Int) (outcome : Nat → SetNXResult)
    (dl : DistributedLock) (rdb : Store) (w : World) (env : SeckillEnv) (userID : String)
    (productID : Nat) (token : String) :
    (TryLockWithRetryOn maxRetries outcome).1 ≤ maxRetries.toNat ∧
      (maxRetries ≤ 0 → TryLockWithRetryOn maxRetries outcome = (0, false, none)) ∧
      (∀ j : Nat, j + 1 < (TryLockWithRetryOn maxRetries outcome).1 →
        outcome j = SetNXResult.held) ∧
      ((TryLockWithRetryOn maxRetries outcome).1 < maxRetries.toNat →
        0 < (TryLockWithRetryOn maxRetries outcome).1 ∧
        outcome ((TryLockWithRetryOn maxRetries outcome).1 - 1) ≠ SetNXResult.held) ∧
      ((TryLockWithRetryOn maxRetries outcome).2.1 = true ↔
        ∃ j : Nat, j < (TryLockWithRetryOn maxRetries outcome).1 ∧
          outcome j = SetNXResult.acquired) ∧
      ((∀ j : Nat, j < maxRetries.toNat → outcome j = SetNXResult.held) →
        TryLockWithRetryOn maxRetries outcome = (maxRetries.toNat, false, none)) ∧
      (dl.TryLockWithRetry rdb maxRetries).2 =
        (TryLockWithRetryOn maxRetries (fun _ => storeOutcome rdb dl.key)).2.1 ∧
      (∀ (v : Val) (n : Int) (product : Product),
        cache.Get w.rdb (tokenKey token) = some v →
        cache.Get w.rdb (stockKey productID) = some (Val.int n) → 0 < n →
        w.findProduct productID = some product →
        ((NewDistributedLock (lockKey env.orderNo) env.lockNanos).TryLockWithRetry
          (cache.Set (cache.Set w.rdb (stockKey productID) (Val.int (n - 1)))
            (orderKey userID productID) (Val.str env.orderNo)) 3).2 = false →
        (Seckill w env userID productID token).2 = Except.error "failed to acquire lock" ∧
        (Seckill w env userID productID token).1.orders = w.orders ∧
        cache.Get (Seckill w env userID productID token).1.rdb (stockKey productID) =
          some (Val.int (n - 1))) := by
  obtain ⟨_, h2, h3, h4, h5, _, h7⟩ := tryLockOutcomes_spec outcome maxRetries.toNat 0
  simp only [Nat.zero_add] at h2 h4 h7
  refine ⟨h2, ?_, fun j hj => h3 j (Nat.zero_le j) hj, h4, ?_,
    fun h => h7 (fun j _ hj => h j hj), DistributedLock.tryLockLoop_eq_outcomes dl rdb _, ?_⟩
  · intro hle
    have hz : maxRetries.toNat = 0 := Int.toNat_of_nonpos hle
    simp [TryLockWithRetryOn, hz, tryLockOutcomes]
  · unfold TryLockWithRetryOn
    rw [h5]
    constructor
    · rintro ⟨hpos, hacq⟩
      exact ⟨_, by omega, hacq⟩
    · rintro ⟨j, hj, hacq⟩
      by_cases hlast : j + 1 < (tryLockOutcomes outcome maxRetries.toNat 0).1
      · have := h3 j (Nat.zero_le j) hlast
        rw [this] at hacq
        cases hacq
      · have hj2 : (tryLockOutcomes outcome maxRetries.toNat 0).1 - 1 = j := by omega
        exact ⟨by omega, by rw [hj2]; exact hacq⟩
  · intro v n product htoken hstock hpos hproduct hfalse
    have hsl : stockKey productID ≠ lockKey env.orderNo :=
      fun e => lockKey_ne_stockKey _ _ e.symm
    have hso : stockKey productID ≠ orderKey userID productID :=
      fun e => orderKey_ne_stockKey _ _ _ e.symm
    cases hlock : cache.Get w.rdb (lockKey env.orderNo) with
    | none =>
      exfalso
      have hl : cache.Get (cache.Set (cache.Set w.rdb (stockKey productID) (Val.int (n - 1)))
          (orderKey userID productID) (Val.str env.orderNo))
          (NewDistributedLock (lockKey env.orderNo) env.lockNanos).key = none := by
        show cache.Get _ (lockKey env.orderNo) = none
        rw [cache.Get_Set_of_ne _ _ _ _ (lockKey_ne_orderKey _ _ _),
          cache.Get_Set_of_ne _ _ _ _ (lockKey_ne_stockKey _ _)]
        exact hlock
      rw [DistributedLock.TryLockWithRetry_of_absent _ _ hl] at hfalse
      cases hfalse
    | some held =>
      rw [Seckill_of_lock_held w env userID productID token v held n product htoken hstock
        hpos hproduct hlock]
      refine ⟨rfl, rfl, ?_⟩
      show cache.Get (cache.Set (cache.Set w.rdb (stockKey productID) (Val.int (n - 1)))
        (orderKey userID productID) (Val.str env.orderNo)) (stockKey productID) = _
      rw [cache.Get_Set_of_ne _ _ _ _ hso, cache.Get_Set_self]


/-- Instances of C13: three calls of `Lock` that all find the key held give
`(false, nil)` after three attempts, and a call of `Seckill` whose lock key is held by
somebody else returns "failed to acquire lock" with no order and the counter one lower. -/
theorem bounded_lock_retry_witness :
    TryLockWithRetryOn 3 (fun _ => SetNXResult.held) = (3, false, none) ∧
      (Seckill ⟨⟨[(lockKey "ORD1", Val.int 3), (tokenKey "alice-1-77", Val.int 1),
          (stockKey 1, Val.int 2)]⟩, demoWorld.products, []⟩ ⟨"ORD1", 9, false⟩ "alice" 1
          "alice-1-77").2 = Except.error "failed to acquire lock" ∧
      cache.Get (Seckill ⟨⟨[(lockKey "ORD1", Val.int 3), (tokenKey "alice-1-77", Val.int 1),
          (stockKey 1, Val.int 2)]⟩, demoWorld.products, []⟩ ⟨"ORD1", 9, false⟩ "alice" 1
          "alice-1-77").1.rdb (stockKey 1) = some (Val.int (2 - 1)) :=
  have h := bounded_lock_retry 3 (fun _ => SetNXResult.held) ⟨lockKey "ORD1", Val.int 9⟩ ⟨[]⟩
    ⟨⟨[(lockKey "ORD1", Val.int 3), (tokenKey "alice-1-77", Val.int 1),
      (stockKey 1, Val.int 2)]⟩, demoWorld.products, []⟩ ⟨"ORD1", 9, false⟩ "alice" 1
    "alice-1-77"
  have h8 := h.2.2.2.2.2.2.2 (Val.int 1) 2 ⟨1, "phone", 99, 10, 0, 1000, 1⟩ (by decide)
    (by decide) (by decide) (by decide) (by decide)
  ⟨h.2.2.2.2.2.1 (fun _ _ => rfl), h8.1, h8.2.2⟩

/-! ## Seckill one operation at a time: the steps of a call alone make up `Seckill` -/

theorem Call.steps_done (c : Call) (n : Nat) (w : World) (r : Except String Order) :
    c.steps n (w, Pc.done r) = (w, Pc.done r) := by
  induction n with
  | zero => rfl
  | succ n ih => simpa [Call.steps, Call.step] using ih

theorem Call.steps_succ (c : Call) (n : Nat) (w : World) (pc : Pc) :
    c.steps (n + 1) (w, pc) = c.steps n (c.step w pc) := rfl

theorem Call.step_start_none (c : Call) (w : World)
    (h : cache.Get w.rdb (tokenKey c.token) = none) :
    c.step w Pc.start = (w, Pc.done (Except.error "invalid token")) := by
  simp [Call.step, h]

theorem Call.step_start_some (c : Call) (w : World) (v : Val)
    (h : cache.Get w.rdb (tokenKey c.token) = some v) :
    c.step w Pc.start = (w, Pc.checked) := by
  simp [Call.step, h]

/-- A call of `Seckill` run alone, one operation after the other, ends after at most nine
operations in the state `Seckill` leaves and with the result `Seckill` returns. -/
theorem Call.steps_eq_Seckill (c : Call) (w : World) :
    c.steps 9 (w, Pc.start) =
      ((Seckill w c.env c.userID c.productID c.token).1,
        Pc.done (Seckill w c.env c.userID c.productID c.token).2) := by
  cases htoken : cache.Get w.rdb (tokenKey c.token) with
  | none =>
    rw [Seckill_of_no_token w c.env c.userID c.productID c.token htoken, Call.steps_succ,
      Call.step_start_none c w htoken, Call.steps_done]
  | some v =>
    rw [Call.steps_succ, Call.step_start_some c w v htoken]
    cases hstock : cache.Get w.rdb (stockKey c.productID) with
    | none =>
      rw [Seckill_of_out_of_stock w c.env c.userID c.productID c.token v htoken
        (Or.inl hstock)]
      have hs := luaScript_of_absent w.rdb (stockKey c.productID)
        (orderKey c.userID c.productID) c.env.orderNo hstock
      rw [Call.steps_succ]
      simp only [Call.step, hs, outOfStock]
      exact Call.steps_done c _ _ _
    | some x =>
      cases x with
      | str s =>
        rw [Seckill_of_script_error w c.env c.userID c.productID c.token v s htoken hstock]
        rw [Call.steps_succ]
        simp only [Call.step, luaScript, tonumber, hstock]
        exact Call.steps_done c _ _ _
      | int n =>
        by_cases hn : n ≤ 0
        · rw [Seckill_of_out_of_stock w c.env c.userID c.productID c.token v htoken
            (Or.inr ⟨n, hn, hstock⟩)]
          have hs := luaScript_of_nonpos w.rdb (stockKey c.productID)
            (orderKey c.userID c.productID) c.env.orderNo n hstock hn
          rw [Call.steps_succ]
          simp only [Call.step, hs, outOfStock]
          exact Call.steps_done c _ _ _
        · have hpos : 0 < n := not_le.mp hn
          have hs := luaScript_of_pos w.rdb (stockKey c.productID)
            (orderKey c.userID c.productID) c.env.orderNo n hstock hpos
          have hp : ∀ rdb1 : Store, World.findProduct { w with rdb := rdb1 } c.productID =
              w.findProduct c.productID := fun _ => rfl
          rw [Call.steps_succ]
          simp only [Call.step, hs, one_ne_zero, if_false]
          rw [Call.steps_succ]
          cases hproduct : w.findProduct c.productID with
          | none =>
            rw [Seckill_of_no_product w c.env c.userID c.productID c.token v n htoken hstock
              hpos hproduct]
            simp only [Call.step, hp, hproduct]
            exact Call.steps_done c _ _ _
          | some product =>
            simp only [Call.step, hp, hproduct]
            have hlk : ∀ x : Option Val, cache.Get w.rdb (lockKey c.env.orderNo) = x →
                cache.Get (cache.Set (cache.Set w.rdb (stockKey c.productID) (Val.int (n - 1)))
                  (orderKey c.userID c.productID) (Val.str c.env.orderNo))
                  (NewDistributedLock (lockKey c.env.orderNo) c.env.lockNanos).key = x := by
              intro x hx
              show cache.Get _ (lockKey c.env.orderNo) = x
              rw [cache.Get_Set_of_ne _ _ _ _ (lockKey_ne_orderKey _ _ _),
                cache.Get_Set_of_ne _ _ _ _ (lockKey_ne_stockKey _ _)]
              exact hx
            cases hlock : cache.Get w.rdb (lockKey c.env.orderNo) with
            | some held =>
              rw [Seckill_of_lock_held w c.env c.userID c.productID c.token v held n product
                htoken hstock hpos hproduct hlock]
              have hl := DistributedLock.Lock_of_held _ _ held (hlk _ hlock)
              simp [Call.steps, Call.step, hl]
            | none =>
              rw [Seckill_of_lock_free w c.env c.userID c.productID c.token v n product
                htoken hstock hpos hproduct hlock]
              have hl := DistributedLock.Lock_of_absent _ _ (hlk _ hlock)
              by_cases hc : c.env.createFails = true
              · simp [Call.steps, Call.step, hl, hc, Pc.unlockResult]
              · simp [Call.steps, Call.step, hl, hc, Pc.unlockResult]

/-! ## What a step of a call does to a token key -/

theorem luaScript_get_other (rdb : Store) (sk ok orderNo key : String) (h1 : key ≠ sk)
    (h2 : key ≠ ok) :
    cache.Get (luaScript rdb sk ok orderNo).1 key = cache.Get rdb key := by
  unfold luaScript
  split
  · rfl
  · split
    · rfl
    · simp only
      rw [cache.Get_Set_of_ne _ _ _ _ h2]
      unfold cache.Decr
      split
      · exact cache.Get_Set_of_ne _ _ _ _ h1
      · exact cache.Get_Set_of_ne _ _ _ _ h1
      · rfl

theorem cache.Incr_get_other (rdb : Store) (key other : String) (h : other ≠ key) :
    cache.Get (cache.Incr rdb key).1 other = cache.Get rdb other := by
  unfold cache.Incr
  split
  · exact cache.Get_Set_of_ne _ _ _ _ h
  · exact cache.Get_Set_of_ne _ _ _ _ h
  · rfl

theorem DistributedLock.Lock_get_other (dl : DistributedLock) (rdb : Store) (other : String)
    (h : other ≠ dl.key) : cache.Get (dl.Lock rdb).1 other = cache.Get rdb other := by
  unfold DistributedLock.Lock cache.SetNX
  split
  · exact cache.Get_Set_of_ne _ _ _ _ h
  · rfl

theorem DistributedLock.Unlock_get_other (dl : DistributedLock) (rdb : Store) (other : String)
    (h : other ≠ dl.key) : cache.Get (dl.Unlock rdb) other = cache.Get rdb other := by
  unfold DistributedLock.Unlock
  split
  · exact cache.Get_Del_of_ne _ _ _ h
  · rfl

/-- Only the operation `cache.Del(tokenKey)` of a call changes what is under a token key. -/
theorem Call.step_get_token (c : Call) (w : World) (pc : Pc) (token : String)
    (hpc : ∀ order : Order, pc ≠ Pc.created order) :
    cache.Get (c.step w pc).1.rdb (tokenKey token) = cache.Get w.rdb (tokenKey token) := by
  have hts : tokenKey token ≠ stockKey c.productID := tokenKey_ne_stockKey _ _
  have hto : tokenKey token ≠ orderKey c.userID c.productID :=
    fun e => orderKey_ne_tokenKey _ _ _ e.symm
  have htl : tokenKey token ≠
      (NewDistributedLock (lockKey c.env.orderNo) c.env.lockNanos).key :=
    fun e => lockKey_ne_tokenKey _ _ e.symm
  have hlua := luaScript_get_other w.rdb (stockKey c.productID)
    (orderKey c.userID c.productID) c.env.orderNo (tokenKey token) hts hto
  cases pc with
  | start =>
    simp only [Call.step]
    split <;> rfl
  | checked =>
    simp only [Call.step]
    split
    · rename_i rdb1 err heq
      rw [heq] at hlua; exact hlua
    · rename_i rdb1 resultArray heq
      rw [heq] at hlua
      split
      · split <;> exact hlua
      · exact hlua
      · exact hlua
  | depleted =>
    simp only [Call.step]
    split <;> rfl
  | locking product remaining =>
    cases remaining with
    | zero => rfl
    | succ r =>
      have hl := DistributedLock.Lock_get_other
        (NewDistributedLock (lockKey c.env.orderNo) c.env.lockNanos) w.rdb _ htl
      simp only [Call.step]
      split
      · rename_i rdb1 heq
        rw [heq] at hl; exact hl
      · rename_i rdb1 heq
        rw [heq] at hl
        split <;> exact hl
  | locked product =>
    simp only [Call.step]
    split <;> rfl
  | rollback => exact cache.Incr_get_other _ _ _ hts
  | created order => exact absurd rfl (hpc order)
  | unlocking order => exact DistributedLock.Unlock_get_other _ _ _ htl
  | done result => rfl

theorem Call.step_created (c : Call) (w : World) (order : Order) :
    c.step w (Pc.created order) =
      ({ w with rdb := cache.Del w.rdb (tokenKey c.token) }, Pc.unlocking (some order)) := rfl

/-- No operation of a call puts a token key back. -/
theorem Call.step_absent_token (c : Call) (w : World) (pc : Pc) (token : String)
    (h : cache.Get w.rdb (tokenKey token) = none) :
    cache.Get (c.step w pc).1.rdb (tokenKey token) = none := by
  by_cases hpc : ∀ order : Order, pc ≠ Pc.created order
  · rw [Call.step_get_token c w pc token hpc]; exact h
  · push_neg at hpc
    obtain ⟨order, rfl⟩ := hpc
    rw [Call.step_created]
    exact cache.absent_Del _ _ _ h


/-! ## How a step moves a call -/

theorem Call.step_checked_cases (c : Call) (w : World) :
    (c.step w Pc.checked).2 = Pc.depleted ∨
      (c.step w Pc.checked).2 = Pc.done (Except.error "out of stock") ∨
      (c.step w Pc.checked).2 =
        Pc.done (Except.error "seckill failed: attempt to compare nil with number") := by
  cases hstock : cache.Get w.rdb (stockKey c.productID) with
  | none =>
    have hs := luaScript_of_absent w.rdb (stockKey c.productID)
      (orderKey c.userID c.productID) c.env.orderNo hstock
    right; left
    simp [Call.step, hs, outOfStock]
  | some x =>
    cases x with
    | str s =>
      right; right
      simp [Call.step, luaScript, tonumber, hstock]
    | int n =>
      by_cases hn : n ≤ 0
      · have hs := luaScript_of_nonpos w.rdb (stockKey c.productID)
          (orderKey c.userID c.productID) c.env.orderNo n hstock hn
        right; left
        simp [Call.step, hs, outOfStock]
      · have hs := luaScript_of_pos w.rdb (stockKey c.productID)
          (orderKey c.userID c.productID) c.env.orderNo n hstock (not_le.mp hn)
        left
        simp [Call.step, hs]

theorem Call.step_deletedToken (c : Call) (w : World) (pc : Pc) :
    (c.step w pc).2.deletedToken ↔ pc.deletedToken ∨ ∃ order : Order, pc = Pc.created order := by
  cases pc with
  | start =>
    simp only [Call.step]
    split <;> simp [Pc.deletedToken]
  | checked =>
    rcases Call.step_checked_cases c w with h | h | h <;> rw [h] <;> simp [Pc.deletedToken]
  | depleted =>
    simp only [Call.step]
    split <;> simp [Pc.deletedToken]
  | locking product remaining =>
    cases remaining with
    | zero => simp [Call.step, Pc.deletedToken]
    | succ r =>
      simp only [Call.step]
      split
      · simp [Pc.deletedToken]
      · split <;> simp [Pc.deletedToken]
  | locked product =>
    simp only [Call.step]
    split <;> simp [Pc.deletedToken]
  | rollback => simp [Call.step, Pc.deletedToken]
  | created order => simp [Call.step, Pc.deletedToken]
  | unlocking order =>
    cases order <;> simp [Call.step, Pc.deletedToken, Pc.unlockResult]
  | done result =>
    cases result <;> simp [Call.step, Pc.deletedToken]

theorem Call.step_invalidToken (c : Call) (w : World) (pc : Pc)
    (h : (c.step w pc).2.invalidToken) :
    pc.invalidToken ∨ (pc = Pc.start ∧ cache.Get w.rdb (tokenKey c.token) = none) := by
  unfold Pc.invalidToken at h ⊢
  cases pc with
  | start =>
    cases hg : cache.Get w.rdb (tokenKey c.token) with
    | none => exact Or.inr ⟨rfl, rfl⟩
    | some v =>
      simp [Call.step, hg] at h
  | checked =>
    rcases Call.step_checked_cases c w with h1 | h1 | h1 <;> rw [h1] at h
    · cases h
    · exact absurd (Except.error.inj (Pc.done.inj h)) (by decide)
    · exact absurd (Except.error.inj (Pc.done.inj h)) (by decide)
  | depleted =>
    simp only [Call.step] at h
    split at h
    · exact absurd (Except.error.inj (Pc.done.inj h)) (by decide)
    · cases h
  | locking product remaining =>
    cases remaining with
    | zero => exact absurd (Except.error.inj (Pc.done.inj h)) (by decide)
    | succ r =>
      simp only [Call.step] at h
      split at h
      · cases h
      · split at h
        · exact absurd (Except.error.inj (Pc.done.inj h)) (by decide)
        · cases h
  | locked product =>
    simp only [Call.step] at h
    split at h <;> cases h
  | rollback => cases h
  | created order => cases h
  | unlocking order =>
    cases order with
    | none => exact absurd (Except.error.inj (Pc.done.inj h)) (by decide)
    | some o => cases h
  | done result => exact Or.inl h

theorem Call.step_start (c : Call) (w : World) :
    (cache.Get w.rdb (tokenKey c.token) = none →
        c.step w Pc.start = (w, Pc.done (Except.error "invalid token"))) ∧
      (cache.Get w.rdb (tokenKey c.token) ≠ none → c.step w Pc.start = (w, Pc.checked)) := by
  constructor
  · intro h; simp [Call.step, h]
  · intro h
    cases hg : cache.Get w.rdb (tokenKey c.token) with
    | none => exact absurd hg h
    | some v => simp [Call.step, hg]


/-! ## Two calls presenting the same token -/

theorem Pc.not_deletedToken_start : ¬ Pc.start.deletedToken := fun h => h

theorem Pc.deletedToken_not_invalidToken (pc : Pc) (h : pc.deletedToken)
    (hi : pc.invalidToken) : False := by
  unfold Pc.invalidToken at hi
  rw [hi] at h
  exact h

theorem Sys.step_tokenInvariant (ca cb : Call) (token : String) (ha : ca.token = token)
    (hb : cb.token = token) (s : Sys) (who : Who) (h : s.tokenInvariant token) :
    (s.step ca cb who).tokenInvariant token := by
  obtain ⟨j1, j2, j3, j4⟩ := h
  cases who with
  | A =>
    have hd := Call.step_deletedToken ca s.w s.a
    refine ⟨?_, ?_, ?_, ?_⟩
    · show cache.Get (ca.step s.w s.a).1.rdb (tokenKey token) ≠ none ∨
        (ca.step s.w s.a).2.deletedToken ∨ s.b.deletedToken
      by_cases hc : ∃ order : Order, s.a = Pc.created order
      · exact Or.inr (Or.inl (hd.mpr (Or.inr hc)))
      · rcases j1 with hp | hp | hp
        · left
          rw [Call.step_get_token ca s.w s.a token (fun o e => hc ⟨o, e⟩)]
          exact hp
        · exact Or.inr (Or.inl (hd.mpr (Or.inl hp)))
        · exact Or.inr (Or.inr hp)
    · show (ca.step s.w s.a).2.invalidToken → s.b.deletedToken
      intro hi
      rcases Call.step_invalidToken ca s.w s.a hi with h1 | ⟨h1, h2⟩
      · exact j2 h1
      · rw [ha] at h2
        rcases j1 with hp | hp | hp
        · exact absurd h2 hp
        · rw [h1] at hp; exact absurd hp Pc.not_deletedToken_start
        · exact hp
    · show s.b.invalidToken → (ca.step s.w s.a).2.deletedToken
      intro hi
      exact hd.mpr (Or.inl (j3 hi))
    · show (ca.step s.w s.a).2.deletedToken ∨ s.b.deletedToken →
        cache.Get (ca.step s.w s.a).1.rdb (tokenKey token) = none
      intro hor
      rcases hor with hx | hx
      · rcases hd.mp hx with h1 | ⟨order, h1⟩
        · exact Call.step_absent_token ca s.w s.a token (j4 (Or.inl h1))
        · rw [h1, Call.step_created, ha]
          exact cache.Get_Del_self _ _
      · exact Call.step_absent_token ca s.w s.a token (j4 (Or.inr hx))
  | B =>
    have hd := Call.step_deletedToken cb s.w s.b
    refine ⟨?_, ?_, ?_, ?_⟩
    · show cache.Get (cb.step s.w s.b).1.rdb (tokenKey token) ≠ none ∨
        s.a.deletedToken ∨ (cb.step s.w s.b).2.deletedToken
      by_cases hc : ∃ order : Order, s.b = Pc.created order
      · exact Or.inr (Or.inr (hd.mpr (Or.inr hc)))
      · rcases j1 with hp | hp | hp
        · left
          rw [Call.step_get_token cb s.w s.b token (fun o e => hc ⟨o, e⟩)]
          exact hp
        · exact Or.inr (Or.inl hp)
        · exact Or.inr (Or.inr (hd.mpr (Or.inl hp)))
    · show s.a.invalidToken → (cb.step s.w s.b).2.deletedToken
      intro hi
      exact hd.mpr (Or.inl (j2 hi))
    · show (cb.step s.w s.b).2.invalidToken → s.a.deletedToken
      intro hi
      rcases Call.step_invalidToken cb s.w s.b hi with h1 | ⟨h1, h2⟩
      · exact j3 h1
      · rw [hb] at h2
        rcases j1 with hp | hp | hp
        · exact absurd h2 hp
        · exact hp
        · rw [h1] at hp; exact absurd hp Pc.not_deletedToken_start
    · show s.a.deletedToken ∨ (cb.step s.w s.b).2.deletedToken →
        cache.Get (cb.step s.w s.b).1.rdb (tokenKey token) = none
      intro hor
      rcases hor with hx | hx
      · exact Call.step_absent_token cb s.w s.b token (j4 (Or.inl hx))
      · rcases hd.mp hx with h1 | ⟨order, h1⟩
        · exact Call.step_absent_token cb s.w s.b token (j4 (Or.inr h1))
        · rw [h1, Call.step_created, hb]
          exact cache.Get_Del_self _ _

theorem interleave_tokenInvariant (ca cb : Call) (token : String) (ha : ca.token = token)
    (hb : cb.token = token) (sched : List Who) :
    ∀ s : Sys, s.tokenInvariant token → (interleave ca cb s sched).tokenInvariant token := by
  induction sched with
  | nil => intro s h; exact h
  | cons who rest ih =>
    intro s h
    exact ih _ (Sys.step_tokenInvariant ca cb token ha hb s who h)

theorem interleave_late_check_b (ca cb : Call) (token : String) (hb : cb.token = token)
    (later : List Who) :
    ∀ s : Sys, cache.Get s.w.rdb (tokenKey token) = none →
      (s.b = Pc.start ∨ s.b.invalidToken) →
      (interleave ca cb s later).b = Pc.start ∨ (interleave ca cb s later).b.invalidToken := by
  induction later with
  | nil => intro s _ h; exact h
  | cons who rest ih =>
    intro s habs h
    cases who with
    | A => exact ih _ (Call.step_absent_token ca s.w s.a token habs) h
    | B =>
      apply ih
      · exact Call.step_absent_token cb s.w s.b token habs
      · right
        rcases h with h | h
        · show (cb.step s.w s.b).2.invalidToken
          rw [h, (Call.step_start cb s.w).1 (by rw [hb]; exact habs)]
          rfl
        · show (cb.step s.w s.b).2.invalidToken
          unfold Pc.invalidToken at h
          rw [h]
          rfl

theorem interleave_late_check_a (ca cb : Call) (token : String) (ha : ca.token = token)
    (later : List Who) :
    ∀ s : Sys, cache.Get s.w.rdb (tokenKey token) = none →
      (s.a = Pc.start ∨ s.a.invalidToken) →
      (interleave ca cb s later).a = Pc.start ∨ (interleave ca cb s later).a.invalidToken := by
  induction later with
  | nil => intro s _ h; exact h
  | cons who rest ih =>
    intro s habs h
    cases who with
    | B => exact ih _ (Call.step_absent_token cb s.w s.b token habs) h
    | A =>
      apply ih
      · exact Call.step_absent_token ca s.w s.a token habs
      · right
        rcases h with h | h
        · show (ca.step s.w s.a).2.invalidToken
          rw [h, (Call.step_start ca s.w).1 (by rw [ha]; exact habs)]
          rfl
        · show (ca.step s.w s.a).2.invalidToken
          unfold Pc.invalidToken at h
          rw [h]
          rfl


/-- C14, refuted as stated: alice holds one token for item 1, whose counter is 2.  Two
calls of `Seckill` present the token; both make their token check before either deletes
the token, the first then runs to its end and the second after it.  Both return an
order, two orders are on record and the counter is 0. -/
theorem replay_counterexample :
    cache.Get (GenerateToken demoWorld 5 77 "alice" 1).1.rdb (tokenKey "alice-1-77") =
        some (Val.int 1) ∧
      cache.Get (GenerateToken demoWorld 5 77 "alice" 1).1.rdb (stockKey 1) =
        some (Val.int 2) ∧
      (interleave ⟨⟨"ORD1", 9, false⟩, "alice", 1, "alice-1-77"⟩
          ⟨⟨"ORD2", 10, false⟩, "alice", 1, "alice-1-77"⟩
          ⟨(GenerateToken demoWorld 5 77 "alice" 1).1, Pc.start, Pc.start⟩
          [Who.A, Who.B, Who.A, Who.A, Who.A, Who.A, Who.A, Who.A,
            Who.B, Who.B, Who.B, Who.B, Who.B, Who.B]).a =
        Pc.done (Except.ok ⟨"ORD1", "alice", 1, "phone", 99, "pending"⟩) ∧
      (interleave ⟨⟨"ORD1", 9, false⟩, "alice", 1, "alice-1-77"⟩
          ⟨⟨"ORD2", 10, false⟩, "alice", 1, "alice-1-77"⟩
          ⟨(GenerateToken demoWorld 5 77 "alice" 1).1, Pc.start, Pc.start⟩
          [Who.A, Who.B, Who.A, Who.A, Who.A, Who.A, Who.A, Who.A,
            Who.B, Who.B, Who.B, Who.B, Who.B, Who.B]).b =
        Pc.done (Except.ok ⟨"ORD2", "alice", 1, "phone", 99, "pending"⟩) ∧
      (interleave ⟨⟨"ORD1", 9, false⟩, "alice", 1, "alice-1-77"⟩
          ⟨⟨"ORD2", 10, false⟩, "alice", 1, "alice-1-77"⟩
          ⟨(GenerateToken demoWorld 5 77 "alice" 1).1, Pc.start, Pc.start⟩
          [Who.A, Who.B, Who.A, Who.A, Who.A, Who.A, Who.A, Who.A,
            Who.B, Who.B, Who.B, Who.B, Who.B, Who.B]).w.orders =
        [⟨"ORD1", "alice", 1, "phone", 99, "pending"⟩,
          ⟨"ORD2", "alice", 1, "phone", 99, "pending"⟩] ∧
      cache.Get (interleave ⟨⟨"ORD1", 9, false⟩, "alice", 1, "alice-1-77"⟩
          ⟨⟨"ORD2", 10, false⟩, "alice", 1, "alice-1-77"⟩
          ⟨(GenerateToken demoWorld 5 77 "alice" 1).1, Pc.start, Pc.start⟩
          [Who.A, Who.B, Who.A, Who.A, Who.A, Who.A, Who.A, Who.A,
            Who.B, Who.B, Who.B, Who.B, Who.B, Who.B]).w.rdb (stockKey 1) =
        some (Val.int 0) := by
  decide


/-- C14, amended.  Take the operations of `Seckill` on the stores as the steps of an
interleaving, and two calls that present the same token, present at the start.  In every
interleaving: a call is refused with "invalid token" only if the other call has deleted
the token (it has created its order, and returns it); so the two calls are never both
refused, and of two finished calls one refused means the other returned an order.  Once
one call has deleted the token, the other, if it has not yet made its token check, can
only be refused.  Nothing makes the calls exclude each other before that: when both
token checks come before either deletion, both calls can return an order. -/
theorem replay_interleavings (ca cb : Call) (w : World) (v : Val)
    (hsame : cb.token = ca.token)
    (htoken : cache.Get w.rdb (tokenKey ca.token) = some v) (sched later : List Who) :
    ((interleave ca cb ⟨w, Pc.start, Pc.start⟩ sched).a.invalidToken →
        (interleave ca cb ⟨w, Pc.start, Pc.start⟩ sched).b.deletedToken) ∧
      ((interleave ca cb ⟨w, Pc.start, Pc.start⟩ sched).b.invalidToken →
        (interleave ca cb ⟨w, Pc.start, Pc.start⟩ sched).a.deletedToken) ∧
      ¬ ((interleave ca cb ⟨w, Pc.start, Pc.start⟩ sched).a.invalidToken ∧
        (interleave ca cb ⟨w, Pc.start, Pc.start⟩ sched).b.invalidToken) ∧
      (∀ ra rb : Except String Order,
        (interleave ca cb ⟨w, Pc.start, Pc.start⟩ sched).a = Pc.done ra →
        (interleave ca cb ⟨w, Pc.start, Pc.start⟩ sched).b = Pc.done rb →
        (ra = Except.error "invalid token" → ∃ order : Order, rb = Except.ok order) ∧
        (rb = Except.error "invalid token" → ∃ order : Order, ra = Except.ok order)) ∧
      ((interleave ca cb ⟨w, Pc.start, Pc.start⟩ sched).a.deletedToken →
        (interleave ca cb ⟨w, Pc.start, Pc.start⟩ sched).b = Pc.start →
        (interleave ca cb (interleave ca cb ⟨w, Pc.start, Pc.start⟩ sched) later).b = Pc.start ∨
        (interleave ca cb (interleave ca cb ⟨w, Pc.start, Pc.start⟩ sched)
          later).b.invalidToken) ∧
      ((interleave ca cb ⟨w, Pc.start, Pc.start⟩ sched).b.deletedToken →
        (interleave ca cb ⟨w, Pc.start, Pc.start⟩ sched).a = Pc.start →
        (interleave ca cb (interleave ca cb ⟨w, Pc.start, Pc.start⟩ sched) later).a = Pc.start ∨
        (interleave ca cb (interleave ca cb ⟨w, Pc.start, Pc.start⟩ sched)
          later).a.invalidToken) := by
  have h0 : Sys.tokenInvariant ca.token ⟨w, Pc.start, Pc.start⟩ :=
    ⟨Or.inl (by rw [htoken]; exact fun h => Option.noConfusion h),
      fun h => Pc.noConfusion h, fun h => Pc.noConfusion h,
      fun h => h.elim (fun x => x.elim) (fun x => x.elim)⟩
  obtain ⟨j1, j2, j3, j4⟩ :=
    interleave_tokenInvariant ca cb ca.token rfl hsame sched _ h0
  have hdone : ∀ (pc : Pc) (r : Except String Order), pc.deletedToken → pc = Pc.done r →
      ∃ order : Order, r = Except.ok order := by
    intro pc r hd hpc
    rw [hpc] at hd
    cases r with
    | error e => exact hd.elim
    | ok o => exact ⟨o, rfl⟩
  refine ⟨j2, j3, ?_, ?_, ?_, ?_⟩
  · rintro ⟨ha, hb⟩
    exact Pc.deletedToken_not_invalidToken _ (j2 ha) hb
  · intro ra rb hra hrb
    constructor
    · intro hinv
      exact hdone _ rb (j2 (by unfold Pc.invalidToken; rw [hra, hinv])) hrb
    · intro hinv
      exact hdone _ ra (j3 (by unfold Pc.invalidToken; rw [hrb, hinv])) hra
  · intro hd hstart
    exact interleave_late_check_b ca cb ca.token hsame later _ (j4 (Or.inl hd))
      (Or.inl hstart)
  · intro hd hstart
    exact interleave_late_check_a ca cb ca.token rfl later _ (j4 (Or.inr hd))
      (Or.inl hstart)

/-- The instance of C14 in which the first call runs to its end before the second makes
its token check: the first returns its order and the second "invalid token". -/
theorem replay_interleavings_witness :
    (interleave ⟨⟨"ORD1", 9, false⟩, "alice", 1, "alice-1-77"⟩
        ⟨⟨"ORD2", 10, false⟩, "alice", 1, "alice-1-77"⟩
        ⟨(GenerateToken demoWorld 5 77 "alice" 1).1, Pc.start, Pc.start⟩
        [Who.A, Who.A, Who.A, Who.A, Who.A, Who.A, Who.A, Who.B]).a =
        Pc.done (Except.ok ⟨"ORD1", "alice", 1, "phone", 99, "pending"⟩) ∧
      (interleave ⟨⟨"ORD1", 9, false⟩, "alice", 1, "alice-1-77"⟩
        ⟨⟨"ORD2", 10, false⟩, "alice", 1, "alice-1-77"⟩
        ⟨(GenerateToken demoWorld 5 77 "alice" 1).1, Pc.start, Pc.start⟩
        [Who.A, Who.A, Who.A, Who.A, Who.A, Who.A, Who.A, Who.B]).b =
        Pc.done (Except.error "invalid token") ∧
      ∃ order : Order, Except.ok ⟨"ORD1", "alice", 1, "phone", 99, "pending"⟩ =
        (Except.ok order : Except String Order) :=
  have h := replay_interleavings ⟨⟨"ORD1", 9, false⟩, "alice", 1, "alice-1-77"⟩
    ⟨⟨"ORD2", 10, false⟩, "alice", 1, "alice-1-77"⟩ (GenerateToken demoWorld 5 77 "alice" 1).1
    (Val.int 1) rfl (by decide)
    [Who.A, Who.A, Who.A, Who.A, Who.A, Who.A, Who.A, Who.B] []
  ⟨by decide, by decide,
    (h.2.2.2.1 (Except.ok ⟨"ORD1", "alice", 1, "phone", 99, "pending"⟩)
      (Except.error "invalid token") (by decide) (by decide)).2 rfl⟩

/-! ## The stock counter at the exits of Seckill -/

/-- What `Seckill` does to a stock counter that holds `s`: it leaves `s - 1` when it
returns an order, when the lock is not acquired and when the product row is not found
after the script has served the call; it leaves `s` when the token is missing, when
nothing is in stock and when the insert fails (the one exit that runs `cache.Incr`). -/
theorem Seckill_stock_accounting (w : World) (env : SeckillEnv) (userID : String)
    (productID : Nat) (token : String) (s : Int)
    (hs : cache.Get w.rdb (stockKey productID) = some (Val.int s)) :
    (((∃ order : Order, (Seckill w env userID productID token).2 = Except.ok order) ∨
          (Seckill w env userID productID token).2 = Except.error "failed to acquire lock" ∨
          (Seckill w env userID productID token).2 = Except.error "product not found") ∧
        cache.Get (Seckill w env userID productID token).1.rdb (stockKey productID) =
          some (Val.int (s - 1))) ∨
      (((Seckill w env userID productID token).2 = Except.error "invalid token" ∨
          (Seckill w env userID productID token).2 = Except.error "out of stock" ∨
          (Seckill w env userID productID token).2 = Except.error "failed to create order") ∧
        cache.Get (Seckill w env userID productID token).1.rdb (stockKey productID) =
          some (Val.int s)) := by
  have hsl : stockKey productID ≠ lockKey env.orderNo :=
    fun e => lockKey_ne_stockKey _ _ e.symm
  have hso : stockKey productID ≠ orderKey userID productID :=
    fun e => orderKey_ne_stockKey _ _ _ e.symm
  have hst : stockKey productID ≠ tokenKey token :=
    fun e => tokenKey_ne_stockKey _ _ e.symm
  have h1 : ∀ n : Int, cache.Get (cache.Set (cache.Set w.rdb (stockKey productID)
      (Val.int (n - 1))) (orderKey userID productID) (Val.str env.orderNo))
      (stockKey productID) = some (Val.int (n - 1)) := fun n => by
    rw [cache.Get_Set_of_ne _ _ _ _ hso, cache.Get_Set_self]
  have hn : ∀ n : Int, cache.Get w.rdb (stockKey productID) = some (Val.int n) → n = s := by
    intro n h
    rw [hs] at h
    exact (Val.int.inj (Option.some.inj h)).symm
  apply Seckill_exits w env userID productID token
    (fun r => (((∃ order : Order, r.2 = Except.ok order) ∨
          r.2 = Except.error "failed to acquire lock" ∨
          r.2 = Except.error "product not found") ∧
        cache.Get r.1.rdb (stockKey productID) = some (Val.int (s - 1))) ∨
      ((r.2 = Except.error "invalid token" ∨ r.2 = Except.error "out of stock" ∨
          r.2 = Except.error "failed to create order") ∧
        cache.Get r.1.rdb (stockKey productID) = some (Val.int s)))
  · intro _; exact Or.inr ⟨Or.inl rfl, hs⟩
  · intro x hx
    rw [hs] at hx
    cases hx
  · exact Or.inr ⟨Or.inr (Or.inl rfl), hs⟩
  · intro n _ hget
    rw [← hn n hget]
    exact Or.inl ⟨Or.inr (Or.inr rfl), h1 n⟩
  · intro n _ hget
    rw [← hn n hget]
    exact Or.inl ⟨Or.inr (Or.inl rfl), h1 n⟩
  · intro n product _ hget _
    rw [← hn n hget]
    have h2 : cache.Get (cache.Set (cache.Set (cache.Set w.rdb (stockKey productID)
        (Val.int (n - 1))) (orderKey userID productID) (Val.str env.orderNo))
        (lockKey env.orderNo) (Val.int env.lockNanos)) (stockKey productID) =
        some (Val.int (n - 1)) := by
      rw [cache.Get_Set_of_ne _ _ _ _ hsl]; exact h1 n
    by_cases hc : env.createFails = true
    · right
      dsimp only
      rw [if_pos hc]
      refine ⟨Or.inr (Or.inr rfl), ?_⟩
      show cache.Get (DistributedLock.Unlock _ (cache.Incr _ _).1) _ = _
      rw [DistributedLock.Unlock_get_other _ _ _ hsl]
      simp only [cache.Incr, NewDistributedLock, h2]
      rw [cache.Get_Set_self]
      simp
    · left
      dsimp only
      rw [if_neg hc]
      refine ⟨Or.inl ⟨_, rfl⟩, ?_⟩
      show cache.Get (DistributedLock.Unlock _ (cache.Del _ _)) _ = _
      rw [DistributedLock.Unlock_get_other _ _ _ hsl, cache.Get_Del_of_ne _ _ _ hst]
      exact h2

/-- C15, where the code departs from it: the token is present, the counter of item 7
holds 1 and the product table has no row 7.  The script takes the unit, the product
lookup fails, and `Seckill` returns "product not found" without `cache.Incr`: the
counter is left at 0, one below its value before the call, with no order on record. -/
theorem stock_leak_on_missing_product :
    cache.Get orphanStockWorld.rdb (stockKey 7) = some (Val.int 1) ∧
      (Seckill orphanStockWorld ⟨"ORD1", 9, false⟩ "alice" 7 "alice-7-77").2 =
        Except.error "product not found" ∧
      cache.Get (Seckill orphanStockWorld ⟨"ORD1", 9, false⟩ "alice" 7 "alice-7-77").1.rdb
        (stockKey 7) = some (Val.int 0) ∧
      (Seckill orphanStockWorld ⟨"ORD1", 9, false⟩ "alice" 7 "alice-7-77").1.orders = [] := by
  decide

end GoSeckill
